import Mathlib

/-!
# hexter: block scheduler and patch-bank decoder

A shallow embedding of `src/hexter.c` (the DSSI plugin core of the hexter DX7
emulation) and theorems about it.

Conventions of the embedding.

* `unsigned long` is the 64-bit type of an LP64 target: values are natural
  numbers below `2^64` and subtraction is taken modulo `2^64` (`ulong_sub`).
* Bytes (`unsigned char`) are natural numbers, stored modulo 256.
* Code that lives outside `hexter.c` (the voice renderer, the note and
  controller handlers, `hexter_instance_all_voices_off`,
  `hexter_instance_select_program`) is not executed: every call of it is
  recorded, with its arguments, in a list of `Call`s in program order.
* The result of `pthread_mutex_trylock` is an input of the function that
  calls it (0 means the lock was taken).
* Loops whose termination is not structural run on fuel and return `none`
  when the fuel is used up before the loop condition turns false.
-/

namespace Hexter

/-! ## Events and recorded calls -/

/-- The fields of `snd_seq_event_t` that `hexter.c` reads: the event type,
the timestamp `time.tick` and the members of the `data` union
(`data.note.note`, `data.note.velocity`, `data.control.param`,
`data.control.value`). -/
structure snd_seq_event_t where
  type : Nat
  tick : Nat
  note : Nat
  velocity : Nat
  param : Nat
  value : Int
deriving DecidableEq, Repr

def SND_SEQ_EVENT_NOTEON : Nat := 6
def SND_SEQ_EVENT_NOTEOFF : Nat := 7
def SND_SEQ_EVENT_KEYPRESS : Nat := 8
def SND_SEQ_EVENT_CONTROLLER : Nat := 10
def SND_SEQ_EVENT_CHANPRESS : Nat := 12
def SND_SEQ_EVENT_PITCHBEND : Nat := 13

/-- One recorded call. `handle_event e` marks the entry into
`hexter_handle_event`; the other constructors are the functions defined
outside `hexter.c`, with the arguments they were given. -/
inductive Call where
  | all_voices_off
  | select_program (bank : Int) (program : Int)
  | handle_event (e : snd_seq_event_t)
  | note_off (note velocity : Nat)
  | note_on (note velocity : Nat)
  | key_pressure (note velocity : Nat)
  | control_change (param : Nat) (value : Int)
  | channel_pressure (value : Int)
  | pitch_bend (value : Int)
  | render_voices (samples_done burst_size : Nat) (do_control_update : Bool)
  | eg_init_constants
  | data_performance_init
  | init_controls
deriving DecidableEq, Repr

/-- `hexter_handle_event` (hexter.c 399-433): the switch on the event type. -/
def hexter_handle_event (e : snd_seq_event_t) : List Call :=
  Call.handle_event e ::
    (if e.type = SND_SEQ_EVENT_NOTEOFF then [Call.note_off e.note e.velocity]
     else if e.type = SND_SEQ_EVENT_NOTEON then
       (if e.velocity > 0 then [Call.note_on e.note e.velocity]
        else [Call.note_off e.note 64])
     else if e.type = SND_SEQ_EVENT_KEYPRESS then [Call.key_pressure e.note e.velocity]
     else if e.type = SND_SEQ_EVENT_CONTROLLER then [Call.control_change e.param e.value]
     else if e.type = SND_SEQ_EVENT_CHANPRESS then [Call.channel_pressure e.value]
     else if e.type = SND_SEQ_EVENT_PITCHBEND then [Call.pitch_bend e.value]
     else [])

/-! ## The instance -/

/-- The fields of `hexter_instance_t` that `hexter.c` itself reads or writes in
the audio path or at instantiation. `output` is the connected output buffer;
its sample type is left abstract and `0` is the value `memset` leaves behind.
`patches` is the content of the 128 * 128 bytes that `instance->patches`
points to. The voices and the current program belong to code outside
`hexter.c`; what happens to them is read off the recorded calls. -/
structure hexter_instance_t (α : Type) where
  output : List α
  patches : List Nat
  nugget_remains : Nat
  voicelist_mutex_grab_failed : Int
  pending_program_change : Int

/-- Subtraction of two `unsigned long` values. -/
def ulong_sub (a b : Nat) : Nat :=
  (a + 18446744073709551616 - b) % 18446744073709551616

/-- `dssp_voicelist_mutex_trylock` (hexter.c 64-81). `rc` is what
`pthread_mutex_trylock` returned. The result is the return value, the
instance and the calls made. -/
def dssp_voicelist_mutex_trylock {α : Type} (rc : Int) (inst : hexter_instance_t α) :
    Int × hexter_instance_t α × List Call :=
  if rc ≠ 0 then
    (rc, { inst with voicelist_mutex_grab_failed := 1 }, [])
  else if inst.voicelist_mutex_grab_failed ≠ 0 then
    (0, { inst with voicelist_mutex_grab_failed := 0 }, [Call.all_voices_off])
  else
    (0, inst, [])

/-- `hexter_handle_pending_program_change` (hexter.c 363-375). `rc` is what
`pthread_mutex_trylock` on the patches mutex returned. -/
def hexter_handle_pending_program_change {α : Type} (rc : Int)
    (inst : hexter_instance_t α) : hexter_instance_t α × List Call :=
  if rc ≠ 0 then
    (inst, [])
  else
    ({ inst with pending_program_change := -1 },
     [Call.select_program 0 inst.pending_program_change])

/-- `hexter_select_program` (hexter.c 337-358). `rc` is what
`pthread_mutex_trylock` on the patches mutex returned; the lock is not
attempted when the request is invalid. `bank` and `program` are
`unsigned long`. -/
def hexter_select_program {α : Type} (rc : Int) (inst : hexter_instance_t α)
    (bank program : Nat) : hexter_instance_t α × List Call :=
  if bank ≠ 0 ∨ program ≥ 128 then
    (inst, [])
  else if rc ≠ 0 then
    ({ inst with pending_program_change := (program : Int) }, [])
  else
    (inst, [Call.select_program (bank : Int) (program : Int)])

/-- The inner loop of `hexter_run_synth` (hexter.c 469-473). The cursor
`events + event_index` is the list of events not yet consumed. Returns the
calls made and the events left. -/
def process_ready_events (samples_done : Nat) :
    List snd_seq_event_t → List Call × List snd_seq_event_t
  | [] => ([], [])
  | e :: rest =>
    if samples_done = e.tick then
      let r := process_ready_events samples_done rest
      (hexter_handle_event e ++ r.1, r.2)
    else
      ([], e :: rest)

/-- The burst size computed at hexter.c 484-498, from the quantum size, the
block size, the samples done, the (already reset) quantum remainder and the
events left after the ready ones have been handled. -/
def burst_size (Q sample_count samples_done nugget_remains : Nat)
    (events : List snd_seq_event_t) : Nat :=
  let b0 := Q
  let b1 := if nugget_remains < b0 then nugget_remains else b0
  let b2 := match events with
    | [] => b1
    | e :: _ => if ulong_sub e.tick samples_done < b1 then ulong_sub e.tick samples_done else b1
  if ulong_sub sample_count samples_done < b2 then ulong_sub sample_count samples_done else b2

/-- The render loop of `hexter_run_synth` (hexter.c 463-505), with
`Q = HEXTER_NUGGET_SIZE`. Returns the final `nugget_remains` and the calls
made, or `none` when the fuel runs out with `samples_done < sample_count`. -/
def render_loop (Q sample_count : Nat) :
    Nat → Nat → Nat → List snd_seq_event_t → Option (Nat × List Call)
  | 0, samples_done, nugget_remains, _ =>
    if samples_done < sample_count then none else some (nugget_remains, [])
  | fuel + 1, samples_done, nugget_remains, events =>
    if samples_done < sample_count then
      let nugget := if nugget_remains = 0 then Q else nugget_remains
      let r := process_ready_events samples_done events
      let b := burst_size Q sample_count samples_done nugget r.2
      match render_loop Q sample_count fuel ((samples_done + b) % 18446744073709551616)
          (ulong_sub nugget b) r.2 with
      | none => none
      | some (n, cs) =>
        some (n, r.1 ++ Call.render_voices samples_done b (b == nugget) :: cs)
    else some (nugget_remains, [])

/-- `hexter_run_synth` (hexter.c 435-508). `rc_voicelist` and `rc_patches` are
the results of the two `pthread_mutex_trylock` calls. The result is the
instance after the call and the calls made during it. The writes of
`hexter_instance_render_voices` into `output` are represented by its recorded
calls only. The redirection of the volume port to the global gain override
(hexter.c 441-444) touches no field modelled here and is left out. -/
def hexter_run_synth {α : Type} [Zero α] (Q fuel : Nat) (rc_voicelist rc_patches : Int)
    (inst : hexter_instance_t α) (sample_count : Nat) (events : List snd_seq_event_t) :
    Option (hexter_instance_t α × List Call) :=
  let i0 := { inst with
    output := List.replicate sample_count 0 ++ inst.output.drop sample_count }
  let t := dssp_voicelist_mutex_trylock rc_voicelist i0
  if t.1 ≠ 0 then some (t.2.1, t.2.2)
  else
    let p := if t.2.1.pending_program_change > -1
      then hexter_handle_pending_program_change rc_patches t.2.1
      else (t.2.1, [])
    match render_loop Q sample_count fuel 0 p.1.nugget_remains events with
    | none => none
    | some (n, cs) => some ({ p.1 with nugget_remains := n }, t.2.2 ++ p.2 ++ cs)

/-! ## The patch-bank decoder -/

/-- Modelled from the spec: `dx7_voice.h` is not among the sources. The size of a
canonical packed patch record, 128 bytes. -/
def DX7_VOICE_SIZE_PACKED : Nat := 128

/-- Modelled from the spec: `dx7_voice.h` is not among the sources. The size of
the unpacked single-voice parameter block, 155 bytes. -/
def DX7_VOICE_SIZE_UNPACKED : Nat := 155

/-- Modelled from the spec: `dx7_voice.h` is not among the sources. The size of a
32-voice bulk dump: 6 header bytes, 4096 data bytes, a checksum byte and the
end-of-exclusive byte. -/
def DX7_DUMP_SIZE_VOICE_BULK : Nat := 4096 + 8

/-- Modelled from the spec: `dx7_voice.h` is not among the sources. The size of a
single-voice dump: 6 header bytes, 155 data bytes, a checksum byte and the
end-of-exclusive byte. -/
def DX7_DUMP_SIZE_VOICE_SINGLE : Nat := 155 + 8

/-- The `n` bytes of `buf` from offset `off` on. -/
def bytes_at (buf : List Nat) (off n : Nat) : List Nat :=
  (buf.drop off).take n

/-- The buffer `buf` after `bytes` have been stored from offset `dst` on. -/
def write_bytes (buf : List Nat) (dst : Nat) (bytes : List Nat) : List Nat :=
  buf.take dst ++ bytes ++ buf.drop (dst + bytes.length)

/-- The buffer after `memmove (buf + dst, buf + src, n)`. -/
def memmove (buf : List Nat) (dst src n : Nat) : List Nat :=
  write_bytes buf dst (bytes_at buf src n)

/-- The test of hexter.c 731-737: a 32-voice dump starts at `patchstart`. -/
def is_bulk_dump (raw : List Nat) (midshift filelength patchstart : Nat) : Bool :=
  raw.getD patchstart 0 == 0xf0 &&
  raw.getD (patchstart + 1 + midshift) 0 == 0x43 &&
  decide (raw.getD (patchstart + 2 + midshift) 0 ≤ 0x0f) &&
  raw.getD (patchstart + 3 + midshift) 0 == 0x09 &&
  raw.getD (patchstart + 5 + midshift) 0 == 0x00 &&
  decide (patchstart + 4103 + midshift < filelength) &&
  raw.getD (patchstart + 4103 + midshift) 0 == 0xf7

/-- The test of hexter.c 744-750: a single-voice dump starts at `patchstart`. -/
def is_single_dump (raw : List Nat) (midshift filelength patchstart : Nat) : Bool :=
  raw.getD patchstart 0 == 0xf0 &&
  raw.getD (patchstart + midshift + 1) 0 == 0x43 &&
  decide (raw.getD (patchstart + midshift + 2) 0 ≤ 0x0f) &&
  raw.getD (patchstart + midshift + 4) 0 == 0x01 &&
  raw.getD (patchstart + midshift + 5) 0 == 0x1b &&
  decide (patchstart + midshift + 162 < filelength) &&
  raw.getD (patchstart + midshift + 162) 0 == 0xf7

/-- The SysEx scan of hexter.c 729-762. `pack u` is the content of the 128-byte
buffer `buf` after `dx7_patch_pack` has been given the unpacked voice `u`.
Returns `count` and the buffer, or `none` when the fuel runs out before the
loop condition is false. -/
def sysex_scan (pack : List Nat → List Nat) (midshift filelength : Nat) :
    Nat → Nat → Nat → List Nat → Option (Nat × List Nat)
  | 0, patchstart, count, raw =>
    if patchstart + midshift + 5 < filelength then none else some (count, raw)
  | fuel + 1, patchstart, count, raw =>
    if patchstart + midshift + 5 < filelength then
      if is_bulk_dump raw midshift filelength patchstart then
        sysex_scan pack midshift filelength fuel
          (patchstart + (DX7_DUMP_SIZE_VOICE_BULK - 1) + 1) (count + 32)
          (memmove raw (count * DX7_VOICE_SIZE_PACKED) (patchstart + 6 + midshift) 4096)
      else if is_single_dump raw midshift filelength patchstart then
        sysex_scan pack midshift filelength fuel
          (patchstart + (DX7_DUMP_SIZE_VOICE_SINGLE - 1) + 1) (count + 1)
          (write_bytes raw (count * DX7_VOICE_SIZE_PACKED)
            ((pack (bytes_at raw (patchstart + midshift + 6) DX7_VOICE_SIZE_UNPACKED)).take
              DX7_VOICE_SIZE_PACKED))
      else
        sysex_scan pack midshift filelength fuel (patchstart + 1) count raw
    else some (count, raw)

/-- The comparison `!strcmp (filename + filename_length - 4, ext)`: the last four
characters of the file name are `ext`. -/
def has_extension (filename ext : String) : Bool :=
  filename.data.drop (filename.length - 4) == ext.data

/-- One operator of one voice of the DX200 transcoding (hexter.c 821-849). -/
def dx2_operator (count : Nat) (raw : List Nat) (op : Nat) : List Nat :=
  let s := 16384 + 35 * op + 381 * count
  let d := 17 * (5 - op) + 128 * count
  let raw := (List.range 8).foldl (fun r i => r.set (d + i) (r.getD (s + 76 + i) 0)) raw
  let raw := raw.set (d + 8) ((raw.getD (s + 84) 0 + 256 - 21) % 256)
  let raw := raw.set (d + 9) (raw.getD (s + 87) 0)
  let raw := raw.set (d + 10) (raw.getD (s + 88) 0)
  let raw := raw.set (d + 11) ((raw.getD (s + 85) 0 + raw.getD (s + 86) 0 * 4) % 256)
  let raw := raw.set (d + 12) ((raw.getD (s + 89) 0 + raw.getD (s + 75) 0 * 8) % 256)
  let raw := if raw.getD (s + 71) 0 > 3 then raw.set (s + 71) 3 else raw
  let raw := raw.set (d + 13) ((raw.getD (s + 71) 0 / 2 + raw.getD (s + 91) 0 * 4) % 256)
  let raw := raw.set (d + 14) (raw.getD (s + 90) 0)
  let raw := raw.set (d + 15) ((raw.getD (s + 72) 0 + raw.getD (s + 73) 0 * 2) % 256)
  raw.set (d + 16) (raw.getD (s + 74) 0)

/-- One voice of the DX200 transcoding (hexter.c 819-881). -/
def dx2_voice (raw : List Nat) (count : Nat) : List Nat :=
  let g := 16384 + 381 * count
  let d := 128 * count
  let raw := (List.range 6).foldl (dx2_operator count) raw
  let raw := (List.range 4).foldl (fun r i => r.set (102 + i + d) (r.getD (g + 26 + i) 0)) raw
  let raw := (List.range 4).foldl (fun r i => r.set (106 + i + d) (r.getD (g + 32 + i) 0)) raw
  let raw := raw.set (110 + d) (raw.getD (g + 17) 0)
  let raw := raw.set (111 + d) ((raw.getD (g + 18) 0 + raw.getD (g + 38) 0 * 8) % 256)
  let raw := (List.range 4).foldl (fun r i => r.set (112 + i + d) (r.getD (g + 20 + i) 0)) raw
  let raw := raw.set (116 + d)
    ((raw.getD (g + 24) 0 + raw.getD (g + 19) 0 * 2 + raw.getD (g + 25) 0 * 16) % 256)
  let raw := raw.set (117 + d) ((raw.getD (g + 37) 0 + 256 - 36) % 256)
  (List.range 10).foldl (fun r i => r.set (118 + i + d) (r.getD (g + i) 0)) raw

/-- The DX200 transcoding of hexter.c 816-882. -/
def dx2_transcode (raw : List Nat) : List Nat :=
  (List.range 128).foldl dx2_voice (memmove raw 16384 34 (128 * 381))

/-- The state of the decoder between the read of the file and the final copy. -/
structure decode_state where
  count : Nat
  datastart : Nat
  filelength : Nat
  raw_patch_data : List Nat
deriving DecidableEq, Repr

/-- The vendor special cases of hexter.c 770-888, in program order. -/
def vendor_cases (filename : String) (st : decode_state) : decode_state :=
  let st := if (has_extension filename ".TX7" || has_extension filename ".SND" ||
                has_extension filename ".tx7" || has_extension filename ".snd") &&
               st.filelength == 8192
    then { st with count := 32, filelength := 4096 } else st
  let st := if (has_extension filename ".BNK" || has_extension filename ".bnk") &&
               st.filelength == 8192
    then { st with
      raw_patch_data := (List.range 32).foldl
        (fun r i => memmove r (128 * i) (256 * i) 128) st.raw_patch_data,
      count := 32, filelength := 4096 } else st
  let st := if (has_extension filename ".SND" || has_extension filename ".snd") &&
               st.filelength == 5216
    then { st with count := 32, filelength := 4096 } else st
  let st := if (st.filelength == 9816 || st.filelength == 5663) &&
               st.raw_patch_data.getD 0 0 == 0xdf && st.raw_patch_data.getD 1 0 == 0x05 &&
               st.raw_patch_data.getD 2 0 == 0x01 && st.raw_patch_data.getD 3 0 == 0x00
    then { st with count := 32, datastart := 0x60f } else st
  if (has_extension filename ".DX2" || has_extension filename ".dx2") &&
     st.filelength == 326454
  then { raw_patch_data := dx2_transcode st.raw_patch_data,
         count := 128, filelength := 16384, datastart := 0 }
  else st

/-- The value given to `midshift` at hexter.c 717-724: 2 when the file starts with
the standard MIDI file magic "MThd", else 0. -/
def midi_shift (data : List Nat) : Nat :=
  if data.getD 0 0 == 0x4d && data.getD 1 0 == 0x54 &&
     data.getD 2 0 == 0x68 && data.getD 3 0 == 0x64 then 2 else 0

/-- The decoding proper, hexter.c 715-888: the MIDI-file test, the SysEx scan
(on fuel `filelength`), the raw fallback and the vendor special cases. -/
def dx7_patchbank_decode (pack : List Nat → List Nat) (filename : String)
    (data : List Nat) : Option decode_state :=
  let filelength := data.length
  let midshift := midi_shift data
  match sysex_scan pack midshift filelength filelength 0 0 data with
  | none => none
  | some (count, raw) =>
    let count := if count == 0 then filelength / DX7_VOICE_SIZE_PACKED else count
    some (vendor_cases filename
      { count := count, datastart := 0, filelength := filelength, raw_patch_data := raw })

/-- What the C library reports for the file: whether `fopen` succeeded, the
text of `strerror (errno)`, whether `fseek`/`ftell` succeeded, the bytes of
the file, whether `malloc` succeeded and whether `fread` read them all. -/
structure patch_file where
  fopen_ok : Bool
  strerror : String
  ftell_ok : Bool
  data : List Nat
  malloc_ok : Bool
  fread_ok : Bool

/-- The outcome of `dx7_patchbank_load_init`: the value returned, the bytes at
`firstpatch`, and the message stored through `errmsg` if one was stored. -/
structure load_result where
  count : Nat
  firstpatch : List Nat
  errmsg : Option String
deriving DecidableEq, Repr

/-- The statement `if (errmsg) *errmsg = msg; return 0;`. -/
def reject (firstpatch : List Nat) (has_errmsg : Bool) (msg : String) : load_result :=
  { count := 0, firstpatch := firstpatch, errmsg := if has_errmsg then some msg else none }

/-- `dx7_patchbank_load_init` (hexter.c 656-896). `firstpatch` is the content of
the destination, `has_errmsg` tells whether the `errmsg` pointer is non-null.
`maxpatches` and the counts are non-negative `int`s. -/
def dx7_patchbank_load_init (pack : List Nat → List Nat) (filename : String)
    (file : patch_file) (firstpatch : List Nat) (maxpatches : Nat) (has_errmsg : Bool) :
    Option load_result :=
  let filelength := file.data.length
  if !file.fopen_ok then
    some (reject firstpatch has_errmsg
      ("could not open file \x27" ++ filename ++ "\x27 for reading: " ++ file.strerror))
  else if !file.ftell_ok then
    some (reject firstpatch has_errmsg
      ("couldn\x27t get length of patch file: " ++ file.strerror))
  else if filelength = 0 then
    some (reject firstpatch has_errmsg "patch file has zero length")
  else if filelength > 2097152 then
    some (reject firstpatch has_errmsg "patch file is too large")
  else if filelength < 128 then
    some (reject firstpatch has_errmsg "patch file is too small")
  else if !file.malloc_ok then
    some (reject firstpatch has_errmsg "couldn\x27t allocate memory for raw patch file")
  else if !file.fread_ok then
    some (reject firstpatch has_errmsg ("short read on patch file: " ++ file.strerror))
  else
    match dx7_patchbank_decode pack filename file.data with
    | none => none
    | some st =>
      let count := if st.count > maxpatches then maxpatches else st.count
      some { count := count,
             firstpatch := write_bytes firstpatch 0
               (bytes_at st.raw_patch_data st.datastart (128 * count)),
             errmsg := none }

/-- `hexter_instantiate` (hexter.c 102-171), the part that sets the fields of
`hexter_instance_t` above. `alloc_ok` tells whether the allocations succeeded,
`heap` is the content of the block `malloc` returned for the patches,
`default_bank` is the value of `HEXTER_DEFAULT_BANK_PATH` with the file it
names, and `init_patches` is what `hexter_data_patches_init` stores. -/
def hexter_instantiate {α : Type} (pack : List Nat → List Nat) (alloc_ok : Bool)
    (heap : List Nat) (default_bank : Option (String × patch_file))
    (init_patches : List Nat) : Option (hexter_instance_t α × List Call) :=
  if !alloc_ok then none
  else
    let patches : Option (List Nat) := match default_bank with
      | some (path, file) =>
        (dx7_patchbank_load_init pack path file heap 128 false).map (fun r => r.firstpatch)
      | none => some init_patches
    patches.map (fun ps =>
      ({ output := [], patches := ps, nugget_remains := 0,
         voicelist_mutex_grab_failed := 0, pending_program_change := -1 },
       [Call.eg_init_constants, Call.data_performance_init,
        Call.select_program 0 0, Call.init_controls]))

/-! ## Observations on the recorded calls -/

/-- The `(offset, burst_size)` pairs given to `hexter_instance_render_voices`, in
call order. -/
def bursts (cs : List Call) : List (Nat × Nat) :=
  cs.filterMap (fun c => match c with
    | Call.render_voices s b _ => some (s, b)
    | _ => none)

/-- The events given to `hexter_handle_event`, in call order. -/
def applied_events (cs : List Call) : List snd_seq_event_t :=
  cs.filterMap (fun c => match c with
    | Call.handle_event e => some e
    | _ => none)

/-- Every burst starts where the one before it ended, the first one at `start`. -/
def contiguous_from : Nat → List (Nat × Nat) → Prop
  | _, [] => True
  | start, p :: rest => p.1 = start ∧ contiguous_from (start + p.2) rest

/-- The sum of the burst sizes. -/
def total_size (bs : List (Nat × Nat)) : Nat :=
  (bs.map Prod.snd).sum

/-- Read along the calls with `done` the number of samples rendered so far (the
sum of the burst sizes seen): every event is handled when `done` equals its
timestamp, and the burst that follows it starts at that offset. -/
def events_on_time : Nat → List Call → Prop
  | _, [] => True
  | done, Call.handle_event e :: rest =>
    e.tick = done ∧ (∃ b, (bursts rest).head? = some (done, b)) ∧ events_on_time done rest
  | done, Call.render_voices _ b _ :: rest => events_on_time (done + b) rest
  | done, _ :: rest => events_on_time done rest

/-- The calls a block makes between taking the voice-list lock and entering the
render loop: the recovery of the guard, then the pending program change. -/
def prologue_calls {α : Type} (rc_patches : Int) (inst : hexter_instance_t α) : List Call :=
  (if inst.voicelist_mutex_grab_failed ≠ 0 then [Call.all_voices_off] else []) ++
  (if inst.pending_program_change > -1 ∧ rc_patches = 0
   then [Call.select_program 0 inst.pending_program_change] else [])

/-- The value of `pending_program_change` when the render loop is entered. -/
def pending_after {α : Type} (rc_patches : Int) (inst : hexter_instance_t α) : Int :=
  if inst.pending_program_change > -1 ∧ rc_patches = 0 then -1
  else inst.pending_program_change

/-- One audio block as the host and the other threads present it: the results of
the two try-locks, the block size and the events. -/
structure block where
  rc_voicelist : Int
  rc_patches : Int
  sample_count : Nat
  events : List snd_seq_event_t

/-- What one block did: the instance before and after it, and the calls made. -/
structure block_record (α : Type) where
  before : hexter_instance_t α
  after : hexter_instance_t α
  calls : List Call

/-- A sequence of `hexter_run_synth` calls on one instance, each on fuel
`sample_count`. -/
def run_blocks {α : Type} [Zero α] (Q : Nat) :
    List block → hexter_instance_t α → Option (List (block_record α))
  | [], _ => some []
  | b :: bs, inst =>
    match hexter_run_synth Q b.sample_count b.rc_voicelist b.rc_patches inst
        b.sample_count b.events with
    | none => none
    | some r =>
      (run_blocks Q bs r.1).map (fun rs => { before := inst, after := r.1, calls := r.2 } :: rs)

/-- The SysEx scan matches no header anywhere in the file. -/
def no_sysex_header (data : List Nat) : Prop :=
  ∀ p, is_bulk_dump data (midi_shift data) data.length p = false ∧
       is_single_dump data (midi_shift data) data.length p = false

/-- The file name ends in one of the extensions the vendor cases for 8192-byte
files look for. -/
def vendor_extension_8192 (filename : String) : Bool :=
  has_extension filename ".TX7" || has_extension filename ".SND" ||
  has_extension filename ".tx7" || has_extension filename ".snd" ||
  has_extension filename ".BNK" || has_extension filename ".bnk"

/-- Three blocks for one instance: the voice-list lock is missed twice, then
taken. -/
def example_blocks : List block :=
  [{ rc_voicelist := 16, rc_patches := 0, sample_count := 8, events := [] },
   { rc_voicelist := 16, rc_patches := 0, sample_count := 8,
     events := [⟨6, 0, 60, 100, 0, 0⟩] },
   { rc_voicelist := 0, rc_patches := 0, sample_count := 8,
     events := [⟨6, 2, 60, 100, 0, 0⟩, ⟨7, 5, 60, 0, 0, 0⟩] }]

/-- An instance as `hexter_instantiate` leaves it, with a program change pending. -/
def example_instance : hexter_instance_t Int :=
  { output := List.replicate 8 1, patches := [], nugget_remains := 0,
    voicelist_mutex_grab_failed := 0, pending_program_change := 3 }

/-- A file with content `data` that the C library opens, measures and reads
without error. -/
def readable_file (data : List Nat) : patch_file :=
  { fopen_ok := true, strerror := "", ftell_ok := true, data := data,
    malloc_ok := true, fread_ok := true }

/-- A stand-in for `dx7_patch_pack` in concrete examples: it keeps the first 128
bytes of the unpacked voice. -/
def example_pack (u : List Nat) : List Nat :=
  u.take 128

/-- The program given to the most recent `hexter_instance_select_program` call,
if there was one. -/
def last_selected_program : List Call → Option Int
  | [] => none
  | Call.select_program _ p :: rest =>
    match last_selected_program rest with
    | some q => some q
    | none => some p
  | _ :: rest => last_selected_program rest

/-- The call is a `hexter_instance_select_program` call. -/
def is_select_program : Call → Bool
  | Call.select_program _ _ => true
  | _ => false

/-- Two program requests with no audio block between them, then one block in
which both try-locks succeed. `rc1` and `rc2` are the results of the patches
try-lock in the two requests. Returns the instance and all calls made, in
order. -/
def two_requests_then_block {α : Type} [Zero α] (Q fuel : Nat) (rc1 rc2 : Int)
    (inst : hexter_instance_t α) (p1 p2 : Nat) (sample_count : Nat)
    (events : List snd_seq_event_t) : Option (hexter_instance_t α × List Call) :=
  let a := hexter_select_program rc1 inst 0 p1
  let b := hexter_select_program rc2 a.1 0 p2
  (hexter_run_synth Q fuel 0 0 b.1 sample_count events).map
    (fun r => (r.1, a.2 ++ b.2 ++ r.2))

/-- The longest prefix of the events in which every timestamp is below
`sample_count` and not smaller than the one before it (`prev` for the first). -/
def ordered_run (sample_count : Nat) : Nat → List snd_seq_event_t → List snd_seq_event_t
  | _, [] => []
  | prev, e :: rest =>
    if prev ≤ e.tick ∧ e.tick < sample_count then e :: ordered_run sample_count e.tick rest
    else []

/-- Read along the calls with `done` the number of samples rendered so far: the
end-of-quantum flag of every burst is set exactly when the burst ends on a
positive multiple of `Q`. -/
def quantum_flags_ok (Q : Nat) : Nat → List Call → Prop
  | _, [] => True
  | done, Call.render_voices _ b f :: rest =>
    (f = true ↔ 0 < done + b ∧ (done + b) % Q = 0) ∧ quantum_flags_ok Q (done + b) rest
  | done, _ :: rest => quantum_flags_ok Q done rest

/-- The absolute positions (samples rendered since `done = 0`) at which a burst
with the end-of-quantum flag set ends. -/
def completed_quanta : Nat → List Call → List Nat
  | _, [] => []
  | done, Call.render_voices _ b f :: rest =>
    (if f then [done + b] else []) ++ completed_quanta (done + b) rest
  | done, _ :: rest => completed_quanta done rest

/-- The early-return tests of `dx7_patchbank_load_init` (hexter.c 676-713): the
file cannot be opened, measured, allocated for or read, or its length is
outside `[128, 2097152]`. -/
def file_rejected (file : patch_file) : Bool :=
  !file.fopen_ok || !file.ftell_ok || file.data.length == 0 ||
  decide (file.data.length > 2097152) || decide (file.data.length < 128) ||
  !file.malloc_ok || !file.fread_ok

/-- The calls of a sequence of blocks, in order. -/
def all_calls {α : Type} : List (block_record α) → List Call
  | [] => []
  | r :: rs => r.calls ++ all_calls rs

/-- The number of samples a sequence of blocks asks for. -/
def total_samples : List block → Nat
  | [] => 0
  | b :: bs => b.sample_count + total_samples bs

/-- Two blocks of 3 and 7 samples that both take the voice-list lock. -/
def example_locked_blocks : List block :=
  [{ rc_voicelist := 0, rc_patches := 0, sample_count := 3,
     events := [⟨6, 1, 60, 100, 0, 0⟩] },
   { rc_voicelist := 0, rc_patches := 16, sample_count := 7,
     events := [⟨7, 0, 60, 0, 0, 0⟩, ⟨6, 6, 62, 100, 0, 0⟩] }]

/-- The buffer after the first `n` iterations of the de-interleaving loop of the
`.BNK` case (hexter.c 785-788); the case itself runs 32 of them. -/
def bnk_steps (raw : List Nat) (n : Nat) : List Nat :=
  (List.range n).foldl (fun r i => memmove r (128 * i) (256 * i) 128) raw

/-- The scan of hexter.c 729-762 with each iteration of its loop recorded as
`(patchstart, count, outcome)`: the cursor and the patch count when the body
starts, and as outcome 2 when the 32-voice test succeeded, 1 when the
single-voice test did, 0 when neither did. Same recursion and fuel as
`sysex_scan`. -/
def sysex_scan_steps (pack : List Nat → List Nat) (midshift filelength : Nat) :
    Nat → Nat → Nat → List Nat → List (Nat × Nat × Nat)
  | 0, _, _, _ => []
  | fuel + 1, patchstart, count, raw =>
    if patchstart + midshift + 5 < filelength then
      if is_bulk_dump raw midshift filelength patchstart then
        (patchstart, count, 2) ::
          sysex_scan_steps pack midshift filelength fuel
            (patchstart + (DX7_DUMP_SIZE_VOICE_BULK - 1) + 1) (count + 32)
            (memmove raw (count * DX7_VOICE_SIZE_PACKED) (patchstart + 6 + midshift) 4096)
      else if is_single_dump raw midshift filelength patchstart then
        (patchstart, count, 1) ::
          sysex_scan_steps pack midshift filelength fuel
            (patchstart + (DX7_DUMP_SIZE_VOICE_SINGLE - 1) + 1) (count + 1)
            (write_bytes raw (count * DX7_VOICE_SIZE_PACKED)
              ((pack (bytes_at raw (patchstart + midshift + 6) DX7_VOICE_SIZE_UNPACKED)).take
                DX7_VOICE_SIZE_PACKED))
      else
        (patchstart, count, 0) ::
          sysex_scan_steps pack midshift filelength fuel (patchstart + 1) count raw
    else []

/-- A SysEx dump as it lies in a file: a 32-voice dump `F0 43 0n 09 b4 00`,
payload, checksum byte, `F7`, or a single-voice dump `F0 43 0n b3 01 1B`,
payload, checksum byte, `F7`. -/
inductive sysex_dump where
  | bulk (n b4 : Nat) (payload : List Nat) (ck : Nat)
  | single (n b3 : Nat) (payload : List Nat) (ck : Nat)
deriving DecidableEq, Repr

/-- The bytes of a dump. -/
def dump_bytes : sysex_dump → List Nat
  | .bulk n b4 payload ck => [0xf0, 0x43, n, 0x09, b4, 0x00] ++ payload ++ [ck, 0xf7]
  | .single n b3 payload ck => [0xf0, 0x43, n, b3, 0x01, 0x1b] ++ payload ++ [ck, 0xf7]

/-- A dump is well formed when its channel nibble is at most 15 and its payload
has 4096 bytes (32-voice) or 155 bytes (single voice), which makes it 4104 or
163 bytes long. -/
def dump_ok : sysex_dump → Prop
  | .bulk n _ payload _ => n ≤ 0x0f ∧ payload.length = 4096
  | .single n _ payload _ => n ≤ 0x0f ∧ payload.length = 155

/-- Size in bytes of a well-formed dump. -/
def dump_size : sysex_dump → Nat
  | .bulk _ _ _ _ => 4104
  | .single _ _ _ _ => 163

/-- Number of patches a dump carries. -/
def dump_count : sysex_dump → Nat
  | .bulk _ _ _ _ => 32
  | .single _ _ _ _ => 1

/-- The outcome `sysex_scan_steps` records for a dump of this kind. -/
def dump_outcome : sysex_dump → Nat
  | .bulk _ _ _ _ => 2
  | .single _ _ _ _ => 1

/-- The packed patches a dump carries: the payload of a 32-voice dump as it is,
the payload of a single-voice dump packed. -/
def dump_patches (pack : List Nat → List Nat) : sysex_dump → List Nat
  | .bulk _ _ payload _ => payload
  | .single _ _ payload _ => pack payload

/-- A file made of dumps one after the other. -/
def dumps_file : List sysex_dump → List Nat
  | [] => []
  | d :: ds => dump_bytes d ++ dumps_file ds

/-- The patches of a sequence of dumps, in order. -/
def dumps_patches (pack : List Nat → List Nat) : List sysex_dump → List Nat
  | [] => []
  | d :: ds => dump_patches pack d ++ dumps_patches pack ds

/-- The number of patches of a sequence of dumps. -/
def dumps_count : List sysex_dump → Nat
  | [] => 0
  | d :: ds => dump_count d + dumps_count ds

/-- One scan iteration per dump: at the dump's first byte, with the patches of
the dumps before it counted. -/
def dumps_steps : Nat → Nat → List sysex_dump → List (Nat × Nat × Nat)
  | _, _, [] => []
  | patchstart, count, d :: ds =>
    (patchstart, count, dump_outcome d) ::
      dumps_steps (patchstart + dump_size d) (count + dump_count d) ds
/-- Fifty-five 32-voice dumps followed by 618 single-voice dumps, all payload
bytes zero: 55 * 4104 + 618 * 163 = 326454 bytes, the size of a DX200 editor
file, carrying 55 * 32 + 618 = 2378 patches. -/
def example_dx2_sized_dumps : List sysex_dump :=
  List.replicate 55 (sysex_dump.bulk 0 0x20 (List.replicate 4096 0) 0) ++
    List.replicate 618 (sysex_dump.single 0 0 (List.replicate 155 0) 0)

/-- A single-voice dump followed by a 32-voice dump. -/
def example_two_dumps : List sysex_dump :=
  [sysex_dump.single 0 0 (List.replicate 155 7) 1,
   sysex_dump.bulk 3 0x20 (List.replicate 4096 9) 2]

/-- The four bytes `MThd` that open a standard MIDI file (hexter.c 717-718). -/
def midi_magic : List Nat := [0x4d, 0x54, 0x68, 0x64]

/-- The buffer without the two bytes that follow offset `p`. -/
def cut_two (raw : List Nat) (p : Nat) : List Nat :=
  raw.take (p + 1) ++ raw.drop (p + 3)

/-- A 32-voice dump as it lies in a standard MIDI file: `F0`, two extra bytes,
`43 0n 09 b4 00`, payload, checksum byte, `F7`. -/
def shifted_bulk_dump (x1 x2 n b4 : Nat) (payload : List Nat) (ck : Nat) : List Nat :=
  [0xf0, x1, x2, 0x43, n, 0x09, b4, 0x00] ++ payload ++ [ck, 0xf7]

/-- A run of element assignments `raw[dest] = value(raw)`, performed in order. -/
def run_writes (ws : List (Nat × (List Nat → Nat))) (raw : List Nat) : List Nat :=
  ws.foldl (fun r w => r.set w.1 (w.2 r)) raw

/-- The value function reads the buffer only at offsets `B` and above. -/
def reads_above (B : Nat) (f : List Nat → Nat) : Prop :=
  ∀ r r2 : List Nat, (∀ k, B ≤ k → r2.getD k 0 = r.getD k 0) → f r2 = f r

/-- The destinations of the assignments ascend from `lo` and stay below `hi`. -/
def ascending (hi : Nat) : Nat → List (Nat × (List Nat → Nat)) → Prop
  | _, [] => True
  | lo, w :: ws => lo ≤ w.1 ∧ w.1 < hi ∧ ascending hi (w.1 + 1) ws

/-- The assignments of hexter.c 821-836 for one operator, with `d` the
operator's first packed byte and `s` its base in the moved copy. -/
def dx2_operator_head (d s : Nat) : List (Nat × (List Nat → Nat)) :=
  [(d + 0, fun r => r.getD (s + 76 + 0) 0), (d + 1, fun r => r.getD (s + 76 + 1) 0),
   (d + 2, fun r => r.getD (s + 76 + 2) 0), (d + 3, fun r => r.getD (s + 76 + 3) 0),
   (d + 4, fun r => r.getD (s + 76 + 4) 0), (d + 5, fun r => r.getD (s + 76 + 5) 0),
   (d + 6, fun r => r.getD (s + 76 + 6) 0), (d + 7, fun r => r.getD (s + 76 + 7) 0),
   (d + 8, fun r => (r.getD (s + 84) 0 + 256 - 21) % 256),
   (d + 9, fun r => r.getD (s + 87) 0),
   (d + 10, fun r => r.getD (s + 88) 0),
   (d + 11, fun r => (r.getD (s + 85) 0 + r.getD (s + 86) 0 * 4) % 256),
   (d + 12, fun r => (r.getD (s + 89) 0 + r.getD (s + 75) 0 * 8) % 256)]

/-- The assignments of hexter.c 840-850 for one operator, after the clamp. -/
def dx2_operator_tail (d s : Nat) : List (Nat × (List Nat → Nat)) :=
  [(d + 13, fun r => (r.getD (s + 71) 0 / 2 + r.getD (s + 91) 0 * 4) % 256),
   (d + 14, fun r => r.getD (s + 90) 0),
   (d + 15, fun r => (r.getD (s + 72) 0 + r.getD (s + 73) 0 * 2) % 256),
   (d + 16, fun r => r.getD (s + 74) 0)]

/-- The assignments of hexter.c 852-881 for the global bytes of one voice, with
`d` the voice's first packed byte and `g` its base in the moved copy. -/
def dx2_voice_globals (d g : Nat) : List (Nat × (List Nat → Nat)) :=
  [(102 + 0 + d, fun r => r.getD (g + 26 + 0) 0), (102 + 1 + d, fun r => r.getD (g + 26 + 1) 0),
   (102 + 2 + d, fun r => r.getD (g + 26 + 2) 0), (102 + 3 + d, fun r => r.getD (g + 26 + 3) 0),
   (106 + 0 + d, fun r => r.getD (g + 32 + 0) 0), (106 + 1 + d, fun r => r.getD (g + 32 + 1) 0),
   (106 + 2 + d, fun r => r.getD (g + 32 + 2) 0), (106 + 3 + d, fun r => r.getD (g + 32 + 3) 0),
   (110 + d, fun r => r.getD (g + 17) 0),
   (111 + d, fun r => (r.getD (g + 18) 0 + r.getD (g + 38) 0 * 8) % 256),
   (112 + 0 + d, fun r => r.getD (g + 20 + 0) 0), (112 + 1 + d, fun r => r.getD (g + 20 + 1) 0),
   (112 + 2 + d, fun r => r.getD (g + 20 + 2) 0), (112 + 3 + d, fun r => r.getD (g + 20 + 3) 0),
   (116 + d, fun r =>
     (r.getD (g + 24) 0 + r.getD (g + 19) 0 * 2 + r.getD (g + 25) 0 * 16) % 256),
   (117 + d, fun r => (r.getD (g + 37) 0 + 256 - 36) % 256),
   (118 + 0 + d, fun r => r.getD (g + 0) 0), (118 + 1 + d, fun r => r.getD (g + 1) 0),
   (118 + 2 + d, fun r => r.getD (g + 2) 0), (118 + 3 + d, fun r => r.getD (g + 3) 0),
   (118 + 4 + d, fun r => r.getD (g + 4) 0), (118 + 5 + d, fun r => r.getD (g + 5) 0),
   (118 + 6 + d, fun r => r.getD (g + 6) 0), (118 + 7 + d, fun r => r.getD (g + 7) 0),
   (118 + 8 + d, fun r => r.getD (g + 8) 0), (118 + 9 + d, fun r => r.getD (g + 9) 0)]

/-- Byte `j` (`j < 17`) of a packed operator as the DX200 transcoding of
hexter.c 819-851 computes it from the operator's source fields, `v f` being the
byte at offset `35 * op + f` of the voice in the file. -/
def dx2_operator_byte (v : Nat → Nat) (j : Nat) : Nat :=
  if j < 8 then v (76 + j)
  else if j = 8 then (v 84 + 256 - 21) % 256
  else if j = 9 then v 87
  else if j = 10 then v 88
  else if j = 11 then (v 85 + v 86 * 4) % 256
  else if j = 12 then (v 89 + v 75 * 8) % 256
  else if j = 13 then (min (v 71) 3 / 2 + v 91 * 4) % 256
  else if j = 14 then v 90
  else if j = 15 then (v 72 + v 73 * 2) % 256
  else v 74

/-- Byte `j` (`j < 128`) of a packed voice as the DX200 transcoding of
hexter.c 817-881 computes it from the voice in the file, `v f` being the byte at
offset `f` of that voice: operator `op` fills the 17 bytes from `17 * (5 - op)`,
the global bytes follow from 102. -/
def dx2_packed_byte (v : Nat → Nat) (j : Nat) : Nat :=
  if j < 102 then dx2_operator_byte (fun f => v (35 * (5 - j / 17) + f)) (j % 17)
  else if j < 106 then v (26 + (j - 102))
  else if j < 110 then v (32 + (j - 106))
  else if j = 110 then v 17
  else if j = 111 then (v 18 + v 38 * 8) % 256
  else if j < 116 then v (20 + (j - 112))
  else if j = 116 then (v 24 + v 19 * 2 + v 25 * 16) % 256
  else if j = 117 then (v 37 + 256 - 36) % 256
  else v (j - 118)
/-- A DX200-sized file of zero bytes except for a 5 at offset 105, which is field
71 of operator 0 of voice 0 (34 + 71). -/
def example_dx2_clamped : List Nat := (List.replicate 326454 0).set 105 5

/-- A DX200-sized file of zero bytes except for a 4 at offset 119, which is field
85 of operator 0 of voice 0 (34 + 85). -/
def example_dx2_carry : List Nat := (List.replicate 326454 0).set 119 4

/-- A DX200-sized file of bytes of value 1. -/
def example_dx2_ones : List Nat := List.replicate 326454 1
/-- Byte `f` of voice `c` in a DX200 editor file: the voices are 381 bytes each
and start at offset 34 (hexter.c 816). -/
def dx2_field (data : List Nat) (c f : Nat) : Nat := data.getD (34 + 381 * c + f) 0

/-- The buffer indices the MIDI-file test of hexter.c 717-718 reads, with the
left-to-right short-circuit evaluation of `&&`. -/
def midi_magic_reads (raw : List Nat) : List Nat :=
  0 :: (if raw.getD 0 0 == 0x4d then
    1 :: (if raw.getD 1 0 == 0x54 then
      2 :: (if raw.getD 2 0 == 0x68 then [3] else [])
    else [])
  else [])

/-- The buffer indices the 32-voice test of hexter.c 731-737 reads at cursor
`patchstart`, with the short-circuit evaluation of `&&`: the terminator at
`patchstart + 4103 + midshift` is read only after the length test before it
succeeded. -/
def bulk_test_reads (raw : List Nat) (midshift filelength patchstart : Nat) : List Nat :=
  patchstart :: (if raw.getD patchstart 0 == 0xf0 then
    (patchstart + 1 + midshift) :: (if raw.getD (patchstart + 1 + midshift) 0 == 0x43 then
      (patchstart + 2 + midshift) :: (if raw.getD (patchstart + 2 + midshift) 0 ≤ 0x0f then
        (patchstart + 3 + midshift) :: (if raw.getD (patchstart + 3 + midshift) 0 == 0x09 then
          (patchstart + 5 + midshift) ::
            (if raw.getD (patchstart + 5 + midshift) 0 == 0x00 then
              (if patchstart + 4103 + midshift < filelength then
                [patchstart + 4103 + midshift] else [])
            else [])
        else [])
      else [])
    else [])
  else [])

/-- The buffer indices the single-voice test of hexter.c 745-751 reads at cursor
`patchstart`, with the short-circuit evaluation of `&&`. -/
def single_test_reads (raw : List Nat) (midshift filelength patchstart : Nat) : List Nat :=
  patchstart :: (if raw.getD patchstart 0 == 0xf0 then
    (patchstart + midshift + 1) :: (if raw.getD (patchstart + midshift + 1) 0 == 0x43 then
      (patchstart + midshift + 2) :: (if raw.getD (patchstart + midshift + 2) 0 ≤ 0x0f then
        (patchstart + midshift + 4) :: (if raw.getD (patchstart + midshift + 4) 0 == 0x01 then
          (patchstart + midshift + 5) ::
            (if raw.getD (patchstart + midshift + 5) 0 == 0x1b then
              (if patchstart + midshift + 162 < filelength then
                [patchstart + midshift + 162] else [])
            else [])
        else [])
      else [])
    else [])
  else [])

/-- The buffer accesses of the scan of hexter.c 729-762 as ranges
`(first index, length)`, in order: at each iteration the reads of the 32-voice
test; on a match the source and the destination of the `memmove`; otherwise the
reads of the single-voice test and, on a match, the 155 bytes handed to
`dx7_patch_pack` and the 128 bytes stored by the `memcpy`. Same recursion and
fuel as `sysex_scan`. -/
def sysex_scan_accesses (pack : List Nat → List Nat) (midshift filelength : Nat) :
    Nat → Nat → Nat → List Nat → List (Nat × Nat)
  | 0, _, _, _ => []
  | fuel + 1, patchstart, count, raw =>
    if patchstart + midshift + 5 < filelength then
      (bulk_test_reads raw midshift filelength patchstart).map (fun i => (i, 1)) ++
      (if is_bulk_dump raw midshift filelength patchstart then
        (patchstart + 6 + midshift, 4096) :: (count * DX7_VOICE_SIZE_PACKED, 4096) ::
          sysex_scan_accesses pack midshift filelength fuel
            (patchstart + (DX7_DUMP_SIZE_VOICE_BULK - 1) + 1) (count + 32)
            (memmove raw (count * DX7_VOICE_SIZE_PACKED) (patchstart + 6 + midshift) 4096)
      else
        (single_test_reads raw midshift filelength patchstart).map (fun i => (i, 1)) ++
        (if is_single_dump raw midshift filelength patchstart then
          (patchstart + midshift + 6, DX7_VOICE_SIZE_UNPACKED) ::
            (count * DX7_VOICE_SIZE_PACKED, DX7_VOICE_SIZE_PACKED) ::
            sysex_scan_accesses pack midshift filelength fuel
              (patchstart + (DX7_DUMP_SIZE_VOICE_SINGLE - 1) + 1) (count + 1)
              (write_bytes raw (count * DX7_VOICE_SIZE_PACKED)
                ((pack (bytes_at raw (patchstart + midshift + 6)
                  DX7_VOICE_SIZE_UNPACKED)).take DX7_VOICE_SIZE_PACKED))
        else
          sysex_scan_accesses pack midshift filelength fuel (patchstart + 1) count raw))
    else []

/-- The buffer accesses of the `.BNK` loop of hexter.c 785-788: source and
destination of each `memmove`. -/
def bnk_accesses : List (Nat × Nat) :=
  ((List.range 32).map (fun i => [(256 * i, 128), (128 * i, 128)])).flatten

/-- The buffer indices the Voyetra test of hexter.c 802-805 reads once the
length test has succeeded, with the short-circuit evaluation of `&&`. -/
def voyetra_reads (raw : List Nat) : List Nat :=
  0 :: (if raw.getD 0 0 == 0xdf then
    1 :: (if raw.getD 1 0 == 0x05 then
      2 :: (if raw.getD 2 0 == 0x01 then [3] else [])
    else [])
  else [])

/-- The buffer accesses of one pass of the operator loop of hexter.c 819-851, in
source order, reads in the moved copy and writes in the packed voice. -/
def dx2_operator_accesses (count op : Nat) : List (Nat × Nat) :=
  let s := 16384 + 35 * op + 381 * count
  let d := 17 * (5 - op) + 128 * count
  [(s + 76, 8), (d, 8), (s + 84, 1), (d + 8, 1), (s + 87, 1), (d + 9, 1), (s + 88, 1),
   (d + 10, 1), (s + 85, 1), (s + 86, 1), (d + 11, 1), (s + 89, 1), (s + 75, 1), (d + 12, 1),
   (s + 71, 1), (s + 91, 1), (d + 13, 1), (s + 90, 1), (d + 14, 1), (s + 72, 1), (s + 73, 1),
   (d + 15, 1), (s + 74, 1), (d + 16, 1)]

/-- The buffer accesses of the global assignments of hexter.c 852-881 for one
voice, in source order. -/
def dx2_globals_accesses (count : Nat) : List (Nat × Nat) :=
  let g := 16384 + 381 * count
  let d := 128 * count
  [(g + 26, 4), (102 + d, 4), (g + 32, 4), (106 + d, 4), (g + 17, 1), (110 + d, 1),
   (g + 18, 1), (g + 38, 1), (111 + d, 1), (g + 20, 4), (112 + d, 4), (g + 24, 1),
   (g + 19, 1), (g + 25, 1), (116 + d, 1), (g + 37, 1), (117 + d, 1), (g, 10), (118 + d, 10)]

/-- The buffer accesses of the DX200 transcoding of hexter.c 816-882: the
`memmove`, then voice by voice the six operator passes and the globals. -/
def dx2_accesses : List (Nat × Nat) :=
  (34, 128 * 381) :: (16384, 128 * 381) ::
    ((List.range 128).map (fun count =>
      ((List.range 6).map (dx2_operator_accesses count)).flatten ++
        dx2_globals_accesses count)).flatten

/-- The buffer accesses of the vendor cases of hexter.c 770-888 on the state the
scan left, following the same tests on the same successive values of
`filelength` as `vendor_cases`. -/
def vendor_accesses (filename : String) (st : decode_state) : List (Nat × Nat) :=
  let fl1 := if (has_extension filename ".TX7" || has_extension filename ".SND" ||
                 has_extension filename ".tx7" || has_extension filename ".snd") &&
                st.filelength == 8192 then 4096 else st.filelength
  let bnk := (has_extension filename ".BNK" || has_extension filename ".bnk") && fl1 == 8192
  let fl2 := if bnk then 4096 else fl1
  let raw2 := if bnk then bnk_steps st.raw_patch_data 32 else st.raw_patch_data
  let fl3 := if (has_extension filename ".SND" || has_extension filename ".snd") &&
                fl2 == 5216 then 4096 else fl2
  (if bnk then bnk_accesses else []) ++
  (if fl3 == 9816 || fl3 == 5663 then (voyetra_reads raw2).map (fun i => (i, 1)) else []) ++
  (if (has_extension filename ".DX2" || has_extension filename ".dx2") && fl3 == 326454
   then dx2_accesses else [])

/-- All buffer accesses of the decoding proper, before the final copy: the
MIDI-file test, the scan, and the vendor cases on the state the scan left. -/
def decode_accesses (pack : List Nat → List Nat) (filename : String) (data : List Nat) :
    List (Nat × Nat) :=
  (midi_magic_reads data).map (fun i => (i, 1)) ++
  sysex_scan_accesses pack (midi_shift data) data.length data.length 0 0 data ++
  (match sysex_scan pack (midi_shift data) data.length data.length 0 0 data with
   | none => []
   | some (count, raw) =>
     vendor_accesses filename
       { count := if count == 0 then data.length / DX7_VOICE_SIZE_PACKED else count,
         datastart := 0, filelength := data.length, raw_patch_data := raw })

/-- One of the vendor cases of hexter.c 780-888 that replace what the scan found
applies to a file of this name and length whose buffer starts with the bytes
of `raw`: the `.BNK` de-interleaving, the Voyetra data offset, or the DX200
transcoding. The two other cases (hexter.c 770-778, 792-798) set the count to
32 and change nothing else. -/
def vendor_case_overrides (filename : String) (L : Nat) (raw : List Nat) : Prop :=
  (L = 8192 ∧ (has_extension filename ".BNK" || has_extension filename ".bnk") = true) ∨
  ((L = 9816 ∨ L = 5663) ∧ raw.getD 0 0 = 0xdf ∧ raw.getD 1 0 = 0x05 ∧
    raw.getD 2 0 = 0x01 ∧ raw.getD 3 0 = 0x00) ∨
  (L = 326454 ∧ (has_extension filename ".DX2" || has_extension filename ".dx2") = true)

/-- A standard MIDI file of 5663 bytes: `MThd`, 1549 zero bytes, a shifted
32-voice dump whose payload starts `DF 05 01 00` and is zero after that, and the
four bytes `00 FF 2F 00`. -/
def example_voyetra_sized_midi : List Nat :=
  midi_magic ++ List.replicate 1549 0 ++
    shifted_bulk_dump 0x7f 0x7f 0 0x20 ([0xdf, 0x05, 0x01, 0x00] ++ List.replicate 4092 0) 0 ++
    [0x00, 0xff, 0x2f, 0x00]

/-! ## Theorems -/

theorem bursts_append (a b : List Call) : bursts (a ++ b) = bursts a ++ bursts b := by
  simp [bursts, List.filterMap_append]

theorem applied_events_append (a b : List Call) :
    applied_events (a ++ b) = applied_events a ++ applied_events b := by
  simp [applied_events, List.filterMap_append]

theorem bursts_handle_event (e : snd_seq_event_t) : bursts (hexter_handle_event e) = [] := by
  unfold hexter_handle_event bursts
  split_ifs <;> simp [List.filterMap]

theorem applied_handle_event (e : snd_seq_event_t) :
    applied_events (hexter_handle_event e) = [e] := by
  unfold hexter_handle_event applied_events
  split_ifs <;> simp [List.filterMap]

/-- What the inner event loop does: it consumes the longest prefix of events
whose timestamp is `samples_done`, handles exactly those, and renders nothing. -/
theorem process_ready_events_spec (sd : Nat) (evs : List snd_seq_event_t) :
    evs = applied_events (process_ready_events sd evs).1 ++ (process_ready_events sd evs).2 ∧
    (∀ e ∈ applied_events (process_ready_events sd evs).1, e.tick = sd) ∧
    (∀ e rest, (process_ready_events sd evs).2 = e :: rest → e.tick ≠ sd) ∧
    bursts (process_ready_events sd evs).1 = [] := by
  induction evs with
  | nil => simp [process_ready_events, applied_events, bursts]
  | cons e rest ih =>
    by_cases h : sd = e.tick
    · obtain ⟨h1, h2, h3, h4⟩ := ih
      simp only [process_ready_events, if_pos h, applied_events_append, applied_handle_event,
        bursts_append, bursts_handle_event, h4, List.append_nil]
      refine ⟨?_, ?_, h3, trivial⟩
      · simpa using h1
      · intro x hx
        rcases List.mem_cons.mp hx with rfl | hx
        · exact h.symm
        · exact h2 x hx
    · simp only [process_ready_events, if_neg h]
      refine ⟨by simp [applied_events], by simp [applied_events], ?_, by simp [bursts]⟩
      intro x r hx
      injection hx with hx1 hx2
      subst hx1
      exact fun hh => h hh.symm

theorem burst_size_bounds (Q N sd nr : Nat) (evs : List snd_seq_event_t)
    (hsd : sd < N) (hN : N < 18446744073709551616) (hnr : 0 < nr)
    (hQ : 0 < Q)
    (hev : ∀ e rest, evs = e :: rest → e.tick ≠ sd ∧ e.tick < 18446744073709551616) :
    1 ≤ burst_size Q N sd nr evs ∧ burst_size Q N sd nr evs ≤ nr ∧
    burst_size Q N sd nr evs ≤ Q ∧ burst_size Q N sd nr evs ≤ N - sd := by
  unfold burst_size ulong_sub
  cases evs with
  | nil =>
    simp only
    split_ifs <;> omega
  | cons e rest =>
    obtain ⟨h1, h2⟩ := hev e rest rfl
    simp only
    split_ifs <;> omega

theorem process_ready_events_mem (sd : Nat) (evs : List snd_seq_event_t)
    (e : snd_seq_event_t) (h : e ∈ (process_ready_events sd evs).2) : e ∈ evs := by
  have h1 := (process_ready_events_spec sd evs).1
  rw [h1]
  exact List.mem_append_right _ h

/-- The render loop, from any state with `samples_done ≤ sample_count` and the
quantum remainder within `[0, Q]`: it returns once the fuel covers the samples
left, the bursts are contiguous from `samples_done`, each has between 1 and
`min Q sample_count` samples, they add up to the samples left, and the
remainder at the end is again within `[0, Q]`. -/
theorem render_loop_spec (Q N : Nat) (hQ : 0 < Q) (hQ2 : Q < 18446744073709551616)
    (hN : N < 18446744073709551616) :
    ∀ (fuel sd nr : Nat) (evs : List snd_seq_event_t),
      sd ≤ N → N - sd ≤ fuel → nr ≤ Q →
      (∀ e ∈ evs, e.tick < 18446744073709551616) →
      ∃ n cs, render_loop Q N fuel sd nr evs = some (n, cs) ∧ n ≤ Q ∧
        contiguous_from sd (bursts cs) ∧ total_size (bursts cs) = N - sd ∧
        ∀ p ∈ bursts cs, 1 ≤ p.2 ∧ p.2 ≤ min Q N := by
  intro fuel
  induction fuel with
  | zero =>
    intro sd nr evs hsd hf hnr _
    have : ¬ sd < N := by omega
    refine ⟨nr, [], by simp [render_loop, this], hnr, ?_, ?_, ?_⟩
    · simp [bursts, contiguous_from]
    · simp [bursts, total_size]; omega
    · simp [bursts]
  | succ fuel ih =>
    intro sd nr evs hsd hf hnr hev
    by_cases hlt : sd < N
    · have hnug : 0 < (if nr = 0 then Q else nr) ∧ (if nr = 0 then Q else nr) ≤ Q := by
        split_ifs <;> omega
      obtain ⟨_, _, hhead, hb0⟩ := process_ready_events_spec sd evs
      have hb := burst_size_bounds Q N sd (if nr = 0 then Q else nr)
        (process_ready_events sd evs).2 hlt hN hnug.1 hQ
        (fun e rest he => ⟨hhead e rest he,
          hev e (process_ready_events_mem sd evs e (by rw [he]; exact List.mem_cons_self _ _))⟩)
      obtain ⟨hb1, hb2, hb3, hb4⟩ := hb
      have hsd' : (sd + burst_size Q N sd (if nr = 0 then Q else nr)
          (process_ready_events sd evs).2) % 18446744073709551616 =
          sd + burst_size Q N sd (if nr = 0 then Q else nr) (process_ready_events sd evs).2 := by
        apply Nat.mod_eq_of_lt; omega
      have hnr' : ulong_sub (if nr = 0 then Q else nr)
          (burst_size Q N sd (if nr = 0 then Q else nr) (process_ready_events sd evs).2) =
          (if nr = 0 then Q else nr) -
            burst_size Q N sd (if nr = 0 then Q else nr) (process_ready_events sd evs).2 := by
        unfold ulong_sub
        have := hnug.2
        generalize (if nr = 0 then Q else nr) = nug at *
        generalize burst_size Q N sd nug (process_ready_events sd evs).2 = b at *
        omega
      obtain ⟨n, cs, hrun, hn, hc, ht, hall⟩ :=
        ih (sd + burst_size Q N sd (if nr = 0 then Q else nr) (process_ready_events sd evs).2)
          ((if nr = 0 then Q else nr) -
            burst_size Q N sd (if nr = 0 then Q else nr) (process_ready_events sd evs).2)
          (process_ready_events sd evs).2 (by omega) (by omega) (by omega)
          (fun e he => hev e (process_ready_events_mem sd evs e he))
      refine ⟨n, (process_ready_events sd evs).1 ++
        Call.render_voices sd
          (burst_size Q N sd (if nr = 0 then Q else nr) (process_ready_events sd evs).2)
          (burst_size Q N sd (if nr = 0 then Q else nr) (process_ready_events sd evs).2 ==
            (if nr = 0 then Q else nr)) :: cs, ?_, hn, ?_, ?_, ?_⟩
      · simp only [render_loop, if_pos hlt, hsd', hnr', hrun]
      · rw [bursts_append, hb0]
        simp only [List.nil_append, bursts, List.filterMap_cons, contiguous_from, true_and]
        exact hc
      · rw [bursts_append, hb0]
        simp only [List.nil_append, bursts, List.filterMap_cons, total_size, List.map_cons,
          List.sum_cons]
        simp only [bursts, total_size] at ht
        omega
      · rw [bursts_append, hb0]
        simp only [List.nil_append, bursts, List.filterMap_cons, List.mem_cons]
        rintro p (rfl | hp)
        · exact ⟨hb1, by simp only [le_min_iff]; omega⟩
        · exact hall p hp
    · have : sd = N := by omega
      refine ⟨nr, [], by simp [render_loop, hlt], hnr, ?_, ?_, ?_⟩
      · simp [bursts, contiguous_from]
      · simp [bursts, total_size]; omega
      · simp [bursts]


/-- A block whose voice-list try-lock succeeds is the prologue followed by the
render loop started with `samples_done = 0`. -/
theorem hexter_run_synth_locked {α : Type} [Zero α] (Q fuel : Nat) (rc_patches : Int)
    (inst : hexter_instance_t α) (N : Nat) (events : List snd_seq_event_t) :
    hexter_run_synth Q fuel 0 rc_patches inst N events =
      (render_loop Q N fuel 0 inst.nugget_remains events).map (fun r =>
        ({ output := List.replicate N 0 ++ inst.output.drop N,
           patches := inst.patches,
           nugget_remains := r.1,
           voicelist_mutex_grab_failed := 0,
           pending_program_change := pending_after rc_patches inst },
         prologue_calls rc_patches inst ++ r.2)) := by
  unfold hexter_run_synth dssp_voicelist_mutex_trylock hexter_handle_pending_program_change
    prologue_calls pending_after
  by_cases hg : inst.voicelist_mutex_grab_failed = 0 <;>
  by_cases hp : inst.pending_program_change > -1 <;>
  by_cases hr : rc_patches = 0 <;>
  cases hl : render_loop Q N fuel 0 inst.nugget_remains events <;>
  simp [hg, hp, hr, hl]

theorem bursts_prologue_calls {α : Type} (rc_patches : Int) (inst : hexter_instance_t α) :
    bursts (prologue_calls rc_patches inst) = [] := by
  unfold prologue_calls bursts
  split_ifs <;> simp


/-- C1. In a block whose voice-list try-lock succeeds, for every block size, every
event list (sorted or not) and every initial quantum remainder within `[0, Q]`,
the run returns, the bursts given to the renderer are contiguous from offset 0,
their sizes add up to the block size, and none exceeds `min Q sample_count`. -/
theorem run_synth_bursts_cover_block {α : Type} [Zero α] (Q fuel : Nat) (rc_patches : Int)
    (inst : hexter_instance_t α) (N : Nat) (events : List snd_seq_event_t)
    (hQ : 0 < Q) (hQ2 : Q < 18446744073709551616) (hN : N < 18446744073709551616)
    (hfuel : N ≤ fuel) (hnr : inst.nugget_remains ≤ Q)
    (hev : ∀ e ∈ events, e.tick < 4294967296) :
    ∃ inst' cs, hexter_run_synth Q fuel 0 rc_patches inst N events = some (inst', cs) ∧
      contiguous_from 0 (bursts cs) ∧ total_size (bursts cs) = N ∧
      ∀ p ∈ bursts cs, p.2 ≤ min Q N := by
  obtain ⟨n, cs, hrun, _, hc, ht, hall⟩ :=
    render_loop_spec Q N hQ hQ2 hN fuel 0 inst.nugget_remains events (Nat.zero_le _)
      (by omega) hnr (fun e he => by have := hev e he; omega)
  refine ⟨_, _, by rw [hexter_run_synth_locked, hrun]; rfl, ?_, ?_, ?_⟩
  · rw [bursts_append, bursts_prologue_calls]; exact hc
  · rw [bursts_append, bursts_prologue_calls]; simpa using ht
  · rw [bursts_append, bursts_prologue_calls]
    intro p hp
    exact (hall p hp).2

/-- C1 at a concrete block: quantum 4, block size 10, remainder 3 carried over,
events out of order. -/
theorem run_synth_bursts_cover_block_witness :
    ∃ inst' cs, hexter_run_synth 4 10 0 0
        ({ output := [], patches := [], nugget_remains := 3,
           voicelist_mutex_grab_failed := 0, pending_program_change := -1 } :
          hexter_instance_t Int) 10
        [⟨6, 5, 60, 100, 0, 0⟩, ⟨7, 3, 60, 0, 0, 0⟩, ⟨6, 12, 62, 90, 0, 0⟩] = some (inst', cs) ∧
      contiguous_from 0 (bursts cs) ∧ total_size (bursts cs) = 10 ∧
      ∀ p ∈ bursts cs, p.2 ≤ min 4 10 :=
  run_synth_bursts_cover_block 4 10 0 _ 10 _ (by decide) (by decide) (by decide)
    (by decide) (by decide) (by decide)


theorem burst_size_le_next (Q N sd nr : Nat) (e : snd_seq_event_t)
    (rest : List snd_seq_event_t) (h1 : sd < e.tick) (h2 : e.tick < 18446744073709551616) :
    burst_size Q N sd nr (e :: rest) ≤ e.tick - sd := by
  unfold burst_size ulong_sub
  simp only
  split_ifs <;> omega

/-- The calls of `hexter_handle_event`: the entry mark, then calls that are neither
an event entry nor a burst. -/
theorem hexter_handle_event_shape (e : snd_seq_event_t) :
    ∃ d, hexter_handle_event e = Call.handle_event e :: d ∧ bursts d = [] ∧
      ∀ done tail, events_on_time done (d ++ tail) = events_on_time done tail := by
  unfold hexter_handle_event
  split_ifs <;> exact ⟨_, rfl, by simp [bursts], fun done tail => by simp [events_on_time]⟩

theorem events_on_time_ready (sd b : Nat) (tail : List Call)
    (hhead : (bursts tail).head? = some (sd, b)) (ht : events_on_time sd tail) :
    ∀ evs, events_on_time sd ((process_ready_events sd evs).1 ++ tail) := by
  intro evs
  induction evs with
  | nil => simpa [process_ready_events] using ht
  | cons e rest ih =>
    by_cases h : sd = e.tick
    · obtain ⟨d, hd, hdb, hdt⟩ := hexter_handle_event_shape e
      simp only [process_ready_events, if_pos h, hd, List.cons_append, List.append_assoc,
        events_on_time]
      refine ⟨h.symm, ⟨b, ?_⟩, ?_⟩
      · rw [bursts_append, hdb, bursts_append, (process_ready_events_spec sd rest).2.2.2]
        simpa using hhead
      · rw [hdt]; exact ih
    · simpa [process_ready_events, if_neg h] using ht

/-- The render loop on events sorted by timestamp, all within
`[samples_done, sample_count)`: every event is handled, in list order, when the
samples rendered equal its timestamp, the next burst starts there, and no
burst has an event timestamp strictly inside it. -/
theorem render_loop_events (Q N : Nat) (hQ : 0 < Q) (hQ2 : Q < 18446744073709551616)
    (hN : N < 18446744073709551616) :
    ∀ (fuel sd nr : Nat) (evs : List snd_seq_event_t),
      sd ≤ N → N - sd ≤ fuel → nr ≤ Q →
      evs.Pairwise (fun a b => a.tick ≤ b.tick) →
      (∀ e ∈ evs, sd ≤ e.tick ∧ e.tick < N) →
      ∃ n cs, render_loop Q N fuel sd nr evs = some (n, cs) ∧
        applied_events cs = evs ∧ events_on_time sd cs ∧
        (∀ p ∈ bursts cs, sd ≤ p.1) ∧
        ∀ p ∈ bursts cs, ∀ e ∈ evs, ¬ (p.1 < e.tick ∧ e.tick < p.1 + p.2) := by
  intro fuel
  induction fuel with
  | zero =>
    intro sd nr evs hsd hf hnr _ hev
    have hnot : ¬ sd < N := by omega
    have hnil : evs = [] := by
      cases evs with
      | nil => rfl
      | cons e rest => have := hev e (List.mem_cons_self _ _); omega
    subst hnil
    exact ⟨nr, [], by simp [render_loop, hnot], by simp [applied_events],
      by simp [events_on_time], by simp [bursts], by simp [bursts]⟩
  | succ fuel ih =>
    intro sd nr evs hsd hf hnr hsorted hev
    by_cases hlt : sd < N
    · have hnug : 0 < (if nr = 0 then Q else nr) ∧ (if nr = 0 then Q else nr) ≤ Q := by
        split_ifs <;> omega
      generalize hnugdef : (if nr = 0 then Q else nr) = nug at hnug
      obtain ⟨hsplit, hpre, hhead, hb0⟩ := process_ready_events_spec sd evs
      generalize hrdef : process_ready_events sd evs = r at hsplit hpre hhead hb0
      have hmem : ∀ e ∈ r.2, e ∈ evs := fun e he => by
        rw [hsplit]; exact List.mem_append_right _ he
      have hsorted2 : r.2.Pairwise (fun a b => a.tick ≤ b.tick) := by
        rw [hsplit] at hsorted
        exact (List.pairwise_append.mp hsorted).2.1
      obtain ⟨hb1, hb2, hb3, hb4⟩ := burst_size_bounds Q N sd nug r.2 hlt hN hnug.1 hQ
        (fun e rest he => ⟨hhead e rest he, by
          have := (hev e (hmem e (by rw [he]; exact List.mem_cons_self _ _))).2; omega⟩)
      generalize hbdef : burst_size Q N sd nug r.2 = b at hb1 hb2 hb3 hb4
      have hnext : ∀ e ∈ r.2, sd + b ≤ e.tick := by
        intro e he
        cases hr2 : r.2 with
        | nil => rw [hr2] at he; cases he
        | cons e0 rest =>
          have h0 := hev e0 (hmem e0 (by rw [hr2]; exact List.mem_cons_self _ _))
          have hne := hhead e0 rest hr2
          have hle := burst_size_le_next Q N sd nug e0 rest (by omega) (by omega)
          rw [← hr2, hbdef] at hle
          have he0 : e0.tick ≤ e.tick := by
            rw [hr2] at he hsorted2
            rcases List.mem_cons.mp he with rfl | he
            · exact le_refl _
            · exact (List.pairwise_cons.mp hsorted2).1 e he
          omega
      have hsd' : (sd + b) % 18446744073709551616 = sd + b := by
        apply Nat.mod_eq_of_lt; omega
      have hnr' : ulong_sub nug b = nug - b := by
        unfold ulong_sub; omega
      obtain ⟨n, cs, hrun, happ, htime, hoff, hstr⟩ :=
        ih (sd + b) (nug - b) r.2 (by omega) (by omega) (by omega) hsorted2
          (fun e he => ⟨hnext e he, (hev e (hmem e he)).2⟩)
      refine ⟨n, r.1 ++ Call.render_voices sd b (b == nug) :: cs, ?_, ?_, ?_, ?_, ?_⟩
      · simp only [render_loop, if_pos hlt, hnugdef, hrdef, hbdef, hsd', hnr', hrun]
      · rw [applied_events_append]
        have hcs : applied_events (Call.render_voices sd b (b == nug) :: cs) = r.2 := by
          simpa [applied_events] using happ
        rw [hcs]
        exact hsplit.symm
      · rw [← hrdef]
        apply events_on_time_ready sd b
        · simp [bursts]
        · simpa [events_on_time] using htime
      · rw [bursts_append, hb0]
        simp only [List.nil_append, bursts, List.filterMap_cons, List.mem_cons]
        rintro p (rfl | hp)
        · exact le_refl _
        · have := hoff p hp; omega
      · rw [bursts_append, hb0]
        simp only [List.nil_append, bursts, List.filterMap_cons, List.mem_cons]
        intro p hp e he
        rw [hsplit] at he
        rcases List.mem_append.mp he with he | he
        · have := hpre e he
          rcases hp with rfl | hp
          · simp only; omega
          · have := hoff p hp; omega
        · rcases hp with rfl | hp
          · have := hnext e he
            simp only; omega
          · exact hstr p hp e he
    · have hnil : evs = [] := by
        cases evs with
        | nil => rfl
        | cons e rest => have := hev e (List.mem_cons_self _ _); omega
      subst hnil
      exact ⟨nr, [], by simp [render_loop, hlt], by simp [applied_events],
        by simp [events_on_time], by simp [bursts], by simp [bursts]⟩


theorem applied_prologue_calls {α : Type} (rc_patches : Int) (inst : hexter_instance_t α) :
    applied_events (prologue_calls rc_patches inst) = [] := by
  unfold prologue_calls applied_events
  split_ifs <;> simp

theorem events_on_time_prologue {α : Type} (rc_patches : Int) (inst : hexter_instance_t α)
    (done : Nat) (tail : List Call) :
    events_on_time done (prologue_calls rc_patches inst ++ tail) = events_on_time done tail := by
  unfold prologue_calls
  split_ifs <;> simp [events_on_time]

/-- C2. In a block whose voice-list try-lock succeeds, with events sorted by
non-decreasing timestamp and all timestamps below the block size: the run
returns, the events handled are exactly the events of the list, each once and
in list order; each is handled when the samples rendered so far equal its
timestamp and the next burst starts at that offset; and no burst `[s, s+b)`
has an event timestamp `t` with `s < t < s + b`. -/
theorem run_synth_events_on_time {α : Type} [Zero α] (Q fuel : Nat) (rc_patches : Int)
    (inst : hexter_instance_t α) (N : Nat) (events : List snd_seq_event_t)
    (hQ : 0 < Q) (hQ2 : Q < 18446744073709551616) (hN : N < 18446744073709551616)
    (hfuel : N ≤ fuel) (hnr : inst.nugget_remains ≤ Q)
    (hsorted : events.Pairwise (fun a b => a.tick ≤ b.tick))
    (hrange : ∀ e ∈ events, e.tick < N) :
    ∃ inst' cs, hexter_run_synth Q fuel 0 rc_patches inst N events = some (inst', cs) ∧
      applied_events cs = events ∧ events_on_time 0 cs ∧
      ∀ p ∈ bursts cs, ∀ e ∈ events, ¬ (p.1 < e.tick ∧ e.tick < p.1 + p.2) := by
  obtain ⟨n, cs, hrun, happ, htime, _, hstr⟩ :=
    render_loop_events Q N hQ hQ2 hN fuel 0 inst.nugget_remains events (Nat.zero_le _)
      (by omega) hnr hsorted (fun e he => ⟨Nat.zero_le _, hrange e he⟩)
  refine ⟨_, _, by rw [hexter_run_synth_locked, hrun]; rfl, ?_, ?_, ?_⟩
  · rw [applied_events_append, applied_prologue_calls]; exact happ
  · rw [events_on_time_prologue]; exact htime
  · rw [bursts_append, bursts_prologue_calls]; exact hstr

/-- C2 at a concrete block: quantum 4, block size 10, events at 0, 3, 3 and 9,
a recovery and a program change pending. -/
theorem run_synth_events_on_time_witness :
    ∃ inst' cs, hexter_run_synth 4 10 0 0
        ({ output := [], patches := [], nugget_remains := 0,
           voicelist_mutex_grab_failed := 1, pending_program_change := 5 } :
          hexter_instance_t Int) 10
        [⟨6, 0, 60, 100, 0, 0⟩, ⟨7, 3, 60, 0, 0, 0⟩, ⟨6, 3, 62, 90, 0, 0⟩,
         ⟨10, 9, 0, 0, 7, 100⟩] = some (inst', cs) ∧
      applied_events cs = [⟨6, 0, 60, 100, 0, 0⟩, ⟨7, 3, 60, 0, 0, 0⟩, ⟨6, 3, 62, 90, 0, 0⟩,
         ⟨10, 9, 0, 0, 7, 100⟩] ∧ events_on_time 0 cs ∧
      ∀ p ∈ bursts cs, ∀ e ∈ ([⟨6, 0, 60, 100, 0, 0⟩, ⟨7, 3, 60, 0, 0, 0⟩,
          ⟨6, 3, 62, 90, 0, 0⟩, ⟨10, 9, 0, 0, 7, 100⟩] : List snd_seq_event_t),
        ¬ (p.1 < e.tick ∧ e.tick < p.1 + p.2) :=
  run_synth_events_on_time 4 10 0 _ 10 _ (by decide) (by decide) (by decide)
    (by decide) (by decide) (by decide) (by decide)

/-- A block whose voice-list try-lock fails only silences the output and sets the
missed flag; it makes no call. -/
theorem hexter_run_synth_missed {α : Type} [Zero α] (Q fuel : Nat) (rc rc_patches : Int)
    (inst : hexter_instance_t α) (N : Nat) (events : List snd_seq_event_t) (hrc : rc ≠ 0) :
    hexter_run_synth Q fuel rc rc_patches inst N events =
      some ({ inst with output := List.replicate N 0 ++ inst.output.drop N,
                        voicelist_mutex_grab_failed := 1 }, []) := by
  simp [hexter_run_synth, dssp_voicelist_mutex_trylock, hrc]

/-- C3. In a block whose voice-list try-lock fails (`rc ≠ 0`), for every block
size and event list: the run returns with no call made at all (no event
handled, no burst rendered, no program selected, no voice reset), the first
`sample_count` output samples are zero and the rest of the buffer is as
before, `nugget_remains`, `pending_program_change` and the patches are
unchanged, and `voicelist_mutex_grab_failed` is 1. -/
theorem run_synth_lock_failure {α : Type} [Zero α] (Q fuel : Nat) (rc rc_patches : Int)
    (inst : hexter_instance_t α) (N : Nat) (events : List snd_seq_event_t) (hrc : rc ≠ 0) :
    ∃ inst', hexter_run_synth Q fuel rc rc_patches inst N events = some (inst', []) ∧
      inst'.output.take N = List.replicate N 0 ∧
      inst'.output.drop N = inst.output.drop N ∧
      inst'.nugget_remains = inst.nugget_remains ∧
      inst'.pending_program_change = inst.pending_program_change ∧
      inst'.patches = inst.patches ∧
      inst'.voicelist_mutex_grab_failed = 1 := by
  refine ⟨{ inst with output := List.replicate N 0 ++ inst.output.drop N,
                      voicelist_mutex_grab_failed := 1 }, ?_, ?_, ?_, rfl, rfl, rfl, rfl⟩
  · exact hexter_run_synth_missed Q fuel rc rc_patches inst N events hrc
  · simp [List.take_append_eq_append_take]
  · simp [List.drop_append_eq_append_drop]

/-- C3 at a concrete block: the voice-list lock is busy (`EBUSY = 16`). -/
theorem run_synth_lock_failure_witness :
    ∃ inst', hexter_run_synth 64 0 16 0
        ({ output := [3, 1, 4, 1, 5], patches := [], nugget_remains := 7,
           voicelist_mutex_grab_failed := 0, pending_program_change := 9 } :
          hexter_instance_t Int) 4 [⟨6, 0, 60, 100, 0, 0⟩] = some (inst', []) ∧
      inst'.output.take 4 = List.replicate 4 0 ∧
      inst'.output.drop 4 = ([3, 1, 4, 1, 5] : List Int).drop 4 ∧
      inst'.nugget_remains = 7 ∧
      inst'.pending_program_change = 9 ∧
      inst'.patches = [] ∧
      inst'.voicelist_mutex_grab_failed = 1 :=
  run_synth_lock_failure 64 0 16 0 _ 4 _ (by decide)


/-- Every `hexter_run_synth` call returns once the fuel covers the block, whatever
the try-lock results, and leaves the quantum remainder within `[0, Q]`. -/
theorem run_synth_returns {α : Type} [Zero α] (Q fuel : Nat) (rc rc_patches : Int)
    (inst : hexter_instance_t α) (N : Nat) (events : List snd_seq_event_t)
    (hQ : 0 < Q) (hQ2 : Q < 18446744073709551616) (hN : N < 18446744073709551616)
    (hfuel : N ≤ fuel) (hnr : inst.nugget_remains ≤ Q)
    (hev : ∀ e ∈ events, e.tick < 4294967296) :
    ∃ inst' cs, hexter_run_synth Q fuel rc rc_patches inst N events = some (inst', cs) ∧
      inst'.nugget_remains ≤ Q := by
  by_cases hrc : rc = 0
  · subst hrc
    obtain ⟨n, cs, hrun, hn, _⟩ :=
      render_loop_spec Q N hQ hQ2 hN fuel 0 inst.nugget_remains events (Nat.zero_le _)
        (by omega) hnr (fun e he => by have := hev e he; omega)
    exact ⟨_, _, by rw [hexter_run_synth_locked, hrun]; rfl, hn⟩
  · exact ⟨_, [], hexter_run_synth_missed Q fuel rc rc_patches inst N events hrc, hnr⟩

theorem voices_off_not_in_handle_event (e : snd_seq_event_t) :
    Call.all_voices_off ∉ hexter_handle_event e := by
  unfold hexter_handle_event
  split_ifs <;> simp

theorem voices_off_not_in_ready (sd : Nat) (evs : List snd_seq_event_t) :
    Call.all_voices_off ∉ (process_ready_events sd evs).1 := by
  induction evs with
  | nil => simp [process_ready_events]
  | cons e rest ih =>
    by_cases h : sd = e.tick
    · simp only [process_ready_events, if_pos h, List.mem_append, not_or]
      exact ⟨voices_off_not_in_handle_event e, ih⟩
    · simp [process_ready_events, if_neg h]

/-- The render loop never resets the voices itself. -/
theorem voices_off_not_in_loop (Q N : Nat) :
    ∀ (fuel sd nr : Nat) (evs : List snd_seq_event_t) (n : Nat) (cs : List Call),
      render_loop Q N fuel sd nr evs = some (n, cs) → Call.all_voices_off ∉ cs := by
  intro fuel
  induction fuel with
  | zero =>
    intro sd nr evs n cs h
    simp only [render_loop] at h
    split_ifs at h
    simp only [Option.some.injEq, Prod.mk.injEq] at h
    rw [← h.2]; simp
  | succ fuel ih =>
    intro sd nr evs n cs h
    by_cases hlt : sd < N
    · simp only [render_loop, if_pos hlt] at h
      split at h
      · cases h
      · rename_i n' cs' hrec
        simp only [Option.some.injEq, Prod.mk.injEq] at h
        rw [← h.2]
        simp only [List.mem_append, List.mem_cons, not_or]
        exact ⟨voices_off_not_in_ready _ _, by simp, ih _ _ _ _ _ hrec⟩
    · simp only [render_loop, if_neg hlt, Option.some.injEq, Prod.mk.injEq] at h
      rw [← h.2]; simp

/-- One block, seen from the guard. If the try-lock fails nothing is called and
the missed flag is 1. If it succeeds the flag is 0 afterwards, and the voices
are reset exactly when the flag was set before, as the first call. -/
theorem run_synth_guard {α : Type} [Zero α] (Q fuel : Nat) (rc rc_patches : Int)
    (inst inst' : hexter_instance_t α) (N : Nat) (events : List snd_seq_event_t)
    (cs : List Call)
    (h : hexter_run_synth Q fuel rc rc_patches inst N events = some (inst', cs)) :
    (rc ≠ 0 → cs = [] ∧ inst'.voicelist_mutex_grab_failed = 1) ∧
    (rc = 0 → inst'.voicelist_mutex_grab_failed = 0 ∧
      (inst.voicelist_mutex_grab_failed ≠ 0 →
        ∃ rest, cs = Call.all_voices_off :: rest ∧ Call.all_voices_off ∉ rest) ∧
      (inst.voicelist_mutex_grab_failed = 0 → Call.all_voices_off ∉ cs)) := by
  constructor
  · intro hrc
    rw [hexter_run_synth_missed Q fuel rc rc_patches inst N events hrc] at h
    simp only [Option.some.injEq, Prod.mk.injEq] at h
    exact ⟨h.2.symm, by rw [← h.1]⟩
  · intro hrc
    subst hrc
    rw [hexter_run_synth_locked] at h
    cases hl : render_loop Q N fuel 0 inst.nugget_remains events with
    | none => rw [hl] at h; cases h
    | some r =>
      rw [hl] at h
      simp only [Option.map_some', Option.some.injEq, Prod.mk.injEq] at h
      obtain ⟨h1, h2⟩ := h
      have hloop := voices_off_not_in_loop Q N fuel 0 inst.nugget_remains events r.1 r.2 hl
      refine ⟨by rw [← h1], ?_, ?_⟩
      · intro hf
        refine ⟨(if inst.pending_program_change > -1 ∧ rc_patches = 0
            then [Call.select_program 0 inst.pending_program_change] else []) ++ r.2, ?_, ?_⟩
        · rw [← h2]; simp [prologue_calls, hf]
        · simp only [List.mem_append, not_or]
          exact ⟨by split_ifs <;> simp, hloop⟩
      · intro hf
        rw [← h2]
        simp only [prologue_calls, hf, List.mem_append, not_or]
        exact ⟨⟨by simp, by split_ifs <;> simp⟩, hloop⟩


/-- A sequence of blocks returns a record for every block; record `j` is the
`hexter_run_synth` call of block `j` on the instance the block before it left
(the given instance for the first block). -/
theorem run_blocks_spec {α : Type} [Zero α] (Q : Nat) (hQ : 0 < Q)
    (hQ2 : Q < 18446744073709551616) :
    ∀ (blocks : List block) (inst : hexter_instance_t α),
      inst.nugget_remains ≤ Q →
      (∀ b ∈ blocks, b.sample_count < 18446744073709551616 ∧
        ∀ e ∈ b.events, e.tick < 4294967296) →
      ∃ rs, run_blocks Q blocks inst = some rs ∧ rs.length = blocks.length ∧
        (∀ (j : Nat) (b : block) (r : block_record α), blocks[j]? = some b → rs[j]? = some r →
          hexter_run_synth Q b.sample_count b.rc_voicelist b.rc_patches r.before
            b.sample_count b.events = some (r.after, r.calls)) ∧
        (∀ r, rs[0]? = some r → r.before = inst) ∧
        (∀ (j : Nat) (r r' : block_record α), rs[j]? = some r → rs[j + 1]? = some r' →
          r'.before = r.after) := by
  intro blocks
  induction blocks with
  | nil =>
    intro inst _ _
    exact ⟨[], rfl, rfl, by simp, by simp, by simp⟩
  | cons b bs ih =>
    intro inst hnr hwf
    have hb := hwf b (List.mem_cons_self _ _)
    obtain ⟨inst', cs, hrun, hnr'⟩ :=
      run_synth_returns Q b.sample_count b.rc_voicelist b.rc_patches inst b.sample_count
        b.events hQ hQ2 hb.1 (le_refl _) hnr hb.2
    obtain ⟨rs, hrs, hlen, hstep, hfirst, hchain⟩ :=
      ih inst' hnr' (fun x hx => hwf x (List.mem_cons_of_mem _ hx))
    refine ⟨{ before := inst, after := inst', calls := cs } :: rs, ?_, ?_, ?_, ?_, ?_⟩
    · simp [run_blocks, hrun, hrs]
    · simp [hlen]
    · intro j b' r hb' hr
      cases j with
      | zero =>
        simp only [List.getElem?_cons_zero, Option.some.injEq] at hb' hr
        subst hb' hr
        exact hrun
      | succ j =>
        simp only [List.getElem?_cons_succ] at hb' hr
        exact hstep j b' r hb' hr
    · intro r hr
      simp only [List.getElem?_cons_zero, Option.some.injEq] at hr
      subst hr; rfl
    · intro j r r' hr hr'
      cases j with
      | zero =>
        simp only [List.getElem?_cons_zero, Option.some.injEq, List.getElem?_cons_succ] at hr hr'
        subst hr
        exact hfirst r' hr'
      | succ j =>
        simp only [List.getElem?_cons_succ] at hr hr'
        exact hchain j r r' hr hr'

/-- C4. Over any sequence of blocks with arbitrary try-lock results, the sequence
returns a record per block, and for every block `j`:
(a) if its try-lock succeeds and some earlier block `k` missed the lock with
no successful block strictly between `k` and `j`, then the first call of
block `j` is `all_voices_off`, before any program change, event or burst,
it is not called again in the block, and the missed flag is 0 afterwards;
(b) a block that leaves the missed flag set has made no call at all, so no
burst is rendered while the flag is set;
(c) if its try-lock succeeds, the instance started with the flag clear and
every earlier miss was followed by a successful block before `j`, then
`all_voices_off` is not called in block `j`. -/
theorem lock_miss_recovery {α : Type} [Zero α] (Q : Nat) (blocks : List block)
    (inst : hexter_instance_t α) (hQ : 0 < Q) (hQ2 : Q < 18446744073709551616)
    (hnr : inst.nugget_remains ≤ Q)
    (hwf : ∀ b ∈ blocks, b.sample_count < 18446744073709551616 ∧
      ∀ e ∈ b.events, e.tick < 4294967296) :
    ∃ rs, run_blocks Q blocks inst = some rs ∧ rs.length = blocks.length ∧
      ∀ (j : Nat) (b : block) (r : block_record α), blocks[j]? = some b → rs[j]? = some r →
        (b.rc_voicelist = 0 →
          (∃ (k : Nat) (bk : block), k < j ∧ blocks[k]? = some bk ∧ bk.rc_voicelist ≠ 0 ∧
            ∀ (i : Nat) (bi : block), k < i → i < j → blocks[i]? = some bi →
              bi.rc_voicelist ≠ 0) →
          ∃ rest, r.calls = Call.all_voices_off :: rest ∧ Call.all_voices_off ∉ rest ∧
            r.after.voicelist_mutex_grab_failed = 0) ∧
        (r.after.voicelist_mutex_grab_failed ≠ 0 → r.calls = []) ∧
        (b.rc_voicelist = 0 → inst.voicelist_mutex_grab_failed = 0 →
          (∀ (k : Nat) (bk : block), k < j → blocks[k]? = some bk → bk.rc_voicelist ≠ 0 →
            ∃ (i : Nat) (bi : block), k < i ∧ i < j ∧ blocks[i]? = some bi ∧ bi.rc_voicelist = 0) →
          Call.all_voices_off ∉ r.calls) := by
  obtain ⟨rs, hrs, hlen, hstep, hfirst, hchain⟩ := run_blocks_spec Q hQ hQ2 blocks inst hnr hwf
  refine ⟨rs, hrs, hlen, ?_⟩
  intro j b r hb hr
  have hrun := hstep j b r hb hr
  obtain ⟨hfail, hok⟩ := run_synth_guard Q _ _ _ _ _ _ _ _ hrun
  -- the block before `j`, when there is one
  have hprev : ∀ j' : Nat, j = j' + 1 → ∃ (bp : block) (rp : block_record α), blocks[j']? = some bp ∧ rs[j']? = some rp ∧
      r.before = rp.after ∧
      (bp.rc_voicelist ≠ 0 → rp.after.voicelist_mutex_grab_failed = 1) ∧
      (bp.rc_voicelist = 0 → rp.after.voicelist_mutex_grab_failed = 0) := by
    intro j' hj
    subst hj
    have hj1 : j' < blocks.length := by
      have := (List.getElem?_eq_some.mp hb).1; omega
    have hj2 : j' < rs.length := by omega
    refine ⟨blocks[j'], rs[j'], List.getElem?_eq_getElem hj1, List.getElem?_eq_getElem hj2,
      hchain j' rs[j'] r (List.getElem?_eq_getElem hj2) hr, ?_, ?_⟩
    · intro h
      exact ((run_synth_guard Q _ _ _ _ _ _ _ _
        (hstep j' _ _ (List.getElem?_eq_getElem hj1) (List.getElem?_eq_getElem hj2))).1 h).2
    · intro h
      exact ((run_synth_guard Q _ _ _ _ _ _ _ _
        (hstep j' _ _ (List.getElem?_eq_getElem hj1) (List.getElem?_eq_getElem hj2))).2 h).1
  refine ⟨?_, ?_, ?_⟩
  · intro hrc ⟨k, bk, hkj, hbk, hbkrc, hbetween⟩
    obtain ⟨j', rfl⟩ : ∃ j', j = j' + 1 := ⟨j - 1, by omega⟩
    obtain ⟨bp, rp, hbp, _, hbefore, hpf, _⟩ := hprev j' rfl
    have hpfail : bp.rc_voicelist ≠ 0 := by
      by_cases hk : k = j'
      · subst hk
        rw [hbk] at hbp
        cases hbp
        exact hbkrc
      · exact hbetween j' bp (by omega) (by omega) hbp
    have hflag : r.before.voicelist_mutex_grab_failed ≠ 0 := by
      rw [hbefore, hpf hpfail]; decide
    obtain ⟨hafter, hrec, _⟩ := hok hrc
    obtain ⟨rest, h1, h2⟩ := hrec hflag
    exact ⟨rest, h1, h2, hafter⟩
  · intro hflag
    by_cases hrc : b.rc_voicelist = 0
    · exact absurd (hok hrc).1 hflag
    · exact (hfail hrc).1
  · intro hrc hinit hrecovered
    have hflag : r.before.voicelist_mutex_grab_failed = 0 := by
      cases j with
      | zero => rw [hfirst r hr]; exact hinit
      | succ j' =>
        obtain ⟨bp, rp, hbp, _, hbefore, _, hps⟩ := hprev j' rfl
        have hpok : bp.rc_voicelist = 0 := by
          by_contra hne
          obtain ⟨i, bi, h1, h2, _, _⟩ := hrecovered j' bp (by omega) hbp hne
          omega
        rw [hbefore, hps hpok]
    exact (hok hrc).2.2 hflag


/-- C4 on three blocks: two missed locks, then a block that takes the lock. -/
theorem lock_miss_recovery_witness :
    ∃ rs, run_blocks 4 example_blocks example_instance = some rs ∧
      rs.length = example_blocks.length ∧
      ∀ (j : Nat) (b : block) (r : block_record Int),
        example_blocks[j]? = some b → rs[j]? = some r →
        (b.rc_voicelist = 0 →
          (∃ (k : Nat) (bk : block), k < j ∧ example_blocks[k]? = some bk ∧
            bk.rc_voicelist ≠ 0 ∧
            ∀ (i : Nat) (bi : block), k < i → i < j → example_blocks[i]? = some bi →
              bi.rc_voicelist ≠ 0) →
          ∃ rest, r.calls = Call.all_voices_off :: rest ∧ Call.all_voices_off ∉ rest ∧
            r.after.voicelist_mutex_grab_failed = 0) ∧
        (r.after.voicelist_mutex_grab_failed ≠ 0 → r.calls = []) ∧
        (b.rc_voicelist = 0 → example_instance.voicelist_mutex_grab_failed = 0 →
          (∀ (k : Nat) (bk : block), k < j → example_blocks[k]? = some bk →
            bk.rc_voicelist ≠ 0 →
            ∃ (i : Nat) (bi : block), k < i ∧ i < j ∧ example_blocks[i]? = some bi ∧
              bi.rc_voicelist = 0) →
          Call.all_voices_off ∉ r.calls) :=
  lock_miss_recovery 4 example_blocks example_instance (by decide) (by decide) (by decide)
    (by decide)


/-! ### The patch-bank decoder -/

/-- The SysEx scan returns on fuel `filelength`: every iteration moves the cursor
forward. -/
theorem sysex_scan_total (pack : List Nat → List Nat) (ms L : Nat) :
    ∀ (fuel ps count : Nat) (raw : List Nat), L ≤ ps + fuel →
      ∃ r, sysex_scan pack ms L fuel ps count raw = some r := by
  intro fuel
  induction fuel with
  | zero =>
    intro ps count raw h
    have : ¬ ps + ms + 5 < L := by omega
    exact ⟨(count, raw), by simp [sysex_scan, this]⟩
  | succ fuel ih =>
    intro ps count raw h
    by_cases hc : ps + ms + 5 < L
    · by_cases hb : is_bulk_dump raw ms L ps = true
      · obtain ⟨r, hr⟩ := ih (ps + (DX7_DUMP_SIZE_VOICE_BULK - 1) + 1) (count + 32)
          (memmove raw (count * DX7_VOICE_SIZE_PACKED) (ps + 6 + ms) 4096) (by omega)
        exact ⟨r, by simp only [sysex_scan, if_pos hc, if_pos hb, hr]⟩
      · by_cases hs : is_single_dump raw ms L ps = true
        · obtain ⟨r, hr⟩ := ih (ps + (DX7_DUMP_SIZE_VOICE_SINGLE - 1) + 1) (count + 1)
            (write_bytes raw (count * DX7_VOICE_SIZE_PACKED)
              ((pack (bytes_at raw (ps + ms + 6) DX7_VOICE_SIZE_UNPACKED)).take
                DX7_VOICE_SIZE_PACKED)) (by omega)
          exact ⟨r, by simp only [sysex_scan, if_pos hc, if_neg hb, if_pos hs, hr]⟩
        · obtain ⟨r, hr⟩ := ih (ps + 1) count raw (by omega)
          exact ⟨r, by simp only [sysex_scan, if_pos hc, if_neg hb, if_neg hs, hr]⟩
    · exact ⟨(count, raw), by simp [sysex_scan, hc]⟩

/-- The decoding proper always returns. -/
theorem dx7_patchbank_decode_total (pack : List Nat → List Nat) (filename : String)
    (data : List Nat) : ∃ st, dx7_patchbank_decode pack filename data = some st := by
  obtain ⟨r, hr⟩ := sysex_scan_total pack (midi_shift data) data.length data.length 0 0 data
    (by omega)
  exact ⟨vendor_cases filename
    { count := if r.1 == 0 then data.length / DX7_VOICE_SIZE_PACKED else r.1, datastart := 0,
      filelength := data.length, raw_patch_data := r.2 }, by
    simp only [dx7_patchbank_decode, hr]⟩

/-- `dx7_patchbank_load_init` always returns. -/
theorem dx7_patchbank_load_init_total (pack : List Nat → List Nat) (filename : String)
    (file : patch_file) (firstpatch : List Nat) (maxpatches : Nat) (has_errmsg : Bool) :
    ∃ r, dx7_patchbank_load_init pack filename file firstpatch maxpatches has_errmsg =
      some r := by
  obtain ⟨st, hst⟩ := dx7_patchbank_decode_total pack filename file.data
  unfold dx7_patchbank_load_init
  simp only [hst]
  split_ifs <;> exact ⟨_, rfl⟩

/-- When no header matches, the scan leaves the count and the buffer as they are. -/
theorem sysex_scan_no_match (pack : List Nat → List Nat) (ms L : Nat) (raw : List Nat)
    (h : ∀ p, is_bulk_dump raw ms L p = false ∧ is_single_dump raw ms L p = false) :
    ∀ (fuel ps count : Nat), L ≤ ps + fuel →
      sysex_scan pack ms L fuel ps count raw = some (count, raw) := by
  intro fuel
  induction fuel with
  | zero =>
    intro ps count hf
    have : ¬ ps + ms + 5 < L := by omega
    simp [sysex_scan, this]
  | succ fuel ih =>
    intro ps count hf
    by_cases hc : ps + ms + 5 < L
    · simp only [sysex_scan, if_pos hc, (h ps).1, (h ps).2]
      simpa using ih (ps + 1) count (by omega)
    · simp [sysex_scan, hc]

/-- The vendor special cases leave the decoder state alone unless the file length
is one of theirs (and, for 8192 bytes, the extension is one of theirs). -/
theorem vendor_cases_other (filename : String) (st : decode_state)
    (h8192 : st.filelength = 8192 → vendor_extension_8192 filename = false)
    (h1 : st.filelength ≠ 5216) (h2 : st.filelength ≠ 9816) (h3 : st.filelength ≠ 5663)
    (h4 : st.filelength ≠ 326454) : vendor_cases filename st = st := by
  unfold vendor_cases
  by_cases h : st.filelength = 8192
  · have hv := h8192 h
    simp only [vendor_extension_8192, Bool.or_eq_false_iff] at hv
    obtain ⟨⟨⟨⟨⟨e1, e2⟩, e3⟩, e4⟩, e5⟩, e6⟩ := hv
    simp [h, e1, e2, e3, e4, e5, e6]
  · simp [h, h1, h2, h3, h4]


/-- On a readable file of accepted size, `dx7_patchbank_load_init` caps the decoded
count at `maxpatches`, copies that many patches from the data offset and stores
no message. -/
theorem load_init_of_decode (pack : List Nat → List Nat) (filename : String)
    (data firstpatch : List Nat) (maxpatches : Nat) (has_errmsg : Bool) (st : decode_state)
    (h1 : 128 ≤ data.length) (h2 : data.length ≤ 2097152)
    (hdec : dx7_patchbank_decode pack filename data = some st) :
    dx7_patchbank_load_init pack filename (readable_file data) firstpatch maxpatches
        has_errmsg =
      some { count := min st.count maxpatches,
             firstpatch := write_bytes firstpatch 0
               (bytes_at st.raw_patch_data st.datastart (128 * min st.count maxpatches)),
             errmsg := none } := by
  have hmin : (if st.count > maxpatches then maxpatches else st.count) =
      min st.count maxpatches := by
    split_ifs <;> omega
  unfold dx7_patchbank_load_init
  have e1 : ¬ data.length = 0 := by omega
  have e2 : ¬ data.length > 2097152 := by omega
  have e3 : ¬ data.length < 128 := by omega
  simp only [readable_file, Bool.not_true, Bool.false_eq_true, if_false, e1, e2, e3, hdec, hmin]

/-- Raw fallback of the decoding proper: with no header matched and no vendor
case applying, the count is `filelength / 128`, the data offset 0 and the
buffer the file itself. -/
theorem decode_raw (pack : List Nat → List Nat) (filename : String) (data : List Nat)
    (hno : no_sysex_header data)
    (h8192 : data.length = 8192 → vendor_extension_8192 filename = false)
    (h1 : data.length ≠ 5216) (h2 : data.length ≠ 9816) (h3 : data.length ≠ 5663)
    (h4 : data.length ≠ 326454) :
    dx7_patchbank_decode pack filename data =
      some { count := data.length / 128, datastart := 0, filelength := data.length,
             raw_patch_data := data } := by
  have hscan := sysex_scan_no_match pack (midi_shift data) data.length data hno
    data.length 0 0 (by omega)
  simp only [dx7_patchbank_decode, hscan, beq_self_eq_true, if_true, DX7_VOICE_SIZE_PACKED]
  rw [vendor_cases_other filename _ h8192 h1 h2 h3 h4]

/-- Raw fallback end to end: the count is `min (filelength / 128) maxpatches` and
the destination receives that many 128-byte records from the start of the
file; the destination beyond them is untouched. -/
theorem load_init_raw (pack : List Nat → List Nat) (filename : String)
    (data firstpatch : List Nat) (maxpatches : Nat) (has_errmsg : Bool)
    (hno : no_sysex_header data) (h128 : 128 ≤ data.length) (hmax : data.length ≤ 2097152)
    (h8192 : data.length = 8192 → vendor_extension_8192 filename = false)
    (h1 : data.length ≠ 5216) (h2 : data.length ≠ 9816) (h3 : data.length ≠ 5663)
    (h4 : data.length ≠ 326454) :
    dx7_patchbank_load_init pack filename (readable_file data) firstpatch maxpatches
        has_errmsg =
      some { count := min (data.length / 128) maxpatches,
             firstpatch := data.take (128 * min (data.length / 128) maxpatches) ++
               firstpatch.drop (128 * min (data.length / 128) maxpatches),
             errmsg := none } := by
  rw [load_init_of_decode pack filename data firstpatch maxpatches has_errmsg _ h128 hmax
    (decode_raw pack filename data hno h8192 h1 h2 h3 h4)]
  have hlen : 128 * min (data.length / 128) maxpatches ≤ data.length := by
    have := Nat.div_mul_le_self data.length 128
    have := Nat.min_le_left (data.length / 128) maxpatches
    omega
  simp only [write_bytes, bytes_at, List.drop_zero, List.take_zero, List.nil_append,
    Nat.zero_add, List.length_take, Nat.min_eq_left hlen]


/-- C6. For a file that opens and whose length `L` can be read,
`dx7_patchbank_load_init` rejects on the length in exactly three cases:
`L = 0` with "patch file has zero length", `0 < L < 128` with "patch file is
too small", `L > 2097152` with "patch file is too large". Each time it returns
0, leaves the destination as it was and stores the message when `errmsg` is
non-null. The three messages are pairwise different. Every length from 128 to
2097152, both included, passes the size checks: when the allocation and the
read succeed the call returns without any message. -/
theorem load_init_size_checks (pack : List Nat → List Nat) (filename : String)
    (file : patch_file) (firstpatch : List Nat) (maxpatches : Nat) (has_errmsg : Bool)
    (hopen : file.fopen_ok = true) (htell : file.ftell_ok = true) :
    (file.data.length = 0 →
      dx7_patchbank_load_init pack filename file firstpatch maxpatches has_errmsg =
        some { count := 0, firstpatch := firstpatch,
               errmsg := if has_errmsg then some "patch file has zero length" else none }) ∧
    (0 < file.data.length ∧ file.data.length < 128 →
      dx7_patchbank_load_init pack filename file firstpatch maxpatches has_errmsg =
        some { count := 0, firstpatch := firstpatch,
               errmsg := if has_errmsg then some "patch file is too small" else none }) ∧
    (2097152 < file.data.length →
      dx7_patchbank_load_init pack filename file firstpatch maxpatches has_errmsg =
        some { count := 0, firstpatch := firstpatch,
               errmsg := if has_errmsg then some "patch file is too large" else none }) ∧
    (128 ≤ file.data.length ∧ file.data.length ≤ 2097152 →
      file.malloc_ok = true → file.fread_ok = true →
      ∃ r, dx7_patchbank_load_init pack filename file firstpatch maxpatches has_errmsg =
        some r ∧ r.errmsg = none) ∧
    "patch file has zero length" ≠ "patch file is too small" ∧
    "patch file has zero length" ≠ "patch file is too large" ∧
    "patch file is too small" ≠ "patch file is too large" := by
  refine ⟨?_, ?_, ?_, ?_, by decide, by decide, by decide⟩
  · intro h
    simp [dx7_patchbank_load_init, reject, hopen, htell, h]
  · intro h
    have e1 : ¬ file.data.length = 0 := by omega
    have e2 : ¬ file.data.length > 2097152 := by omega
    simp [dx7_patchbank_load_init, reject, hopen, htell, e1, e2, h.2]
  · intro h
    have e1 : ¬ file.data.length = 0 := by omega
    simp [dx7_patchbank_load_init, reject, hopen, htell, e1, h]
  · intro h hm hr
    obtain ⟨st, hst⟩ := dx7_patchbank_decode_total pack filename file.data
    have e1 : ¬ file.data.length = 0 := by omega
    have e2 : ¬ file.data.length > 2097152 := by omega
    have e3 : ¬ file.data.length < 128 := by omega
    refine ⟨{ count := if st.count > maxpatches then maxpatches else st.count,
              firstpatch := write_bytes firstpatch 0
                (bytes_at st.raw_patch_data st.datastart
                  (128 * if st.count > maxpatches then maxpatches else st.count)),
              errmsg := none }, ?_, rfl⟩
    simp only [dx7_patchbank_load_init, hopen, htell, hm, hr, Bool.not_true,
      Bool.false_eq_true, if_false, e1, e2, e3, hst]

/-- C6 at files of 0, 50 and 3000000 bytes: each is rejected with its own message,
0 is returned and the destination is left as it was. -/
theorem load_init_size_checks_witness :
    dx7_patchbank_load_init id "bank.syx" (readable_file []) [1, 2, 3] 128 true =
      some { count := 0, firstpatch := [1, 2, 3],
             errmsg := some "patch file has zero length" } ∧
    dx7_patchbank_load_init id "bank.syx" (readable_file (List.replicate 50 0)) [1, 2, 3]
        128 true =
      some { count := 0, firstpatch := [1, 2, 3], errmsg := some "patch file is too small" } ∧
    dx7_patchbank_load_init id "bank.syx" (readable_file (List.replicate 3000000 0)) [1, 2, 3]
        128 true =
      some { count := 0, firstpatch := [1, 2, 3], errmsg := some "patch file is too large" } :=
  ⟨(load_init_size_checks id "bank.syx" (readable_file []) [1, 2, 3] 128 true rfl rfl).1 rfl,
   (load_init_size_checks id "bank.syx" (readable_file (List.replicate 50 0)) [1, 2, 3] 128
      true rfl rfl).2.1
      (by simp only [readable_file, List.length_replicate]; decide),
   (load_init_size_checks id "bank.syx" (readable_file (List.replicate 3000000 0)) [1, 2, 3]
      128 true rfl rfl).2.2.1
      (by simp only [readable_file, List.length_replicate]; decide)⟩


/-- C5. With `Q = HEXTER_NUGGET_SIZE` positive: (1) every successful
`hexter_instantiate` returns an instance with `nugget_remains = 0`, which is
within `[0, Q]`; (2) every `hexter_run_synth` call on an instance with
`nugget_remains ≤ Q` returns, for every block size, event list and try-lock
results, with `nugget_remains ≤ Q` again; (3) the burst size never exceeds the
quantum remainder it is subtracted from, so `nugget_remains -= burst_size` is
the exact difference and does not wrap around. -/
theorem nugget_remains_invariant (α : Type) [Zero α] (Q : Nat) (hQ : 0 < Q)
    (hQ2 : Q < 18446744073709551616) :
    (∀ (pack : List Nat → List Nat) (heap : List Nat)
        (default_bank : Option (String × patch_file)) (init_patches : List Nat),
      ∃ (inst : hexter_instance_t α) (cs : List Call),
        hexter_instantiate pack true heap default_bank init_patches = some (inst, cs) ∧
        inst.nugget_remains = 0 ∧ inst.nugget_remains ≤ Q) ∧
    (∀ (fuel : Nat) (rc rc_patches : Int) (inst : hexter_instance_t α) (N : Nat)
        (events : List snd_seq_event_t),
      N < 18446744073709551616 → N ≤ fuel → (∀ e ∈ events, e.tick < 4294967296) →
      inst.nugget_remains ≤ Q →
      ∃ inst' cs, hexter_run_synth Q fuel rc rc_patches inst N events = some (inst', cs) ∧
        inst'.nugget_remains ≤ Q) ∧
    (∀ (N samples_done nugget : Nat) (events : List snd_seq_event_t),
      nugget < 18446744073709551616 →
      burst_size Q N samples_done nugget events ≤ nugget ∧
      ulong_sub nugget (burst_size Q N samples_done nugget events) =
        nugget - burst_size Q N samples_done nugget events) := by
  refine ⟨?_, ?_, ?_⟩
  · intro pack heap default_bank init_patches
    cases default_bank with
    | none => exact ⟨_, _, rfl, rfl, Nat.zero_le _⟩
    | some pf =>
      obtain ⟨r, hr⟩ := dx7_patchbank_load_init_total pack pf.1 pf.2 heap 128 false
      refine ⟨{ output := [], patches := r.firstpatch, nugget_remains := 0,
                voicelist_mutex_grab_failed := 0, pending_program_change := -1 },
        [Call.eg_init_constants, Call.data_performance_init, Call.select_program 0 0,
          Call.init_controls], ?_, rfl, Nat.zero_le _⟩
      simp [hexter_instantiate, hr]
  · intro fuel rc rc_patches inst N events hN hfuel hev hnr
    exact run_synth_returns Q fuel rc rc_patches inst N events hQ hQ2 hN hfuel hnr hev
  · intro N sd nug evs hnug
    have hle : burst_size Q N sd nug evs ≤ nug := by
      unfold burst_size
      cases evs with
      | nil => simp only; split_ifs <;> omega
      | cons e rest => simp only; split_ifs <;> omega
    refine ⟨hle, ?_⟩
    unfold ulong_sub
    generalize burst_size Q N sd nug evs = b at hle
    omega

/-- C5 at `Q = 64`: an instance made with no default bank has remainder 0, a
block of 100 samples with an event at 70 leaves it within `[0, 64]`, and a
burst computed from remainder 10 is at most 10. -/
theorem nugget_remains_invariant_witness :
    (∃ (inst : hexter_instance_t Int) (cs : List Call),
        hexter_instantiate id true [] none [] = some (inst, cs) ∧
        inst.nugget_remains = 0 ∧ inst.nugget_remains ≤ 64) ∧
    (∃ inst' cs, hexter_run_synth 64 100 0 0 example_instance 100
        [⟨6, 70, 60, 100, 0, 0⟩] = some (inst', cs) ∧ inst'.nugget_remains ≤ 64) ∧
    (burst_size 64 100 0 10 [] ≤ 10 ∧
      ulong_sub 10 (burst_size 64 100 0 10 []) = 10 - burst_size 64 100 0 10 []) :=
  ⟨(nugget_remains_invariant Int 64 (by decide) (by decide)).1 id [] none [],
   (nugget_remains_invariant Int 64 (by decide) (by decide)).2.1 100 0 0 example_instance 100
      [⟨6, 70, 60, 100, 0, 0⟩] (by decide) (by decide) (by decide) (by decide),
   (nugget_remains_invariant Int 64 (by decide) (by decide)).2.2 100 0 10 [] (by decide)⟩


theorem getD_ne_of_forall_mem (l : List Nat) (v : Nat) (hv : v ≠ 0)
    (h : ∀ x ∈ l, x ≠ v) (i : Nat) : l.getD i 0 ≠ v := by
  by_cases hi : i < l.length
  · rw [List.getD_eq_getElem _ _ hi]
    exact h _ (List.getElem_mem hi)
  · rw [List.getD_eq_default _ _ (by omega)]
    exact fun e => hv e.symm

theorem is_bulk_dump_false_of_ne (raw : List Nat) (ms L p : Nat)
    (h : raw.getD p 0 ≠ 0xf0) : is_bulk_dump raw ms L p = false := by
  have hb : (raw.getD p 0 == 0xf0) = false := beq_false_of_ne h
  simp only [is_bulk_dump, hb, Bool.false_and]

theorem is_single_dump_false_of_ne (raw : List Nat) (ms L p : Nat)
    (h : raw.getD p 0 ≠ 0xf0) : is_single_dump raw ms L p = false := by
  have hb : (raw.getD p 0 == 0xf0) = false := beq_false_of_ne h
  simp only [is_single_dump, hb, Bool.false_and]

/-- A file without any `F0` byte has no SysEx header. -/
theorem no_sysex_header_of_no_f0 (data : List Nat) (h : ∀ x ∈ data, x ≠ 0xf0) :
    no_sysex_header data := fun p =>
  ⟨is_bulk_dump_false_of_ne _ _ _ _ (getD_ne_of_forall_mem data 0xf0 (by decide) h p),
   is_single_dump_false_of_ne _ _ _ _ (getD_ne_of_forall_mem data 0xf0 (by decide) h p)⟩

/-- C7, amended. For every `N` with `1 ≤ N ≤ maxpatches` and `N ≤ 16384` (so that
the file is not over 2 MiB), every file of exactly `128 * N` bytes in which the
scan matches no header, and a file name that, when `N = 64` (8192 bytes), does
not end in `.TX7`, `.SND`, `.BNK` or their lower-case forms: the decoder
returns exactly `N`, stores no message, and the first `128 * N` destination
bytes are the file, byte for byte. -/
theorem load_init_raw_idempotent (pack : List Nat → List Nat) (filename : String)
    (data firstpatch : List Nat) (N maxpatches : Nat) (has_errmsg : Bool)
    (hN : 1 ≤ N) (hmax : N ≤ maxpatches) (hsize : N ≤ 16384)
    (hlen : data.length = 128 * N) (hno : no_sysex_header data)
    (hext : N = 64 → vendor_extension_8192 filename = false) :
    dx7_patchbank_load_init pack filename (readable_file data) firstpatch maxpatches
        has_errmsg =
      some { count := N, firstpatch := data ++ firstpatch.drop (128 * N), errmsg := none } := by
  have hdiv : data.length / 128 = N := by omega
  rw [load_init_raw pack filename data firstpatch maxpatches has_errmsg hno (by omega) (by omega)
    (fun h => hext (by omega)) (by omega) (by omega) (by omega) (by omega)]
  rw [hdiv, Nat.min_eq_left hmax, ← hlen, List.take_length]

/-- C7, amended, on one raw patch of 128 zero bytes. -/
theorem load_init_raw_idempotent_witness :
    dx7_patchbank_load_init example_pack "bank.syx" (readable_file (List.replicate 128 0))
        (List.replicate 256 9) 2 true =
      some { count := 1,
             firstpatch := List.replicate 128 0 ++ (List.replicate 256 9).drop (128 * 1),
             errmsg := none } :=
  load_init_raw_idempotent example_pack "bank.syx" (List.replicate 128 0) (List.replicate 256 9)
    1 2 true (by decide) (by decide) (by decide) (by simp only [List.length_replicate])
    (no_sysex_header_of_no_f0 _ (fun x hx => by
      rw [List.eq_of_mem_replicate hx]; decide))
    (by decide)


/-- The first vendor case: an 8192-byte file named `*.TX7`, `*.SND`, `*.tx7` or
`*.snd` gets count 32 and length 4096, and then no later case applies. -/
theorem vendor_cases_tx7 (filename : String) (st : decode_state)
    (hext : (has_extension filename ".TX7" || has_extension filename ".SND" ||
             has_extension filename ".tx7" || has_extension filename ".snd") = true)
    (hlen : st.filelength = 8192) :
    vendor_cases filename st = { st with count := 32, filelength := 4096 } := by
  unfold vendor_cases
  simp [hext, hlen]



/-- An 8192-byte file named `*.TX7`, `*.SND`, `*.tx7` or `*.snd` in which no header
matches is decoded as 32 patches at offset 0, whatever its raw patch count. -/
theorem decode_tx7_8192 (pack : List Nat → List Nat) (filename : String) (data : List Nat)
    (hno : no_sysex_header data) (hlen : data.length = 8192)
    (hext : (has_extension filename ".TX7" || has_extension filename ".SND" ||
             has_extension filename ".tx7" || has_extension filename ".snd") = true) :
    dx7_patchbank_decode pack filename data =
      some { count := 32, datastart := 0, filelength := 4096, raw_patch_data := data } := by
  have hscan := sysex_scan_no_match pack (midi_shift data) data.length data hno
    data.length 0 0 (by omega)
  simp only [dx7_patchbank_decode, hscan]
  rw [vendor_cases_tx7 filename _ hext hlen]

/-- The count returned for such a file is `min 32 maxpatches`. -/
theorem load_init_tx7_8192_count (pack : List Nat → List Nat) (filename : String)
    (data firstpatch : List Nat) (maxpatches : Nat) (has_errmsg : Bool)
    (hno : no_sysex_header data) (hlen : data.length = 8192)
    (hext : (has_extension filename ".TX7" || has_extension filename ".SND" ||
             has_extension filename ".tx7" || has_extension filename ".snd") = true) :
    ∃ r, dx7_patchbank_load_init pack filename (readable_file data) firstpatch maxpatches
        has_errmsg = some r ∧ r.count = min 32 maxpatches :=
  ⟨_, load_init_of_decode pack filename data firstpatch maxpatches has_errmsg _
    (by omega) (by omega) (decode_tx7_8192 pack filename data hno hlen hext), rfl⟩

/-- A readable file of more than 2097152 bytes is rejected as too large. -/
theorem load_init_too_large (pack : List Nat → List Nat) (filename : String)
    (data firstpatch : List Nat) (maxpatches : Nat) (has_errmsg : Bool)
    (h : 2097152 < data.length) :
    dx7_patchbank_load_init pack filename (readable_file data) firstpatch maxpatches
        has_errmsg =
      some { count := 0, firstpatch := firstpatch,
             errmsg := if has_errmsg then some "patch file is too large" else none } := by
  have e1 : ¬ data.length = 0 := by omega
  simp [dx7_patchbank_load_init, reject, readable_file, e1, h]

theorem no_sysex_header_replicate_zero (n : Nat) : no_sysex_header (List.replicate n 0) :=
  no_sysex_header_of_no_f0 _ (fun x hx => by rw [List.eq_of_mem_replicate hx]; decide)


/-- C7 as stated fails in two ways. A raw file of `128 * 64` zero bytes named
`bank.TX7`, with `maxpatches = 64`, has no header yet 32 is returned, not 64. A
raw file of `128 * 16385` zero bytes, with `maxpatches = 16385`, is rejected as
too large and 0 is returned. -/
theorem load_init_raw_counterexample :
    ((List.replicate 8192 0).length = 128 * 64 ∧
      no_sysex_header (List.replicate 8192 0) ∧
      ∃ r, dx7_patchbank_load_init example_pack "bank.TX7"
        (readable_file (List.replicate 8192 0)) (List.replicate 8192 9) 64 true = some r ∧
        r.count = 32) ∧
    ((List.replicate 2097280 0).length = 128 * 16385 ∧
      no_sysex_header (List.replicate 2097280 0) ∧
      dx7_patchbank_load_init example_pack "bank.syx"
        (readable_file (List.replicate 2097280 0)) (List.replicate 2097280 9) 16385 true =
        some { count := 0, firstpatch := List.replicate 2097280 9,
               errmsg := some "patch file is too large" }) :=
  ⟨⟨List.length_replicate 8192 0, no_sysex_header_replicate_zero 8192,
    load_init_tx7_8192_count example_pack "bank.TX7" (List.replicate 8192 0)
      (List.replicate 8192 9) 64 true (no_sysex_header_replicate_zero 8192)
      (List.length_replicate 8192 0) (by decide)⟩,
   ⟨List.length_replicate 2097280 0, no_sysex_header_replicate_zero 2097280,
    load_init_too_large example_pack "bank.syx" (List.replicate 2097280 0)
      (List.replicate 2097280 9) 16385 true
      (Nat.lt_of_lt_of_eq (by decide) (List.length_replicate 2097280 0).symm)⟩⟩


theorem sysex_scan_done (pack : List Nat → List Nat) (ms L fuel ps count : Nat)
    (raw : List Nat) (h : ¬ ps + ms + 5 < L) :
    sysex_scan pack ms L fuel ps count raw = some (count, raw) := by
  cases fuel <;> simp [sysex_scan, h]

theorem sysex_scan_bulk (pack : List Nat → List Nat) (ms L fuel ps count : Nat)
    (raw : List Nat) (hc : ps + ms + 5 < L) (hb : is_bulk_dump raw ms L ps = true) :
    sysex_scan pack ms L (fuel + 1) ps count raw =
      sysex_scan pack ms L fuel (ps + 4104) (count + 32)
        (memmove raw (count * 128) (ps + 6 + ms) 4096) := by
  simp only [sysex_scan, if_pos hc, hb, if_true, DX7_DUMP_SIZE_VOICE_BULK,
    DX7_VOICE_SIZE_PACKED]

theorem sysex_scan_single (pack : List Nat → List Nat) (ms L fuel ps count : Nat)
    (raw : List Nat) (hc : ps + ms + 5 < L) (hb : is_bulk_dump raw ms L ps = false)
    (hs : is_single_dump raw ms L ps = true) :
    sysex_scan pack ms L (fuel + 1) ps count raw =
      sysex_scan pack ms L fuel (ps + 163) (count + 1)
        (write_bytes raw (count * 128)
          ((pack (bytes_at raw (ps + ms + 6) 155)).take 128)) := by
  simp only [sysex_scan, if_pos hc, hb, hs, if_true, DX7_DUMP_SIZE_VOICE_SINGLE,
    DX7_VOICE_SIZE_PACKED, DX7_VOICE_SIZE_UNPACKED, Bool.false_eq_true, if_false]

/-- Reading past a six-byte header and a body: the byte at `6 + body.length + k`
is byte `k` of what follows the body. -/
theorem getD_after_body (a b c d e f : Nat) (body tail : List Nat) (k : Nat) :
    (a :: b :: c :: d :: e :: f :: (body ++ tail)).getD (6 + body.length + k) 0 =
      tail.getD k 0 := by
  have h : 6 + body.length + k = (body.length + k) + 6 := by omega
  rw [h]
  simp only [List.getD_cons_succ]
  rw [List.getD_eq_getElem?_getD, List.getElem?_append_right (by omega),
    List.getD_eq_getElem?_getD]
  congr 2
  omega

/-- A file that starts with the byte `F0` is not a standard MIDI file. -/
theorem midi_shift_f0 (rest : List Nat) : midi_shift (0xf0 :: rest) = 0 := by
  simp [midi_shift]


/-- The decoding proper on one well-formed 32-voice dump: header, 4096 data bytes,
a checksum byte of any value, `F7`. -/
theorem decode_bulk_dump (pack : List Nat → List Nat) (filename : String)
    (n b4 ck : Nat) (payload : List Nat) (hn : n ≤ 0x0f) (hpl : payload.length = 4096) :
    dx7_patchbank_decode pack filename
        ([0xf0, 0x43, n, 0x09, b4, 0x00] ++ payload ++ [ck, 0xf7]) =
      some { count := 32, datastart := 0, filelength := 4104,
             raw_patch_data := payload ++ (payload.drop 4090 ++ [ck, 0xf7]) } := by
  have hdata : [0xf0, 0x43, n, 0x09, b4, 0x00] ++ payload ++ [ck, 0xf7] =
      0xf0 :: 0x43 :: n :: 0x09 :: b4 :: 0x00 :: (payload ++ [ck, 0xf7]) := by simp
  rw [hdata]
  generalize hd : 0xf0 :: 0x43 :: n :: 0x09 :: b4 :: 0x00 :: (payload ++ [ck, 0xf7]) = data
  have hlen : data.length = 4104 := by rw [← hd]; simp [hpl]
  have hms : midi_shift data = 0 := by rw [← hd]; exact midi_shift_f0 _
  have h4103 : data.getD 4103 0 = 0xf7 := by
    have h := getD_after_body 0xf0 0x43 n 0x09 b4 0x00 payload [ck, 0xf7] 1
    rw [hpl, hd] at h
    exact h
  have hb : is_bulk_dump data 0 4104 0 = true := by
    unfold is_bulk_dump
    rw [h4103]
    rw [← hd]
    simp [hn]
  have hmove : memmove data 0 6 4096 = payload ++ (payload.drop 4090 ++ [ck, 0xf7]) := by
    unfold memmove write_bytes bytes_at
    rw [← hd]
    simp [hpl, List.take_append_of_le_length, List.drop_append_eq_append_drop]
  have hscan : sysex_scan pack 0 4104 4104 0 0 data = some (32, memmove data 0 6 4096) :=
    (sysex_scan_bulk pack 0 4104 4103 0 0 data (by omega) hb).trans
      (sysex_scan_done pack 0 4104 4103 4104 32 _ (by omega))
  simp only [dx7_patchbank_decode, hms, hlen, hscan, hmove]
  rw [vendor_cases_other filename _ (by simp) (by simp) (by simp) (by simp) (by simp)]
  simp


/-- In a file of at most 4103 bytes no 32-voice dump can match: there is no room
for the `F7` at offset 4103. -/
theorem is_bulk_dump_false_of_short (raw : List Nat) (ms L p : Nat) (h : L ≤ 4103) :
    is_bulk_dump raw ms L p = false := by
  have hd : decide (p + 4103 + ms < L) = false := decide_eq_false (by omega)
  simp only [is_bulk_dump, hd, Bool.and_false, Bool.false_and]

theorem no_sysex_header_of_short (data : List Nat) (hL : data.length ≤ 4103)
    (hs : ∀ p, is_single_dump data (midi_shift data) data.length p = false) :
    no_sysex_header data := fun p =>
  ⟨is_bulk_dump_false_of_short data _ _ p hL, hs p⟩

/-- C8, amended. For every file made of a 32-voice dump header
`F0 43 0n 09 xx 00`, 4096 data bytes, one checksum byte of any value and `F7`
(4104 bytes), and every `maxpatches ≥ 32`: the decoder returns exactly 32,
stores no message, and the first 4096 destination bytes are the data bytes. -/
theorem load_init_bulk_dump (pack : List Nat → List Nat) (filename : String)
    (n b4 ck : Nat) (payload firstpatch : List Nat) (maxpatches : Nat) (has_errmsg : Bool)
    (hn : n ≤ 0x0f) (hpl : payload.length = 4096) (hmax : 32 ≤ maxpatches) :
    dx7_patchbank_load_init pack filename
        (readable_file ([0xf0, 0x43, n, 0x09, b4, 0x00] ++ payload ++ [ck, 0xf7]))
        firstpatch maxpatches has_errmsg =
      some { count := 32, firstpatch := payload ++ firstpatch.drop 4096, errmsg := none } := by
  rw [load_init_of_decode pack filename _ firstpatch maxpatches has_errmsg _
    (by simp [hpl]) (by simp [hpl]) (decode_bulk_dump pack filename n b4 ck payload hn hpl)]
  simp only [Nat.min_eq_left hmax, write_bytes, bytes_at, List.drop_zero, List.take_zero,
    List.nil_append, Nat.zero_add]
  have htake : List.take (128 * 32) (payload ++ (List.drop 4090 payload ++ [ck, 0xf7])) =
      payload := by
    rw [List.take_append_of_le_length (by omega), List.take_of_length_le (by omega)]
  rw [htake, hpl]

/-- C8, amended, on a dump of 4096 bytes of value 7 with checksum byte 0. -/
theorem load_init_bulk_dump_witness :
    dx7_patchbank_load_init example_pack "bank.syx"
        (readable_file ([0xf0, 0x43, 0, 0x09, 0x20, 0x00] ++ List.replicate 4096 7 ++
          [0, 0xf7]))
        (List.replicate 4096 1) 32 true =
      some { count := 32,
             firstpatch := List.replicate 4096 7 ++ (List.replicate 4096 1).drop 4096,
             errmsg := none } :=
  load_init_bulk_dump example_pack "bank.syx" 0 0x20 0 (List.replicate 4096 7)
    (List.replicate 4096 1) 32 true (by decide) (List.length_replicate 4096 7) (by decide)


/-- A file that starts with a 32-voice dump header and has no other `F0` byte has
no single-voice dump: at offset 0 the format bytes differ, elsewhere the status
byte is missing. -/
theorem is_single_dump_false_bulk_header (n b4 : Nat) (rest : List Nat) (L : Nat)
    (hn : n ≤ 0x0f) (hb4 : b4 ≠ 0xf0) (hrest : ∀ x ∈ rest, x ≠ 0xf0) :
    ∀ p, is_single_dump (0xf0 :: 0x43 :: n :: 0x09 :: b4 :: 0x00 :: rest) 0 L p = false := by
  intro p
  cases p with
  | zero => simp [is_single_dump]
  | succ p =>
    apply is_single_dump_false_of_ne
    rw [List.getD_cons_succ]
    apply getD_ne_of_forall_mem _ _ (by decide)
    intro x hx
    simp only [List.mem_cons] at hx
    rcases hx with rfl | rfl | rfl | rfl | rfl | hx
    · decide
    · omega
    · decide
    · exact hb4
    · decide
    · exact hrest x hx

/-- C9. For every file that starts with a 32-voice dump header `F0 43 0n 09 xx 00`
and is 4101, 4102 or 4103 bytes long (the dump cut short before its `F7`, so no
terminator is at offset 4103), in which no single-voice dump matches: no dump
is recognised, the decoding proper yields the raw count `filelength / 128 = 32`
with data offset 0 and the file itself as patch data, and the call returns
`min 32 maxpatches` with the destination holding that many 128-byte records
taken from the start of the file, header bytes included. -/
theorem load_init_truncated_bulk_dump (pack : List Nat → List Nat) (filename : String)
    (n b4 : Nat) (rest firstpatch : List Nat) (maxpatches : Nat) (has_errmsg : Bool)
    (hlen : 4095 ≤ rest.length ∧ rest.length ≤ 4097)
    (hsingle : ∀ p, is_single_dump ([0xf0, 0x43, n, 0x09, b4, 0x00] ++ rest) 0
      ([0xf0, 0x43, n, 0x09, b4, 0x00] ++ rest).length p = false) :
    dx7_patchbank_decode pack filename ([0xf0, 0x43, n, 0x09, b4, 0x00] ++ rest) =
      some { count := ([0xf0, 0x43, n, 0x09, b4, 0x00] ++ rest).length / 128,
             datastart := 0,
             filelength := ([0xf0, 0x43, n, 0x09, b4, 0x00] ++ rest).length,
             raw_patch_data := [0xf0, 0x43, n, 0x09, b4, 0x00] ++ rest } ∧
    ([0xf0, 0x43, n, 0x09, b4, 0x00] ++ rest).length / 128 = 32 ∧
    dx7_patchbank_load_init pack filename
        (readable_file ([0xf0, 0x43, n, 0x09, b4, 0x00] ++ rest)) firstpatch maxpatches
        has_errmsg =
      some { count := min 32 maxpatches,
             firstpatch := ([0xf0, 0x43, n, 0x09, b4, 0x00] ++ rest).take
                 (128 * min 32 maxpatches) ++ firstpatch.drop (128 * min 32 maxpatches),
             errmsg := none } := by
  generalize hd : [0xf0, 0x43, n, 0x09, b4, 0x00] ++ rest = data at hsingle
  have hL : data.length = 6 + rest.length := by rw [← hd]; simp; omega
  have hms : midi_shift data = 0 := by rw [← hd]; exact midi_shift_f0 _
  have hno : no_sysex_header data :=
    no_sysex_header_of_short data (by omega) (by rw [hms]; exact hsingle)
  have hdiv : data.length / 128 = 32 := by omega
  refine ⟨decode_raw pack filename data hno (by omega) (by omega) (by omega) (by omega)
    (by omega), hdiv, ?_⟩
  rw [load_init_raw pack filename data firstpatch maxpatches has_errmsg hno (by omega)
    (by omega) (by omega) (by omega) (by omega) (by omega) (by omega), hdiv]

/-- C9 on a dump of 4096 bytes of value 7 and its checksum byte, the `F7` cut off
(4103 bytes). -/
theorem load_init_truncated_bulk_dump_witness :
    dx7_patchbank_decode example_pack "bank.syx"
        ([0xf0, 0x43, 0, 0x09, 0x20, 0x00] ++ (List.replicate 4096 7 ++ [0])) =
      some { count := ([0xf0, 0x43, 0, 0x09, 0x20, 0x00] ++
               (List.replicate 4096 7 ++ [0])).length / 128,
             datastart := 0,
             filelength := ([0xf0, 0x43, 0, 0x09, 0x20, 0x00] ++
               (List.replicate 4096 7 ++ [0])).length,
             raw_patch_data := [0xf0, 0x43, 0, 0x09, 0x20, 0x00] ++
               (List.replicate 4096 7 ++ [0]) } ∧
    ([0xf0, 0x43, 0, 0x09, 0x20, 0x00] ++ (List.replicate 4096 7 ++ [0])).length / 128 = 32 ∧
    dx7_patchbank_load_init example_pack "bank.syx"
        (readable_file ([0xf0, 0x43, 0, 0x09, 0x20, 0x00] ++ (List.replicate 4096 7 ++ [0])))
        (List.replicate 4096 1) 32 true =
      some { count := min 32 32,
             firstpatch := ([0xf0, 0x43, 0, 0x09, 0x20, 0x00] ++
                 (List.replicate 4096 7 ++ [0])).take (128 * min 32 32) ++
               (List.replicate 4096 1).drop (128 * min 32 32),
             errmsg := none } :=
  load_init_truncated_bulk_dump example_pack "bank.syx" 0 0x20
    (List.replicate 4096 7 ++ [0]) (List.replicate 4096 1) 32 true
    (by simp only [List.length_append, List.length_replicate, List.length_singleton]; decide)
    (is_single_dump_false_bulk_header 0 0x20 (List.replicate 4096 7 ++ [0]) _ (by decide)
      (by decide) (fun x hx => by
        rcases List.mem_append.mp hx with h | h
        · rw [List.eq_of_mem_replicate h]; decide
        · rw [List.mem_singleton.mp h]; decide))


/-- A 32-voice dump header, 4096 data bytes and `F7` with no checksum byte between
them (4103 bytes) is not recognised as a dump: the file is decoded raw, and the
destination starts with the header byte `F0`, not with the data. -/
theorem bulk_layout_without_checksum (pack : List Nat → List Nat) (filename : String)
    (n b4 : Nat) (payload firstpatch : List Nat) (maxpatches : Nat) (has_errmsg : Bool)
    (hn : n ≤ 0x0f) (hb4 : b4 ≠ 0xf0) (hpl : payload.length = 4096)
    (hf0 : ∀ x ∈ payload, x ≠ 0xf0) (hmax : 32 ≤ maxpatches) :
    ∃ r, dx7_patchbank_load_init pack filename
        (readable_file ([0xf0, 0x43, n, 0x09, b4, 0x00] ++ payload ++ [0xf7]))
        firstpatch maxpatches has_errmsg = some r ∧
      r.count = 32 ∧ r.firstpatch.take 4096 ≠ payload := by
  have hsingle := is_single_dump_false_bulk_header n b4 (payload ++ [0xf7])
    ([0xf0, 0x43, n, 0x09, b4, 0x00] ++ payload ++ [0xf7]).length hn hb4 (fun x hx => by
      rcases List.mem_append.mp hx with h | h
      · exact hf0 x h
      · rw [List.mem_singleton.mp h]; decide)
  have hdata : [0xf0, 0x43, n, 0x09, b4, 0x00] ++ payload ++ [0xf7] =
      0xf0 :: 0x43 :: n :: 0x09 :: b4 :: 0x00 :: (payload ++ [0xf7]) := by simp
  rw [hdata] at hsingle ⊢
  generalize hd : 0xf0 :: 0x43 :: n :: 0x09 :: b4 :: 0x00 :: (payload ++ [0xf7]) = data
    at hsingle
  have hL : data.length = 4103 := by rw [← hd]; simp [hpl]
  have hms : midi_shift data = 0 := by rw [← hd]; exact midi_shift_f0 _
  have hno : no_sysex_header data :=
    no_sysex_header_of_short data (by omega) (by rw [hms]; exact hsingle)
  have hdiv : data.length / 128 = 32 := by omega
  refine ⟨_, load_init_raw pack filename data firstpatch maxpatches has_errmsg hno (by omega)
    (by omega) (by omega) (by omega) (by omega) (by omega) (by omega), ?_, ?_⟩
  · simp only [hdiv]; exact Nat.min_eq_left hmax
  · simp only [hdiv, Nat.min_eq_left hmax]
    intro h
    have hhead := congrArg List.head? h
    cases payload with
    | nil => simp at hpl
    | cons x xs =>
      have hx := hf0 x (List.mem_cons_self _ _)
      rw [← hd] at hhead
      simp at hhead
      exact hx hhead.symm

/-- C8 as stated fails. The file made of the header `F0 43 00 09 20 00`, 4096 data
bytes of value 7 and then `F7` (4103 bytes) is not recognised as a dump: 32 is
returned, but the destination holds the first 4096 bytes of the file, header
included, not the 4096 data bytes. -/
theorem load_init_bulk_dump_counterexample :
    ∃ r, dx7_patchbank_load_init example_pack "bank.syx"
        (readable_file ([0xf0, 0x43, 0, 0x09, 0x20, 0x00] ++ List.replicate 4096 7 ++ [0xf7]))
        (List.replicate 4096 1) 32 true = some r ∧
      r.count = 32 ∧ r.firstpatch.take 4096 ≠ List.replicate 4096 7 :=
  bulk_layout_without_checksum example_pack "bank.syx" 0 0x20 (List.replicate 4096 7)
    (List.replicate 4096 1) 32 true (by decide) (by decide) (List.length_replicate 4096 7)
    (fun x hx => by rw [List.eq_of_mem_replicate hx]; decide) (by decide)


/-- The decoding proper on one well-formed single-voice dump: header, 155 unpacked
bytes, a checksum byte of any value, `F7`. -/
theorem decode_single_dump (pack : List Nat → List Nat) (filename : String)
    (n b3 ck : Nat) (payload : List Nat) (hn : n ≤ 0x0f) (hpl : payload.length = 155)
    (hpack : (pack payload).length = 128) :
    dx7_patchbank_decode pack filename
        ([0xf0, 0x43, n, b3, 0x01, 0x1b] ++ payload ++ [ck, 0xf7]) =
      some { count := 1, datastart := 0, filelength := 163,
             raw_patch_data := pack payload ++ (payload.drop 122 ++ [ck, 0xf7]) } := by
  have hdata : [0xf0, 0x43, n, b3, 0x01, 0x1b] ++ payload ++ [ck, 0xf7] =
      0xf0 :: 0x43 :: n :: b3 :: 0x01 :: 0x1b :: (payload ++ [ck, 0xf7]) := by simp
  rw [hdata]
  generalize hd : 0xf0 :: 0x43 :: n :: b3 :: 0x01 :: 0x1b :: (payload ++ [ck, 0xf7]) = data
  have hlen : data.length = 163 := by rw [← hd]; simp [hpl]
  have hms : midi_shift data = 0 := by rw [← hd]; exact midi_shift_f0 _
  have h162 : data.getD 162 0 = 0xf7 := by
    have h := getD_after_body 0xf0 0x43 n b3 0x01 0x1b payload [ck, 0xf7] 1
    rw [hpl, hd] at h
    exact h
  have hb : is_bulk_dump data 0 163 0 = false := by
    unfold is_bulk_dump
    rw [← hd]
    simp
  have hs : is_single_dump data 0 163 0 = true := by
    unfold is_single_dump
    rw [h162]
    rw [← hd]
    simp [hn]
  have hbytes : bytes_at data (0 + 0 + 6) 155 = payload := by
    unfold bytes_at
    rw [← hd]
    simp [hpl, List.take_append_of_le_length]
  have hwrite : write_bytes data (0 * 128) ((pack payload).take 128) =
      pack payload ++ (payload.drop 122 ++ [ck, 0xf7]) := by
    have hfull : (pack payload).take 128 = pack payload :=
      List.take_of_length_le (by omega)
    unfold write_bytes
    rw [hfull, hpack, ← hd]
    simp [hpl, List.drop_append_eq_append_drop]
  have hscan : sysex_scan pack 0 163 163 0 0 data =
      some (1, pack payload ++ (payload.drop 122 ++ [ck, 0xf7])) := by
    have h1 := sysex_scan_single pack 0 163 162 0 0 data (by omega) hb hs
    rw [hbytes, hwrite] at h1
    exact h1.trans (sysex_scan_done pack 0 163 162 163 1 _ (by omega))
  simp only [dx7_patchbank_decode, hms, hlen, hscan]
  rw [vendor_cases_other filename _ (by simp) (by simp) (by simp) (by simp) (by simp)]
  simp

/-- C10, amended. For every file that is one single-voice dump, made of the header
`F0 43 0n xx 01 1B`, 155 unpacked bytes, one checksum byte of any value and
`F7` (163 bytes), for every `maxpatches ≥ 1` and every pack routine that fills
its 128-byte result: the decoder returns exactly 1, stores no message, and the
first 128 destination bytes are the pack routine applied to the 155 bytes. -/
theorem load_init_single_dump (pack : List Nat → List Nat) (filename : String)
    (n b3 ck : Nat) (payload firstpatch : List Nat) (maxpatches : Nat) (has_errmsg : Bool)
    (hn : n ≤ 0x0f) (hpl : payload.length = 155) (hpack : (pack payload).length = 128)
    (hmax : 1 ≤ maxpatches) :
    dx7_patchbank_load_init pack filename
        (readable_file ([0xf0, 0x43, n, b3, 0x01, 0x1b] ++ payload ++ [ck, 0xf7]))
        firstpatch maxpatches has_errmsg =
      some { count := 1, firstpatch := pack payload ++ firstpatch.drop 128,
             errmsg := none } := by
  rw [load_init_of_decode pack filename _ firstpatch maxpatches has_errmsg _
    (by simp [hpl]) (by simp [hpl])
    (decode_single_dump pack filename n b3 ck payload hn hpl hpack)]
  simp only [Nat.min_eq_left hmax, write_bytes, bytes_at, List.drop_zero, List.take_zero,
    List.nil_append, Nat.zero_add]
  have htake : List.take (128 * 1) (pack payload ++ (List.drop 122 payload ++ [ck, 0xf7])) =
      pack payload := by
    rw [List.take_append_of_le_length (by omega), List.take_of_length_le (by omega)]
  rw [htake, hpack]

/-- C10, amended, on a dump of 155 bytes of value 7 with checksum byte 0. -/
theorem load_init_single_dump_witness :
    dx7_patchbank_load_init example_pack "voice.syx"
        (readable_file ([0xf0, 0x43, 0, 0x00, 0x01, 0x1b] ++ List.replicate 155 7 ++
          [0, 0xf7]))
        (List.replicate 128 1) 1 true =
      some { count := 1,
             firstpatch := example_pack (List.replicate 155 7) ++
               (List.replicate 128 1).drop 128,
             errmsg := none } :=
  load_init_single_dump example_pack "voice.syx" 0 0 0 (List.replicate 155 7)
    (List.replicate 128 1) 1 true (by decide) (List.length_replicate 155 7)
    (by simp [example_pack]) (by decide)


/-- A single-voice dump header, 155 unpacked bytes and `F7` with no checksum byte
between them (162 bytes) is not recognised as a dump: the file is decoded raw
as one patch, and the destination starts with the header byte `F0`, so it is
not the packed voice unless the pack routine produced a leading `F0`. -/
theorem single_layout_without_checksum (pack : List Nat → List Nat) (filename : String)
    (n b3 : Nat) (payload firstpatch : List Nat) (maxpatches : Nat) (has_errmsg : Bool)
    (hn : n ≤ 0x0f) (hb3 : b3 ≠ 0xf0) (hpl : payload.length = 155)
    (hf0 : ∀ x ∈ payload, x ≠ 0xf0) (hmax : 1 ≤ maxpatches)
    (hpk : (pack payload).head? ≠ some 0xf0) :
    ∃ r, dx7_patchbank_load_init pack filename
        (readable_file ([0xf0, 0x43, n, b3, 0x01, 0x1b] ++ payload ++ [0xf7]))
        firstpatch maxpatches has_errmsg = some r ∧
      r.count = 1 ∧ r.firstpatch.take 128 ≠ pack payload := by
  have hdata : [0xf0, 0x43, n, b3, 0x01, 0x1b] ++ payload ++ [0xf7] =
      0xf0 :: 0x43 :: n :: b3 :: 0x01 :: 0x1b :: (payload ++ [0xf7]) := by simp
  rw [hdata]
  have hsingle : ∀ p, is_single_dump
      (0xf0 :: 0x43 :: n :: b3 :: 0x01 :: 0x1b :: (payload ++ [0xf7])) 0 162 p = false := by
    intro p
    cases p with
    | zero => simp [is_single_dump]
    | succ p =>
      apply is_single_dump_false_of_ne
      rw [List.getD_cons_succ]
      apply getD_ne_of_forall_mem _ _ (by decide)
      intro x hx
      simp only [List.mem_cons, List.mem_append, List.mem_singleton, List.not_mem_nil,
        or_false] at hx
      rcases hx with rfl | rfl | rfl | rfl | rfl | hx | rfl
      · decide
      · omega
      · exact hb3
      · decide
      · decide
      · exact hf0 x hx
      · decide
  generalize hd : 0xf0 :: 0x43 :: n :: b3 :: 0x01 :: 0x1b :: (payload ++ [0xf7]) = data
    at hsingle
  have hL : data.length = 162 := by rw [← hd]; simp [hpl]
  have hms : midi_shift data = 0 := by rw [← hd]; exact midi_shift_f0 _
  have hno : no_sysex_header data :=
    no_sysex_header_of_short data (by omega) (by rw [hms, hL]; exact hsingle)
  have hdiv : data.length / 128 = 1 := by omega
  refine ⟨_, load_init_raw pack filename data firstpatch maxpatches has_errmsg hno (by omega)
    (by omega) (by omega) (by omega) (by omega) (by omega) (by omega), ?_, ?_⟩
  · simp only [hdiv]; exact Nat.min_eq_left hmax
  · simp only [hdiv, Nat.min_eq_left hmax]
    intro h
    have hhead := congrArg List.head? h
    rw [← hd] at hhead
    simp at hhead
    exact hpk hhead.symm

/-- C10 as stated fails. The file made of the header `F0 43 00 00 01 1B`, 155
unpacked bytes of value 7 and then `F7` (162 bytes) is not recognised as a
dump: 1 is returned, but the destination holds the first 128 bytes of the file,
header included, not the packed voice. -/
theorem load_init_single_dump_counterexample :
    ∃ r, dx7_patchbank_load_init example_pack "voice.syx"
        (readable_file ([0xf0, 0x43, 0, 0x00, 0x01, 0x1b] ++ List.replicate 155 7 ++ [0xf7]))
        (List.replicate 128 1) 1 true = some r ∧
      r.count = 1 ∧ r.firstpatch.take 128 ≠ example_pack (List.replicate 155 7) :=
  single_layout_without_checksum example_pack "voice.syx" 0 0 (List.replicate 155 7)
    (List.replicate 128 1) 1 true (by decide) (by decide) (List.length_replicate 155 7)
    (fun x hx => by rw [List.eq_of_mem_replicate hx]; decide) (by decide) (by decide)


/-! ### Program changes -/

theorem no_select_in_handle_event (e : snd_seq_event_t) :
    ∀ c ∈ hexter_handle_event e, is_select_program c = false := by
  unfold hexter_handle_event
  split_ifs <;> simp [is_select_program]

theorem no_select_in_ready (sd : Nat) (evs : List snd_seq_event_t) :
    ∀ c ∈ (process_ready_events sd evs).1, is_select_program c = false := by
  induction evs with
  | nil => simp [process_ready_events]
  | cons e rest ih =>
    by_cases h : sd = e.tick
    · simp only [process_ready_events, if_pos h, List.mem_append]
      rintro c (hc | hc)
      · exact no_select_in_handle_event e c hc
      · exact ih c hc
    · simp [process_ready_events, if_neg h]

/-- The render loop never selects a program. -/
theorem no_select_in_loop (Q N : Nat) :
    ∀ (fuel sd nr : Nat) (evs : List snd_seq_event_t) (n : Nat) (cs : List Call),
      render_loop Q N fuel sd nr evs = some (n, cs) →
      ∀ c ∈ cs, is_select_program c = false := by
  intro fuel
  induction fuel with
  | zero =>
    intro sd nr evs n cs h
    simp only [render_loop] at h
    split_ifs at h
    simp only [Option.some.injEq, Prod.mk.injEq] at h
    rw [← h.2]; simp
  | succ fuel ih =>
    intro sd nr evs n cs h
    by_cases hlt : sd < N
    · simp only [render_loop, if_pos hlt] at h
      split at h
      · cases h
      · rename_i n' cs' hrec
        simp only [Option.some.injEq, Prod.mk.injEq] at h
        rw [← h.2]
        intro c hc
        rcases List.mem_append.mp hc with hc | hc
        · exact no_select_in_ready _ _ c hc
        · rcases List.mem_cons.mp hc with rfl | hc
          · rfl
          · exact ih _ _ _ _ _ hrec c hc
    · simp only [render_loop, if_neg hlt, Option.some.injEq, Prod.mk.injEq] at h
      rw [← h.2]; simp

/-- C14. In every `hexter_run_synth` call whose voice-list try-lock succeeds, the
run returns and: if `pending_program_change = p > -1` and the patches lock is
free, program `p` is selected exactly once, after nothing but the recovery of
the guard and so before any event or burst, and `pending_program_change`
becomes -1; if the patches lock is held, no program is selected and
`pending_program_change` stays `p`; if nothing is pending, no program is
selected. -/
theorem run_synth_pending_program_change {α : Type} [Zero α] (Q fuel : Nat)
    (rc_patches : Int) (inst : hexter_instance_t α) (N : Nat) (events : List snd_seq_event_t)
    (hQ : 0 < Q) (hQ2 : Q < 18446744073709551616) (hN : N < 18446744073709551616)
    (hfuel : N ≤ fuel) (hnr : inst.nugget_remains ≤ Q)
    (hev : ∀ e ∈ events, e.tick < 4294967296) :
    ∃ inst' cs, hexter_run_synth Q fuel 0 rc_patches inst N events = some (inst', cs) ∧
      (inst.pending_program_change > -1 → rc_patches = 0 →
        (∃ pre rest, cs = pre ++ Call.select_program 0 inst.pending_program_change :: rest ∧
          (∀ c ∈ pre, c = Call.all_voices_off) ∧
          (∀ c ∈ rest, is_select_program c = false)) ∧
        inst'.pending_program_change = -1) ∧
      (inst.pending_program_change > -1 → rc_patches ≠ 0 →
        (∀ c ∈ cs, is_select_program c = false) ∧
        inst'.pending_program_change = inst.pending_program_change) ∧
      (inst.pending_program_change ≤ -1 →
        (∀ c ∈ cs, is_select_program c = false) ∧
        inst'.pending_program_change = inst.pending_program_change) := by
  obtain ⟨n, cs, hrun, _⟩ :=
    render_loop_spec Q N hQ hQ2 hN fuel 0 inst.nugget_remains events (Nat.zero_le _)
      (by omega) hnr (fun e he => by have := hev e he; omega)
  have hloop := no_select_in_loop Q N fuel 0 inst.nugget_remains events n cs hrun
  refine ⟨_, _, by rw [hexter_run_synth_locked, hrun]; rfl, ?_, ?_, ?_⟩
  · intro hp hrc
    refine ⟨⟨if inst.voicelist_mutex_grab_failed ≠ 0 then [Call.all_voices_off] else [], cs,
      ?_, ?_, hloop⟩, ?_⟩
    · simp [prologue_calls, hp, hrc]
    · intro c hc
      split_ifs at hc <;> simp_all
    · simp [pending_after, hp, hrc]
  · intro hp hrc
    refine ⟨?_, by simp [pending_after, hrc]⟩
    intro c hc
    simp only [prologue_calls, hrc, and_false, if_false, List.append_nil, List.mem_append] at hc
    rcases hc with hc | hc
    · split_ifs at hc <;> simp_all [is_select_program]
    · exact hloop c hc
  · intro hp
    have hnp : ¬ inst.pending_program_change > -1 := by omega
    refine ⟨?_, by simp [pending_after, hnp]⟩
    intro c hc
    simp only [prologue_calls, hnp, false_and, if_false, List.append_nil, List.mem_append] at hc
    rcases hc with hc | hc
    · split_ifs at hc <;> simp_all [is_select_program]
    · exact hloop c hc


/-- C14 on a block of 8 samples with program 3 pending and the patches lock free. -/
theorem run_synth_pending_program_change_witness :
    ∃ inst' cs, hexter_run_synth 4 8 0 0 example_instance 8 [⟨6, 2, 60, 100, 0, 0⟩] =
        some (inst', cs) ∧
      (example_instance.pending_program_change > -1 → (0 : Int) = 0 →
        (∃ pre rest,
          cs = pre ++ Call.select_program 0 example_instance.pending_program_change :: rest ∧
          (∀ c ∈ pre, c = Call.all_voices_off) ∧
          (∀ c ∈ rest, is_select_program c = false)) ∧
        inst'.pending_program_change = -1) ∧
      (example_instance.pending_program_change > -1 → (0 : Int) ≠ 0 →
        (∀ c ∈ cs, is_select_program c = false) ∧
        inst'.pending_program_change = example_instance.pending_program_change) ∧
      (example_instance.pending_program_change ≤ -1 →
        (∀ c ∈ cs, is_select_program c = false) ∧
        inst'.pending_program_change = example_instance.pending_program_change) :=
  run_synth_pending_program_change 4 8 0 example_instance 8 [⟨6, 2, 60, 100, 0, 0⟩]
    (by decide) (by decide) (by decide) (by decide) (by decide) (by decide)

/-- C15. For every `bank ≠ 0` or `program ≥ 128`, `hexter_select_program` leaves the
instance as it was and calls nothing, whatever the state of the patches lock
(which it does not attempt); it returns nothing, so no error is surfaced. For
`bank = 0` and `program < 128` with the patches lock held, it sets
`pending_program_change` to `program`, changes no other field and calls
nothing, so the current program is unchanged. -/
theorem select_program_invalid_or_contended {α : Type} (rc : Int)
    (inst : hexter_instance_t α) (bank program : Nat) :
    (bank ≠ 0 ∨ program ≥ 128 → hexter_select_program rc inst bank program = (inst, [])) ∧
    (bank = 0 → program < 128 → rc ≠ 0 →
      hexter_select_program rc inst bank program =
        ({ inst with pending_program_change := (program : Int) }, [])) := by
  constructor
  · intro h
    simp [hexter_select_program, h]
  · intro hb hp hrc
    have h : ¬ (bank ≠ 0 ∨ program ≥ 128) := by omega
    simp [hexter_select_program, h, hrc]

/-- C15 at bank 1, at program 128, and at program 7 with the patches lock busy. -/
theorem select_program_invalid_or_contended_witness :
    hexter_select_program 0 example_instance 1 5 = (example_instance, []) ∧
    hexter_select_program 0 example_instance 0 128 = (example_instance, []) ∧
    hexter_select_program 16 example_instance 0 7 =
      ({ example_instance with pending_program_change := ((7 : Nat) : Int) }, []) :=
  ⟨(select_program_invalid_or_contended 0 example_instance 1 5).1 (Or.inl (by decide)),
   (select_program_invalid_or_contended 0 example_instance 0 128).1 (Or.inr (by decide)),
   (select_program_invalid_or_contended 16 example_instance 0 7).2 rfl (by decide)
     (by decide)⟩

/-- C13 fails on the code. Program 5 is requested while the patches lock is held
(deferred), then program 9 is requested with the lock free (applied at once),
with no audio block between them. In the next block, with both locks free, the
stale request is applied: the calls are `select_program 0 9`, then
`select_program 0 5`, then the bursts. The last program selected is 5, not 9. -/
theorem stale_pending_overrides_newer_request :
    two_requests_then_block 4 8 16 0
        ({ output := [], patches := [], nugget_remains := 0,
           voicelist_mutex_grab_failed := 0, pending_program_change := -1 } :
          hexter_instance_t Int) 5 9 8 [] =
      some ({ output := [0, 0, 0, 0, 0, 0, 0, 0], patches := [], nugget_remains := 0,
              voicelist_mutex_grab_failed := 0, pending_program_change := -1 },
        [Call.select_program 0 9, Call.select_program 0 5,
          Call.render_voices 0 4 true, Call.render_voices 4 4 true]) ∧
    last_selected_program [Call.select_program 0 9, Call.select_program 0 5,
        Call.render_voices 0 4 true, Call.render_voices 4 4 true] = some 5 :=
  ⟨rfl, rfl⟩


/-! ### More on the render loop -/

theorem length_le_total_size (bs : List (Nat × Nat)) (h : ∀ p ∈ bs, 1 ≤ p.2) :
    bs.length ≤ total_size bs := by
  induction bs with
  | nil => simp [total_size]
  | cons p rest ih =>
    have h1 := h p (List.mem_cons_self _ _)
    have h2 := ih (fun q hq => h q (List.mem_cons_of_mem _ hq))
    simp only [total_size, List.map_cons, List.sum_cons, List.length_cons] at h2 ⊢
    omega

/-- Every event the render loop handles has a timestamp below the block size. -/
theorem render_loop_applied_lt (Q N : Nat) :
    ∀ (fuel sd nr : Nat) (evs : List snd_seq_event_t) (n : Nat) (cs : List Call),
      render_loop Q N fuel sd nr evs = some (n, cs) →
      ∀ e ∈ applied_events cs, e.tick < N := by
  intro fuel
  induction fuel with
  | zero =>
    intro sd nr evs n cs h
    simp only [render_loop] at h
    split_ifs at h
    simp only [Option.some.injEq, Prod.mk.injEq] at h
    rw [← h.2]; simp [applied_events]
  | succ fuel ih =>
    intro sd nr evs n cs h
    by_cases hlt : sd < N
    · simp only [render_loop, if_pos hlt] at h
      split at h
      · cases h
      · rename_i n' cs' hrec
        simp only [Option.some.injEq, Prod.mk.injEq] at h
        rw [← h.2, applied_events_append]
        intro e he
        rcases List.mem_append.mp he with he | he
        · have := (process_ready_events_spec sd evs).2.1 e he
          omega
        · have he' : e ∈ applied_events cs' := by simpa [applied_events] using he
          exact ih _ _ _ _ _ hrec e he'
    · simp only [render_loop, if_neg hlt, Option.some.injEq, Prod.mk.injEq] at h
      rw [← h.2]; simp [applied_events]

theorem ordered_run_append_same (N sd : Nat) (hsd : sd < N)
    (pre rest : List snd_seq_event_t) (hpre : ∀ e ∈ pre, e.tick = sd) :
    ordered_run N sd (pre ++ rest) = pre ++ ordered_run N sd rest := by
  induction pre with
  | nil => rfl
  | cons e pre ih =>
    have he := hpre e (List.mem_cons_self _ _)
    have hc : sd ≤ e.tick ∧ e.tick < N := by omega
    have ih' := ih (fun x hx => hpre x (List.mem_cons_of_mem _ hx))
    show ordered_run N sd (e :: (pre ++ rest)) = e :: (pre ++ ordered_run N sd rest)
    rw [ordered_run, if_pos hc, he, ih']

theorem ordered_run_of_ge (N sd : Nat) (hsd : N ≤ sd) (evs : List snd_seq_event_t) :
    ordered_run N sd evs = [] := by
  cases evs with
  | nil => rfl
  | cons e rest =>
    have hc : ¬ (sd ≤ e.tick ∧ e.tick < N) := by omega
    simp only [ordered_run, if_neg hc]

theorem ordered_run_initial (N : Nat) :
    ∀ (prev : Nat) (evs : List snd_seq_event_t),
      ∃ rest, evs = ordered_run N prev evs ++ rest := by
  intro prev evs
  induction evs generalizing prev with
  | nil => exact ⟨[], rfl⟩
  | cons e rest ih =>
    by_cases hc : prev ≤ e.tick ∧ e.tick < N
    · obtain ⟨tail, htail⟩ := ih e.tick
      refine ⟨tail, ?_⟩
      simp only [ordered_run, if_pos hc, List.cons_append]
      rw [← htail]
    · exact ⟨e :: rest, by simp only [ordered_run, if_neg hc, List.nil_append]⟩

/-- The events the render loop handles are the longest prefix of the events left
whose timestamps are below the block size and do not decrease, starting from
`samples_done`. -/
theorem render_loop_applied_run (Q N : Nat) (hQ : 0 < Q) (hQ2 : Q < 18446744073709551616)
    (hN : N < 18446744073709551616) :
    ∀ (fuel sd nr : Nat) (evs : List snd_seq_event_t),
      sd ≤ N → N - sd ≤ fuel → nr ≤ Q →
      (∀ e ∈ evs, e.tick < 18446744073709551616) →
      ∃ n cs, render_loop Q N fuel sd nr evs = some (n, cs) ∧
        applied_events cs = ordered_run N sd evs := by
  intro fuel
  induction fuel with
  | zero =>
    intro sd nr evs hsd hf hnr _
    have hnot : ¬ sd < N := by omega
    exact ⟨nr, [], by simp [render_loop, hnot], by
      rw [ordered_run_of_ge N sd (by omega)]; simp [applied_events]⟩
  | succ fuel ih =>
    intro sd nr evs hsd hf hnr hev
    by_cases hlt : sd < N
    · have hnug : 0 < (if nr = 0 then Q else nr) ∧ (if nr = 0 then Q else nr) ≤ Q := by
        split_ifs <;> omega
      generalize hnugdef : (if nr = 0 then Q else nr) = nug at hnug
      obtain ⟨hsplit, hpre, hhead, hb0⟩ := process_ready_events_spec sd evs
      generalize hrdef : process_ready_events sd evs = r at hsplit hpre hhead hb0
      have hmem : ∀ e ∈ r.2, e ∈ evs := fun e he => by
        rw [hsplit]; exact List.mem_append_right _ he
      obtain ⟨hb1, hb2, hb3, hb4⟩ := burst_size_bounds Q N sd nug r.2 hlt hN hnug.1 hQ
        (fun e rest he => ⟨hhead e rest he,
          hev e (hmem e (by rw [he]; exact List.mem_cons_self _ _))⟩)
      have hshift : ordered_run N sd r.2 =
          ordered_run N (sd + burst_size Q N sd nug r.2) r.2 := by
        cases hr2 : r.2 with
        | nil => rfl
        | cons e0 rest =>
          have hne := hhead e0 rest hr2
          have hlt64 := hev e0 (hmem e0 (by rw [hr2]; exact List.mem_cons_self _ _))
          by_cases hlow : e0.tick < sd
          · have c1 : ¬ (sd ≤ e0.tick ∧ e0.tick < N) := by omega
            have c2 : ¬ (sd + burst_size Q N sd nug (e0 :: rest) ≤ e0.tick ∧ e0.tick < N) := by
              omega
            simp only [ordered_run, if_neg c1, if_neg c2]
          · have hle := burst_size_le_next Q N sd nug e0 rest (by omega) hlt64
            by_cases hN' : e0.tick < N
            · have c1 : sd ≤ e0.tick ∧ e0.tick < N := by omega
              have c2 : sd + burst_size Q N sd nug (e0 :: rest) ≤ e0.tick ∧ e0.tick < N := by
                omega
              simp only [ordered_run, if_pos c1, if_pos c2]
            · have c1 : ¬ (sd ≤ e0.tick ∧ e0.tick < N) := by omega
              have c2 : ¬ (sd + burst_size Q N sd nug (e0 :: rest) ≤ e0.tick ∧
                  e0.tick < N) := by omega
              simp only [ordered_run, if_neg c1, if_neg c2]
      generalize hbdef : burst_size Q N sd nug r.2 = b at hb1 hb2 hb3 hb4 hshift
      have hsd' : (sd + b) % 18446744073709551616 = sd + b := by
        apply Nat.mod_eq_of_lt; omega
      have hnr' : ulong_sub nug b = nug - b := by
        unfold ulong_sub; omega
      obtain ⟨n, cs, hrun, happ⟩ :=
        ih (sd + b) (nug - b) r.2 (by omega) (by omega) (by omega)
          (fun e he => hev e (hmem e he))
      refine ⟨n, r.1 ++ Call.render_voices sd b (b == nug) :: cs, ?_, ?_⟩
      · simp only [render_loop, if_pos hlt, hnugdef, hrdef, hbdef, hsd', hnr', hrun]
      · rw [applied_events_append]
        have hcs : applied_events (Call.render_voices sd b (b == nug) :: cs) =
            ordered_run N (sd + b) r.2 := by
          simpa [applied_events] using happ
        rw [hcs, ← hshift]
        conv_rhs => rw [hsplit]
        rw [ordered_run_append_same N sd hlt _ _ hpre]
    · exact ⟨nr, [], by simp [render_loop, hlt], by
        rw [ordered_run_of_ge N sd (by omega)]; simp [applied_events]⟩


/-- C19. For every block size `N`, every initial quantum remainder within `[0, Q]`
and every event list, sorted or not, with timestamps below, equal to or above
`N`: the render loop returns on fuel `N`, that is within `N` iterations; every
burst has at least one sample, so there are at most `N` bursts and they add up
to exactly `N`; and only events with a timestamp below `N` are handled, so an
event at `sample_count` adds no burst. -/
theorem run_synth_no_empty_burst {α : Type} [Zero α] (Q : Nat) (rc_patches : Int)
    (inst : hexter_instance_t α) (N : Nat) (events : List snd_seq_event_t)
    (hQ : 0 < Q) (hQ2 : Q < 18446744073709551616) (hN : N < 18446744073709551616)
    (hnr : inst.nugget_remains ≤ Q) (hev : ∀ e ∈ events, e.tick < 4294967296) :
    ∃ inst' cs, hexter_run_synth Q N 0 rc_patches inst N events = some (inst', cs) ∧
      (∀ p ∈ bursts cs, 1 ≤ p.2) ∧ (bursts cs).length ≤ N ∧
      total_size (bursts cs) = N ∧ ∀ e ∈ applied_events cs, e.tick < N := by
  obtain ⟨n, cs, hrun, _, _, ht, hall⟩ :=
    render_loop_spec Q N hQ hQ2 hN N 0 inst.nugget_remains events (Nat.zero_le _)
      (by omega) hnr (fun e he => by have := hev e he; omega)
  have hlt := render_loop_applied_lt Q N N 0 inst.nugget_remains events n cs hrun
  have hone : ∀ p ∈ bursts cs, 1 ≤ p.2 := fun p hp => (hall p hp).1
  have hlen := length_le_total_size (bursts cs) hone
  refine ⟨_, _, by rw [hexter_run_synth_locked, hrun]; rfl, ?_, ?_, ?_, ?_⟩
  · rw [bursts_append, bursts_prologue_calls]; exact hone
  · rw [bursts_append, bursts_prologue_calls]
    simp only [List.nil_append]
    omega
  · rw [bursts_append, bursts_prologue_calls]; simpa using ht
  · rw [applied_events_append, applied_prologue_calls]; exact hlt

/-- C19 on a block of 10 samples with events at 12, 10 and 3, in this order. -/
theorem run_synth_no_empty_burst_witness :
    ∃ inst' cs, hexter_run_synth 4 10 0 0 example_instance 10
        [⟨6, 12, 60, 100, 0, 0⟩, ⟨6, 10, 62, 100, 0, 0⟩, ⟨7, 3, 60, 0, 0, 0⟩] =
        some (inst', cs) ∧
      (∀ p ∈ bursts cs, 1 ≤ p.2) ∧ (bursts cs).length ≤ 10 ∧
      total_size (bursts cs) = 10 ∧ ∀ e ∈ applied_events cs, e.tick < 10 :=
  run_synth_no_empty_burst 4 0 example_instance 10 _ (by decide) (by decide) (by decide)
    (by decide) (by decide)

/-- C20. For every block size `N` and every event list, sorted or not, the run
returns and the events given to `hexter_handle_event` are, in order and each
once, exactly the longest prefix of the list in which every timestamp is below
`N` and not smaller than the one before it. That prefix is an initial segment
of the list: the first event that is out of order or at or beyond `N`, and
every event after it, is not handled in this block. -/
theorem run_synth_applies_ordered_run {α : Type} [Zero α] (Q fuel : Nat)
    (rc_patches : Int) (inst : hexter_instance_t α) (N : Nat) (events : List snd_seq_event_t)
    (hQ : 0 < Q) (hQ2 : Q < 18446744073709551616) (hN : N < 18446744073709551616)
    (hfuel : N ≤ fuel) (hnr : inst.nugget_remains ≤ Q)
    (hev : ∀ e ∈ events, e.tick < 4294967296) :
    ∃ inst' cs, hexter_run_synth Q fuel 0 rc_patches inst N events = some (inst', cs) ∧
      applied_events cs = ordered_run N 0 events ∧
      ∃ rest, events = ordered_run N 0 events ++ rest := by
  obtain ⟨n, cs, hrun, happ⟩ :=
    render_loop_applied_run Q N hQ hQ2 hN fuel 0 inst.nugget_remains events
      (Nat.zero_le _) (by omega) hnr (fun e he => by have := hev e he; omega)
  refine ⟨_, _, by rw [hexter_run_synth_locked, hrun]; rfl, ?_,
    ordered_run_initial N 0 events⟩
  rw [applied_events_append, applied_prologue_calls]
  exact happ

/-- C20 on a block of 10 samples with events at 2, 2, 7, 5, 8 and 12: the events
at 2, 2 and 7 are handled, the one at 5 is out of order and ends the prefix. -/
theorem run_synth_applies_ordered_run_witness :
    ∃ inst' cs, hexter_run_synth 4 10 0 0 example_instance 10
        [⟨6, 2, 60, 100, 0, 0⟩, ⟨6, 2, 64, 100, 0, 0⟩, ⟨6, 7, 67, 100, 0, 0⟩,
         ⟨7, 5, 60, 0, 0, 0⟩, ⟨7, 8, 64, 0, 0, 0⟩, ⟨7, 12, 67, 0, 0, 0⟩] =
        some (inst', cs) ∧
      applied_events cs = ordered_run 10 0
        [⟨6, 2, 60, 100, 0, 0⟩, ⟨6, 2, 64, 100, 0, 0⟩, ⟨6, 7, 67, 100, 0, 0⟩,
         ⟨7, 5, 60, 0, 0, 0⟩, ⟨7, 8, 64, 0, 0, 0⟩, ⟨7, 12, 67, 0, 0, 0⟩] ∧
      ∃ rest, [⟨6, 2, 60, 100, 0, 0⟩, ⟨6, 2, 64, 100, 0, 0⟩, ⟨6, 7, 67, 100, 0, 0⟩,
         ⟨7, 5, 60, 0, 0, 0⟩, ⟨7, 8, 64, 0, 0, 0⟩, ⟨7, 12, 67, 0, 0, 0⟩] =
        ordered_run 10 0
          [⟨6, 2, 60, 100, 0, 0⟩, ⟨6, 2, 64, 100, 0, 0⟩, ⟨6, 7, 67, 100, 0, 0⟩,
           ⟨7, 5, 60, 0, 0, 0⟩, ⟨7, 8, 64, 0, 0, 0⟩, ⟨7, 12, 67, 0, 0, 0⟩] ++ rest :=
  run_synth_applies_ordered_run 4 10 0 example_instance 10 _ (by decide) (by decide)
    (by decide) (by decide) (by decide) (by decide)


/-! ### Quantum boundaries -/

theorem quantum_flags_ok_append (Q : Nat) (a b : List Call) :
    ∀ d, quantum_flags_ok Q d (a ++ b) ↔
      quantum_flags_ok Q d a ∧ quantum_flags_ok Q (d + total_size (bursts a)) b := by
  induction a with
  | nil => intro d; simp [quantum_flags_ok, bursts, total_size]
  | cons c rest ih =>
    intro d
    cases c <;>
      simp [quantum_flags_ok, bursts, total_size, ih, and_assoc, Nat.add_assoc]

theorem completed_quanta_append (a b : List Call) :
    ∀ d, completed_quanta d (a ++ b) =
      completed_quanta d a ++ completed_quanta (d + total_size (bursts a)) b := by
  induction a with
  | nil => intro d; simp [completed_quanta, bursts, total_size]
  | cons c rest ih =>
    intro d
    cases c <;>
      simp [completed_quanta, bursts, total_size, ih, Nat.add_assoc]


theorem quantum_flags_ok_of_no_bursts (Q : Nat) (a : List Call) (h : bursts a = []) :
    ∀ d, quantum_flags_ok Q d a := by
  induction a with
  | nil => intro d; simp [quantum_flags_ok]
  | cons c rest ih =>
    intro d
    cases c <;> simp_all [quantum_flags_ok, bursts]

theorem completed_quanta_of_no_bursts (a : List Call) (h : bursts a = []) :
    ∀ d, completed_quanta d a = [] := by
  induction a with
  | nil => intro d; simp [completed_quanta]
  | cons c rest ih =>
    intro d
    cases c <;> simp_all [completed_quanta, bursts]

/-- Two different multiples of `Q` are at least `Q` apart. -/
theorem multiples_gap (Q a c : Nat) (ha : a % Q = 0) (hc : c % Q = 0) (hlt : a < c) :
    Q ≤ c - a := by
  have h1 : Q ∣ c - a := Nat.dvd_sub' (Nat.dvd_of_mod_eq_zero hc) (Nat.dvd_of_mod_eq_zero ha)
  exact Nat.le_of_dvd (by omega) h1

/-- The render loop, started `T0 + samples_done` samples after a quantum boundary
count began, with the remainder consistent with that position: every burst
carries the end-of-quantum flag exactly when it ends on a positive multiple of
`Q`, the flagged ends are exactly the multiples of `Q` passed, and the
remainder stays consistent. -/
theorem render_loop_quanta (Q N : Nat) (hQ : 0 < Q) (hQ2 : Q < 18446744073709551616)
    (hN : N < 18446744073709551616) (T0 : Nat) :
    ∀ (fuel sd nr : Nat) (evs : List snd_seq_event_t),
      sd ≤ N → N - sd ≤ fuel → nr ≤ Q → (T0 + sd + nr) % Q = 0 →
      (∀ e ∈ evs, e.tick < 18446744073709551616) →
      ∃ n cs, render_loop Q N fuel sd nr evs = some (n, cs) ∧ n ≤ Q ∧
        (T0 + N + n) % Q = 0 ∧ total_size (bursts cs) = N - sd ∧
        quantum_flags_ok Q (T0 + sd) cs ∧
        ∀ m, m ∈ completed_quanta (T0 + sd) cs ↔ T0 + sd < m ∧ m ≤ T0 + N ∧ m % Q = 0 := by
  intro fuel
  induction fuel with
  | zero =>
    intro sd nr evs hsd hf hnr hmod _
    have hnot : ¬ sd < N := by omega
    have hsdN : sd = N := by omega
    subst hsdN
    refine ⟨nr, [], by simp [render_loop], hnr, hmod, by simp [bursts, total_size],
      by simp [quantum_flags_ok], ?_⟩
    intro m
    simp only [completed_quanta, List.not_mem_nil, false_iff]
    omega
  | succ fuel ih =>
    intro sd nr evs hsd hf hnr hmod hev
    by_cases hlt : sd < N
    · have hnug : 0 < (if nr = 0 then Q else nr) ∧ (if nr = 0 then Q else nr) ≤ Q ∧
          (T0 + sd + (if nr = 0 then Q else nr)) % Q = 0 := by
        by_cases h0 : nr = 0
        · subst h0
          simp only [if_true, Nat.add_zero] at hmod ⊢
          exact ⟨hQ, le_refl _, by rw [Nat.add_mod_right]; exact hmod⟩
        · simp only [if_neg h0]
          exact ⟨by omega, hnr, hmod⟩
      generalize hnugdef : (if nr = 0 then Q else nr) = nug at hnug
      obtain ⟨hsplit, _, hhead, hb0⟩ := process_ready_events_spec sd evs
      generalize hrdef : process_ready_events sd evs = r at hsplit hhead hb0
      have hmem : ∀ e ∈ r.2, e ∈ evs := fun e he => by
        rw [hsplit]; exact List.mem_append_right _ he
      obtain ⟨hb1, hb2, hb3, hb4⟩ := burst_size_bounds Q N sd nug r.2 hlt hN hnug.1 hQ
        (fun e rest he => ⟨hhead e rest he,
          hev e (hmem e (by rw [he]; exact List.mem_cons_self _ _))⟩)
      generalize hbdef : burst_size Q N sd nug r.2 = b at hb1 hb2 hb3 hb4
      have hsd' : (sd + b) % 18446744073709551616 = sd + b := by
        apply Nat.mod_eq_of_lt; omega
      have hnr' : ulong_sub nug b = nug - b := by
        unfold ulong_sub; omega
      obtain ⟨n, cs, hrun, hn, hfin, htot, hflags, hcomp⟩ :=
        ih (sd + b) (nug - b) r.2 (by omega) (by omega) (by omega)
          (by
            have e : T0 + (sd + b) + (nug - b) = T0 + sd + nug := by omega
            rw [e]; exact hnug.2.2)
          (fun e he => hev e (hmem e he))
      have hflag : ((b == nug) = true ↔ 0 < T0 + sd + b ∧ (T0 + sd + b) % Q = 0) := by
        constructor
        · intro h
          have hbn : b = nug := by simpa using h
          subst hbn
          exact ⟨by omega, hnug.2.2⟩
        · rintro ⟨_, hm⟩
          by_contra hne
          have hbn : b ≠ nug := by simpa using hne
          have := multiples_gap Q (T0 + sd + b) (T0 + sd + nug) hm hnug.2.2 (by omega)
          omega
      refine ⟨n, r.1 ++ Call.render_voices sd b (b == nug) :: cs, ?_, hn, hfin, ?_, ?_, ?_⟩
      · simp only [render_loop, if_pos hlt, hnugdef, hrdef, hbdef, hsd', hnr', hrun]
      · rw [bursts_append, hb0]
        simp only [List.nil_append, bursts, List.filterMap_cons, total_size, List.map_cons,
          List.sum_cons]
        simp only [bursts, total_size] at htot
        omega
      · rw [quantum_flags_ok_append, hb0]
        refine ⟨quantum_flags_ok_of_no_bursts Q r.1 hb0 _, ?_⟩
        simp only [total_size, List.map_nil, List.sum_nil, Nat.add_zero, quantum_flags_ok]
        exact ⟨hflag, by rw [Nat.add_assoc]; exact hflags⟩
      · intro m
        rw [completed_quanta_append, hb0, completed_quanta_of_no_bursts r.1 hb0]
        simp only [total_size, List.map_nil, List.sum_nil, Nat.add_zero, List.nil_append,
          completed_quanta, List.mem_append]
        have hcm := hcomp m
        rw [← Nat.add_assoc] at hcm
        rw [hcm]
        constructor
        · rintro (h | h)
          · by_cases hf : (b == nug) = true
            · simp only [hf, if_true, List.mem_singleton] at h
              subst h
              exact ⟨by omega, by omega, (hflag.mp hf).2⟩
            · simp [hf] at h
          · exact ⟨by omega, h.2.1, h.2.2⟩
        · rintro ⟨h1, h2, h3⟩
          by_cases hgt : T0 + sd + b < m
          · exact Or.inr ⟨hgt, h2, h3⟩
          · left
            have hmle : m ≤ T0 + sd + b := by omega
            by_cases hmeq : m = T0 + sd + b
            · have hf : (b == nug) = true := hflag.mpr ⟨by omega, by rw [← hmeq]; exact h3⟩
              simp [hf, hmeq]
            · exfalso
              have := multiples_gap Q m (T0 + sd + nug) h3 hnug.2.2 (by omega)
              omega
    · have hsdN : sd = N := by omega
      subst hsdN
      refine ⟨nr, [], by simp [render_loop], hnr, hmod, by simp [bursts, total_size],
        by simp [quantum_flags_ok], ?_⟩
      intro m
      simp only [completed_quanta, List.not_mem_nil, false_iff]
      omega


/-- A sequence of blocks that all take the voice-list lock, started `T0` samples
into the quantum count with a consistent remainder: the flags of all bursts,
read across the block boundaries, mark exactly the positive multiples of `Q`. -/
theorem run_blocks_quanta {α : Type} [Zero α] (Q : Nat) (hQ : 0 < Q)
    (hQ2 : Q < 18446744073709551616) :
    ∀ (blocks : List block) (inst : hexter_instance_t α) (T0 : Nat),
      (∀ b ∈ blocks, b.rc_voicelist = 0 ∧ b.sample_count < 18446744073709551616 ∧
        ∀ e ∈ b.events, e.tick < 4294967296) →
      inst.nugget_remains ≤ Q → (T0 + inst.nugget_remains) % Q = 0 →
      ∃ rs, run_blocks Q blocks inst = some rs ∧ quantum_flags_ok Q T0 (all_calls rs) ∧
        total_size (bursts (all_calls rs)) = total_samples blocks ∧
        ∀ m, m ∈ completed_quanta T0 (all_calls rs) ↔
          T0 < m ∧ m ≤ T0 + total_samples blocks ∧ m % Q = 0 := by
  intro blocks
  induction blocks with
  | nil =>
    intro inst T0 _ _ _
    refine ⟨[], rfl, by simp [all_calls, quantum_flags_ok],
      by simp [all_calls, bursts, total_size, total_samples], ?_⟩
    intro m
    simp only [all_calls, completed_quanta, List.not_mem_nil, false_iff, total_samples]
    omega
  | cons b bs ih =>
    intro inst T0 hwf hnr hmod
    obtain ⟨hrc, hN, hev⟩ := hwf b (List.mem_cons_self _ _)
    obtain ⟨n, cs, hrun, hn, hfin, htot, hflags, hcomp⟩ :=
      render_loop_quanta Q b.sample_count hQ hQ2 hN T0 b.sample_count 0 inst.nugget_remains
        b.events (Nat.zero_le _) (by omega) hnr (by simpa using hmod)
        (fun e he => by have := hev e he; omega)
    simp only [Nat.add_zero, Nat.sub_zero] at htot hflags hcomp
    obtain ⟨rs, hrs, hrflags, hrtot, hrcomp⟩ :=
      ih { output := List.replicate b.sample_count 0 ++ inst.output.drop b.sample_count,
           patches := inst.patches, nugget_remains := n, voicelist_mutex_grab_failed := 0,
           pending_program_change := pending_after b.rc_patches inst }
        (T0 + b.sample_count) (fun x hx => hwf x (List.mem_cons_of_mem _ hx)) hn hfin
    have hpro := bursts_prologue_calls b.rc_patches inst
    have htotal : total_size (bursts (prologue_calls b.rc_patches inst ++ cs)) =
        b.sample_count := by
      rw [bursts_append, hpro]; simpa using htot
    refine ⟨{ before := inst,
              after := { output := List.replicate b.sample_count 0 ++
                           inst.output.drop b.sample_count,
                         patches := inst.patches, nugget_remains := n,
                         voicelist_mutex_grab_failed := 0,
                         pending_program_change := pending_after b.rc_patches inst },
              calls := prologue_calls b.rc_patches inst ++ cs } :: rs,
      by simp only [run_blocks, hrc, hexter_run_synth_locked, hrun, Option.map_some', hrs],
      ?_, ?_, ?_⟩
    · simp only [all_calls]
      rw [quantum_flags_ok_append, htotal]
      refine ⟨?_, hrflags⟩
      rw [quantum_flags_ok_append, hpro]
      exact ⟨quantum_flags_ok_of_no_bursts Q _ hpro _, by simpa [total_size] using hflags⟩
    · simp only [all_calls, total_samples]
      rw [bursts_append]
      simp only [total_size, List.map_append, List.sum_append] at htotal hrtot ⊢
      omega
    · intro m
      simp only [all_calls, total_samples]
      rw [completed_quanta_append, htotal, completed_quanta_append, hpro,
        completed_quanta_of_no_bursts _ hpro]
      simp only [total_size, List.map_nil, List.sum_nil, Nat.add_zero, List.nil_append,
        List.mem_append]
      rw [hcomp m, hrcomp m]
      constructor
      · rintro (h | h)
        · exact ⟨h.1, by omega, h.2.2⟩
        · exact ⟨by omega, by omega, h.2.2⟩
      · rintro ⟨h1, h2, h3⟩
        by_cases hle : m ≤ T0 + b.sample_count
        · exact Or.inl ⟨h1, hle, h3⟩
        · exact Or.inr ⟨by omega, by omega, h3⟩

/-- C18. Starting from `nugget_remains = 0`, over any sequence of blocks that all
take the voice-list lock, with any sizes and any event lists: the sequence
returns; reading the bursts of all blocks in order, the end-of-quantum flag of
a burst is set exactly when the burst ends at a cumulative rendered-sample
position that is a positive multiple of `Q`; the positions where a flagged
burst ends are exactly the positive multiples of `Q` up to the total number of
samples, so they depend on the total only and not on how it is cut into
blocks; and in every iteration the flag is set exactly when the subtraction
leaves `nugget_remains = 0`. -/
theorem quantum_boundaries_partition_independent {α : Type} [Zero α] (Q : Nat)
    (blocks : List block) (inst : hexter_instance_t α)
    (hQ : 0 < Q) (hQ2 : Q < 18446744073709551616) (h0 : inst.nugget_remains = 0)
    (hwf : ∀ b ∈ blocks, b.rc_voicelist = 0 ∧ b.sample_count < 18446744073709551616 ∧
      ∀ e ∈ b.events, e.tick < 4294967296) :
    (∃ rs, run_blocks Q blocks inst = some rs ∧ quantum_flags_ok Q 0 (all_calls rs) ∧
      ∀ m, m ∈ completed_quanta 0 (all_calls rs) ↔
        0 < m ∧ m ≤ total_samples blocks ∧ m % Q = 0) ∧
    (∀ (N samples_done nugget : Nat) (events : List snd_seq_event_t),
      nugget < 18446744073709551616 →
      ((burst_size Q N samples_done nugget events == nugget) = true ↔
        ulong_sub nugget (burst_size Q N samples_done nugget events) = 0)) := by
  constructor
  · obtain ⟨rs, hrs, hflags, _, hcomp⟩ :=
      run_blocks_quanta Q hQ hQ2 blocks inst 0 hwf (by omega) (by simp [h0])
    refine ⟨rs, hrs, hflags, ?_⟩
    intro m
    rw [hcomp m]
    simp
  · intro N sd nug evs hnug
    have hle : burst_size Q N sd nug evs ≤ nug := by
      unfold burst_size
      cases evs with
      | nil => simp only; split_ifs <;> omega
      | cons e rest => simp only; split_ifs <;> omega
    unfold ulong_sub
    generalize burst_size Q N sd nug evs = b at hle
    simp only [beq_iff_eq]
    omega


/-- C18 with `Q = 4` on two blocks of 3 and 7 samples: the flagged bursts end at
the multiples of 4 up to 10, as they would in one block of 10 samples. -/
theorem quantum_boundaries_partition_independent_witness :
    (∃ rs, run_blocks 4 example_locked_blocks example_instance = some rs ∧
      quantum_flags_ok 4 0 (all_calls rs) ∧
      ∀ m, m ∈ completed_quanta 0 (all_calls rs) ↔
        0 < m ∧ m ≤ total_samples example_locked_blocks ∧ m % 4 = 0) ∧
    (∀ (N samples_done nugget : Nat) (events : List snd_seq_event_t),
      nugget < 18446744073709551616 →
      ((burst_size 4 N samples_done nugget events == nugget) = true ↔
        ulong_sub nugget (burst_size 4 N samples_done nugget events) = 0)) :=
  quantum_boundaries_partition_independent 4 example_locked_blocks example_instance
    (by decide) (by decide) (by decide) (by decide)


/-! ### The patch store at instantiation and the vendor extensions -/

/-- A readable file of 1 to 127 bytes is rejected as too small. -/
theorem load_init_too_small (pack : List Nat → List Nat) (filename : String)
    (data firstpatch : List Nat) (maxpatches : Nat) (has_errmsg : Bool)
    (h1 : 0 < data.length) (h2 : data.length < 128) :
    dx7_patchbank_load_init pack filename (readable_file data) firstpatch maxpatches
        has_errmsg =
      some { count := 0, firstpatch := firstpatch,
             errmsg := if has_errmsg then some "patch file is too small" else none } := by
  have e1 : ¬ data.length = 0 := by omega
  have e2 : ¬ data.length > 2097152 := by omega
  simp [dx7_patchbank_load_init, reject, readable_file, e1, e2, h2]

/-- What `hexter_instantiate` leaves in the patch store when the default bank is
set: the result of loading it over the block `malloc` returned. -/
theorem hexter_instantiate_default_bank {α : Type} (pack : List Nat → List Nat)
    (heap init_patches : List Nat) (path : String) (file : patch_file) (r : load_result)
    (h : dx7_patchbank_load_init pack path file heap 128 false = some r) :
    (hexter_instantiate pack true heap (some (path, file)) init_patches :
        Option (hexter_instance_t α × List Call)) =
      some ({ output := [], patches := r.firstpatch, nugget_remains := 0,
              voicelist_mutex_grab_failed := 0, pending_program_change := -1 },
        [Call.eg_init_constants, Call.data_performance_init, Call.select_program 0 0,
         Call.init_controls]) := by
  simp [hexter_instantiate, h]

/-- C16 fails on the code. With `HEXTER_DEFAULT_BANK_PATH` naming a 50-byte file,
which the decoder rejects, `hexter_instantiate` succeeds and the patch store
is the block `malloc` returned, untouched: whatever bytes `heap` holds, and
never the default patches. With the variable naming a file that is one
single-voice dump, only the first 128 bytes are written; the other 127 slots
are again the bytes of `heap`. -/
theorem instantiate_leaves_heap_in_patch_store (heap init_patches : List Nat) :
    (hexter_instantiate example_pack true heap
        (some ("bank.syx", readable_file (List.replicate 50 0))) init_patches :
        Option (hexter_instance_t Int × List Call)) =
      some ({ output := [], patches := heap, nugget_remains := 0,
              voicelist_mutex_grab_failed := 0, pending_program_change := -1 },
        [Call.eg_init_constants, Call.data_performance_init, Call.select_program 0 0,
         Call.init_controls]) ∧
    (hexter_instantiate example_pack true heap
        (some ("voice.syx", readable_file ([0xf0, 0x43, 0, 0x00, 0x01, 0x1b] ++
          List.replicate 155 7 ++ [0, 0xf7]))) init_patches :
        Option (hexter_instance_t Int × List Call)) =
      some ({ output := [],
              patches := example_pack (List.replicate 155 7) ++ heap.drop 128,
              nugget_remains := 0,
              voicelist_mutex_grab_failed := 0, pending_program_change := -1 },
        [Call.eg_init_constants, Call.data_performance_init, Call.select_program 0 0,
         Call.init_controls]) := by
  constructor
  · exact hexter_instantiate_default_bank example_pack heap init_patches "bank.syx" _ _
      (load_init_too_small example_pack "bank.syx" (List.replicate 50 0) heap 128 false
        (by simp only [List.length_replicate]; decide)
        (by simp only [List.length_replicate]; decide))
  · have hdec := decode_single_dump example_pack "voice.syx" 0 0 0 (List.replicate 155 7)
      (by decide) (List.length_replicate 155 7) (by simp [example_pack])
    have hload := load_init_of_decode example_pack "voice.syx" _ heap 128 false _
      (by simp only [List.length_append, List.length_replicate, List.length_cons,
        List.length_nil]; decide)
      (by simp only [List.length_append, List.length_replicate, List.length_cons,
        List.length_nil]; decide) hdec
    have hfp : write_bytes heap 0 (bytes_at
        (example_pack (List.replicate 155 7) ++ (List.drop 122 (List.replicate 155 7) ++
          [0, 0xf7])) 0 (128 * min 1 128)) =
        example_pack (List.replicate 155 7) ++ heap.drop 128 := by
      have hl : (example_pack (List.replicate 155 7)).length = 128 := by simp [example_pack]
      simp only [write_bytes, bytes_at, List.drop_zero, List.take_zero, List.nil_append,
        Nat.zero_add, Nat.min_eq_left (by decide : 1 ≤ 128), Nat.mul_one]
      rw [List.take_append_of_le_length (by omega), List.take_of_length_le (by omega), hl]
    rw [hfp] at hload
    exact hexter_instantiate_default_bank example_pack heap init_patches "voice.syx" _ _ hload


/-- A file name has one four-character ending: once it is known, every extension
test is decided by comparing the two extensions. -/
theorem has_extension_eq_of (filename a b : String) (h : has_extension filename a = true) :
    has_extension filename b = (a.data == b.data) := by
  unfold has_extension at h ⊢
  have h1 : filename.data.drop (filename.length - 4) = a.data := by simpa using h
  rw [h1]

/-- The vendor cases look at the file name only through four tests. -/
theorem vendor_cases_congr (f1 f2 : String) (st : decode_state)
    (h1 : (has_extension f1 ".TX7" || has_extension f1 ".SND" ||
           has_extension f1 ".tx7" || has_extension f1 ".snd") =
          (has_extension f2 ".TX7" || has_extension f2 ".SND" ||
           has_extension f2 ".tx7" || has_extension f2 ".snd"))
    (h2 : (has_extension f1 ".BNK" || has_extension f1 ".bnk") =
          (has_extension f2 ".BNK" || has_extension f2 ".bnk"))
    (h3 : (has_extension f1 ".SND" || has_extension f1 ".snd") =
          (has_extension f2 ".SND" || has_extension f2 ".snd"))
    (h4 : (has_extension f1 ".DX2" || has_extension f1 ".dx2") =
          (has_extension f2 ".DX2" || has_extension f2 ".dx2")) :
    vendor_cases f1 st = vendor_cases f2 st := by
  unfold vendor_cases
  simp only [h1, h2, h3, h4]

/-- Two file names, one ending in an extension `lo` and one in an extension `up`
that the vendor cases treat alike, give the same decoder state. -/
theorem vendor_cases_same_extension (f1 f2 lo up : String) (st : decode_state)
    (hf1 : has_extension f1 lo = true) (hf2 : has_extension f2 up = true)
    (hpair : (lo = ".tx7" ∧ up = ".TX7") ∨ (lo = ".snd" ∧ up = ".SND") ∨
             (lo = ".bnk" ∧ up = ".BNK") ∨ (lo = ".dx2" ∧ up = ".DX2")) :
    vendor_cases f1 st = vendor_cases f2 st := by
  rcases hpair with ⟨rfl, rfl⟩ | ⟨rfl, rfl⟩ | ⟨rfl, rfl⟩ | ⟨rfl, rfl⟩
  all_goals
    apply vendor_cases_congr
    all_goals
      simp only [has_extension_eq_of f1 _ _ hf1, has_extension_eq_of f2 _ _ hf2]
      decide


/-- C17, amended. The vendor extensions are matched in exactly two spellings, all
upper case and all lower case. For every file content and every two file
names, one ending in `.tx7`, `.snd`, `.bnk` or `.dx2` and the other in the
upper-case form of the same extension, `dx7_patchbank_load_init` gives the
same result: the same count, the same patches, and no message. -/
theorem load_init_extension_case (pack : List Nat → List Nat)
    (f_lower f_upper lo up : String) (data firstpatch : List Nat) (maxpatches : Nat)
    (has_errmsg : Bool)
    (hf1 : has_extension f_lower lo = true) (hf2 : has_extension f_upper up = true)
    (hpair : (lo = ".tx7" ∧ up = ".TX7") ∨ (lo = ".snd" ∧ up = ".SND") ∨
             (lo = ".bnk" ∧ up = ".BNK") ∨ (lo = ".dx2" ∧ up = ".DX2")) :
    dx7_patchbank_load_init pack f_lower (readable_file data) firstpatch maxpatches
        has_errmsg =
      dx7_patchbank_load_init pack f_upper (readable_file data) firstpatch maxpatches
        has_errmsg := by
  have hdec : dx7_patchbank_decode pack f_lower data =
      dx7_patchbank_decode pack f_upper data := by
    have hv : ∀ st, vendor_cases f_lower st = vendor_cases f_upper st := fun st =>
      vendor_cases_same_extension f_lower f_upper lo up st hf1 hf2 hpair
    simp only [dx7_patchbank_decode, hv]
  simp only [dx7_patchbank_load_init, readable_file, hdec, Bool.not_true,
    Bool.false_eq_true, if_false]

/-- C17, amended, on `bank.tx7` and `bank.TX7` with 8192 zero bytes. -/
theorem load_init_extension_case_witness :
    dx7_patchbank_load_init example_pack "bank.tx7" (readable_file (List.replicate 8192 0))
        (List.replicate 8192 9) 128 true =
      dx7_patchbank_load_init example_pack "bank.TX7" (readable_file (List.replicate 8192 0))
        (List.replicate 8192 9) 128 true :=
  load_init_extension_case example_pack "bank.tx7" "bank.TX7" ".tx7" ".TX7"
    (List.replicate 8192 0) (List.replicate 8192 9) 128 true (by decide) (by decide)
    (Or.inl ⟨rfl, rfl⟩)

/-- The count returned for an 8192-byte file without header whose name has no
vendor extension is `min 64 maxpatches`. -/
theorem load_init_raw_8192_count (pack : List Nat → List Nat) (filename : String)
    (data firstpatch : List Nat) (maxpatches : Nat) (has_errmsg : Bool)
    (hno : no_sysex_header data) (hlen : data.length = 8192)
    (hext : vendor_extension_8192 filename = false) :
    ∃ r, dx7_patchbank_load_init pack filename (readable_file data) firstpatch maxpatches
        has_errmsg = some r ∧ r.count = min 64 maxpatches := by
  refine ⟨_, load_init_raw pack filename data firstpatch maxpatches has_errmsg hno (by omega)
    (by omega) (fun _ => hext) (by omega) (by omega) (by omega) (by omega), ?_⟩
  simp only [hlen]

/-- C17 as stated fails. The name `bank.Tx7` ends in `.TX7` under case folding,
but for a raw file of 8192 zero bytes it gives 64 patches where `bank.TX7`
gives 32: the mixed-case extension is not matched. -/
theorem load_init_extension_case_counterexample :
    ("bank.Tx7".data.drop ("bank.Tx7".length - 4)).map Char.toUpper = ".TX7".data ∧
    (∃ r, dx7_patchbank_load_init example_pack "bank.Tx7"
        (readable_file (List.replicate 8192 0)) (List.replicate 16384 9) 128 true = some r ∧
      r.count = 64) ∧
    (∃ r, dx7_patchbank_load_init example_pack "bank.TX7"
        (readable_file (List.replicate 8192 0)) (List.replicate 16384 9) 128 true = some r ∧
      r.count = 32) :=
  ⟨by decide,
   load_init_raw_8192_count example_pack "bank.Tx7" (List.replicate 8192 0)
     (List.replicate 16384 9) 128 true (no_sysex_header_replicate_zero 8192)
     (List.length_replicate 8192 0) (by decide),
   load_init_tx7_8192_count example_pack "bank.TX7" (List.replicate 8192 0)
     (List.replicate 16384 9) 128 true (no_sysex_header_replicate_zero 8192)
     (List.length_replicate 8192 0) (by decide)⟩


/-! ### The error channel and the final copy -/

theorem append_ne_empty (a b : String) (h : a ≠ "") : a ++ b ≠ "" := by
  intro e
  apply h
  apply String.ext
  have hd := congrArg String.data e
  rw [String.data_append] at hd
  exact (List.append_eq_nil.mp hd).1

/-- The outcome of a rejected file: 0 is returned, the destination is as before,
and the message is stored when `errmsg` is non-null. -/
theorem reject_outcome (firstpatch : List Nat) (has_errmsg : Bool) (msg : String)
    (hmsg : msg ≠ "") :
    (reject firstpatch has_errmsg msg).count = 0 ∧
    (reject firstpatch has_errmsg msg).firstpatch = firstpatch ∧
    (has_errmsg = true → ∃ m, (reject firstpatch has_errmsg msg).errmsg = some m ∧ m ≠ "") ∧
    (has_errmsg = false → (reject firstpatch has_errmsg msg).errmsg = none) := by
  refine ⟨rfl, rfl, ?_, ?_⟩
  · intro h; exact ⟨msg, by simp [reject, h], hmsg⟩
  · intro h; simp [reject, h]

/-- C12 as stated fails for a call that passes a null `errmsg`, as the call of
hexter.c 150-151 does. A readable file of 50 bytes is rejected as too small:
0 is returned and the destination is left as it was, but no message is
produced, since hexter.c 696-700 stores it only under `if (errmsg)`. -/
theorem load_init_error_channel_counterexample :
    file_rejected (readable_file (List.replicate 50 0)) = true ∧
    dx7_patchbank_load_init example_pack "bank.syx" (readable_file (List.replicate 50 0))
        [1, 2, 3] 32 false =
      some { count := 0, firstpatch := [1, 2, 3], errmsg := none } := by
  constructor
  · simp only [file_rejected, readable_file, List.length_replicate]
    decide
  · simp only [dx7_patchbank_load_init, readable_file, List.length_replicate, reject]
    decide

/-- C12, amended. Every call of `dx7_patchbank_load_init` returns, with one of two
outcomes. When the file is rejected (it cannot be opened, measured, allocated
for or read, or its length is outside `[128, 2097152]`): 0 is returned, the
destination is left as it was, and a non-empty message is stored through
`errmsg` when that pointer is non-null (nothing is stored when it is null).
Otherwise nothing is stored through `errmsg`. So a call that stores a message
returns 0 and leaves the destination untouched: no path both writes patches
and sets a message. -/
theorem load_init_error_channel (pack : List Nat → List Nat) (filename : String)
    (file : patch_file) (firstpatch : List Nat) (maxpatches : Nat) (has_errmsg : Bool) :
    ∃ r, dx7_patchbank_load_init pack filename file firstpatch maxpatches has_errmsg =
        some r ∧
      (file_rejected file = true →
        r.count = 0 ∧ r.firstpatch = firstpatch ∧
        (has_errmsg = true → ∃ m, r.errmsg = some m ∧ m ≠ "") ∧
        (has_errmsg = false → r.errmsg = none)) ∧
      (file_rejected file = false → r.errmsg = none) ∧
      (r.errmsg ≠ none → r.count = 0 ∧ r.firstpatch = firstpatch) := by
  have key : ∀ msg : String, msg ≠ "" → file_rejected file = true →
      dx7_patchbank_load_init pack filename file firstpatch maxpatches has_errmsg =
        some (reject firstpatch has_errmsg msg) →
      ∃ r, dx7_patchbank_load_init pack filename file firstpatch maxpatches has_errmsg =
          some r ∧
        (file_rejected file = true →
          r.count = 0 ∧ r.firstpatch = firstpatch ∧
          (has_errmsg = true → ∃ m, r.errmsg = some m ∧ m ≠ "") ∧
          (has_errmsg = false → r.errmsg = none)) ∧
        (file_rejected file = false → r.errmsg = none) ∧
        (r.errmsg ≠ none → r.count = 0 ∧ r.firstpatch = firstpatch) := by
    intro msg hmsg hrej h
    exact ⟨_, h, fun _ => reject_outcome firstpatch has_errmsg msg hmsg,
      fun hf => (by rw [hrej] at hf; cases hf), fun _ => ⟨rfl, rfl⟩⟩
  by_cases h1 : file.fopen_ok = true
  swap
  · exact key ("could not open file \x27" ++ filename ++ "\x27 for reading: " ++ file.strerror)
      (append_ne_empty _ _ (append_ne_empty _ _ (append_ne_empty _ _ (by decide))))
      (by simp [file_rejected, h1]) (by simp [dx7_patchbank_load_init, h1])
  by_cases h2 : file.ftell_ok = true
  swap
  · exact key ("couldn\x27t get length of patch file: " ++ file.strerror)
      (append_ne_empty _ _ (by decide)) (by simp [file_rejected, h2])
      (by simp [dx7_patchbank_load_init, h1, h2])
  by_cases h3 : file.data.length = 0
  · exact key "patch file has zero length" (by decide) (by simp [file_rejected, h3])
      (by simp [dx7_patchbank_load_init, h1, h2, h3])
  by_cases h4 : file.data.length > 2097152
  · exact key "patch file is too large" (by decide) (by simp [file_rejected, h4])
      (by simp [dx7_patchbank_load_init, h1, h2, h3, h4])
  by_cases h5 : file.data.length < 128
  · exact key "patch file is too small" (by decide) (by simp [file_rejected, h5])
      (by simp [dx7_patchbank_load_init, h1, h2, h3, h4, h5])
  by_cases h6 : file.malloc_ok = true
  swap
  · exact key "couldn\x27t allocate memory for raw patch file" (by decide)
      (by simp [file_rejected, h6])
      (by simp [dx7_patchbank_load_init, h1, h2, h3, h4, h5, h6])
  by_cases h7 : file.fread_ok = true
  swap
  · exact key ("short read on patch file: " ++ file.strerror)
      (append_ne_empty _ _ (by decide)) (by simp [file_rejected, h7])
      (by simp [dx7_patchbank_load_init, h1, h2, h3, h4, h5, h6, h7])
  obtain ⟨st, hst⟩ := dx7_patchbank_decode_total pack filename file.data
  have hacc : file_rejected file = false := by
    simp [file_rejected, h1, h2, h3, h6, h7]
    omega
  refine ⟨{ count := if st.count > maxpatches then maxpatches else st.count,
            firstpatch := write_bytes firstpatch 0
              (bytes_at st.raw_patch_data st.datastart
                (128 * if st.count > maxpatches then maxpatches else st.count)),
            errmsg := none }, ?_, ?_, fun _ => rfl, fun h => absurd rfl h⟩
  · simp only [dx7_patchbank_load_init, h1, h2, h6, h7, Bool.not_true,
      Bool.false_eq_true, if_false, h3, h4, h5, hst]
  · intro hf; rw [hacc] at hf; cases hf

/-- C12, amended, on a 50-byte file and a non-null `errmsg`. -/
theorem load_init_error_channel_witness :
    ∃ r, dx7_patchbank_load_init example_pack "bank.syx"
        (readable_file (List.replicate 50 0)) [1, 2, 3] 32 true = some r ∧
      (file_rejected (readable_file (List.replicate 50 0)) = true →
        r.count = 0 ∧ r.firstpatch = [1, 2, 3] ∧
        (true = true → ∃ m, r.errmsg = some m ∧ m ≠ "") ∧
        (true = false → r.errmsg = none)) ∧
      (file_rejected (readable_file (List.replicate 50 0)) = false → r.errmsg = none) ∧
      (r.errmsg ≠ none → r.count = 0 ∧ r.firstpatch = [1, 2, 3]) :=
  load_init_error_channel example_pack "bank.syx" (readable_file (List.replicate 50 0))
    [1, 2, 3] 32 true


theorem write_bytes_length (buf : List Nat) (dst : Nat) (bytes : List Nat)
    (h : dst + bytes.length ≤ buf.length) :
    (write_bytes buf dst bytes).length = buf.length := by
  simp only [write_bytes, List.length_append, List.length_take, List.length_drop]
  omega

theorem bytes_at_length (buf : List Nat) (off n : Nat) (h : off + n ≤ buf.length) :
    (bytes_at buf off n).length = n := by
  simp only [bytes_at, List.length_take, List.length_drop]
  omega

theorem memmove_length (buf : List Nat) (dst src n : Nat)
    (h1 : dst + n ≤ buf.length) (h2 : src + n ≤ buf.length) :
    (memmove buf dst src n).length = buf.length := by
  unfold memmove
  apply write_bytes_length
  rw [bytes_at_length buf src n h2]
  exact h1

theorem is_bulk_dump_bound (raw : List Nat) (ms L p : Nat)
    (h : is_bulk_dump raw ms L p = true) : p + 4103 + ms < L := by
  simp only [is_bulk_dump, Bool.and_eq_true, decide_eq_true_eq] at h
  exact h.1.2

theorem is_single_dump_bound (raw : List Nat) (ms L p : Nat)
    (h : is_single_dump raw ms L p = true) : p + ms + 162 < L := by
  simp only [is_single_dump, Bool.and_eq_true, decide_eq_true_eq] at h
  exact h.1.2

/-- The SysEx scan keeps the buffer at the file length and never counts more
patches than fit before the cursor. -/
theorem sysex_scan_bounds (pack : List Nat → List Nat) (ms L : Nat) :
    ∀ (fuel ps count : Nat) (raw : List Nat) (r : Nat × List Nat),
      sysex_scan pack ms L fuel ps count raw = some r →
      raw.length = L → 128 * count ≤ ps → ps ≤ L →
      r.2.length = L ∧ 128 * r.1 ≤ L := by
  intro fuel
  induction fuel with
  | zero =>
    intro ps count raw r h hlen hc hps
    simp only [sysex_scan] at h
    split_ifs at h
    simp only [Option.some.injEq] at h
    subst h
    exact ⟨hlen, by omega⟩
  | succ fuel ih =>
    intro ps count raw r h hlen hc hps
    by_cases hcond : ps + ms + 5 < L
    · by_cases hb : is_bulk_dump raw ms L ps = true
      · have hbound := is_bulk_dump_bound raw ms L ps hb
        simp only [sysex_scan, if_pos hcond, if_pos hb, DX7_DUMP_SIZE_VOICE_BULK,
          DX7_VOICE_SIZE_PACKED] at h
        exact ih _ _ _ r h
          (by rw [memmove_length raw _ _ _ (by omega) (by omega)]; exact hlen)
          (by omega) (by omega)
      · by_cases hs : is_single_dump raw ms L ps = true
        · have hbound := is_single_dump_bound raw ms L ps hs
          simp only [sysex_scan, if_pos hcond, if_neg hb, if_pos hs,
            DX7_DUMP_SIZE_VOICE_SINGLE, DX7_VOICE_SIZE_PACKED, DX7_VOICE_SIZE_UNPACKED] at h
          exact ih _ _ _ r h
            (by
              rw [write_bytes_length raw _ _ (by
                have := List.length_take_le 128 (pack (bytes_at raw (ps + ms + 6) 155))
                omega)]
              exact hlen)
            (by omega) (by omega)
        · simp only [sysex_scan, if_pos hcond, if_neg hb, if_neg hs] at h
          exact ih _ _ _ r h hlen (by omega) (by omega)
    · simp only [sysex_scan, if_neg hcond, Option.some.injEq] at h
      subst h
      exact ⟨hlen, by omega⟩


theorem foldl_length_eq {β : Type} (f : List Nat → β → List Nat)
    (hf : ∀ r i, (f r i).length = r.length) :
    ∀ (l : List β) (r : List Nat), (l.foldl f r).length = r.length := by
  intro l
  induction l with
  | nil => intro r; rfl
  | cons x xs ih => intro r; rw [List.foldl_cons, ih, hf]

theorem dx2_operator_length (count : Nat) (raw : List Nat) (op : Nat) :
    (dx2_operator count raw op).length = raw.length := by
  unfold dx2_operator
  simp only [List.length_set]
  split_ifs <;>
    simp only [List.length_set] <;>
    exact foldl_length_eq _ (fun r i => by simp only [List.length_set]) _ _

theorem dx2_voice_length (raw : List Nat) (count : Nat) :
    (dx2_voice raw count).length = raw.length := by
  unfold dx2_voice
  simp only
  rw [foldl_length_eq _ (fun r i => by simp only [List.length_set])]
  simp only [List.length_set]
  rw [foldl_length_eq _ (fun r i => by simp only [List.length_set])]
  simp only [List.length_set]
  rw [foldl_length_eq _ (fun r i => by simp only [List.length_set])]
  rw [foldl_length_eq _ (fun r i => by simp only [List.length_set])]
  exact foldl_length_eq _ (dx2_operator_length count) _ _

/-- The DX200 transcoding keeps the buffer length. -/
theorem dx2_transcode_length (raw : List Nat) (h : 65152 ≤ raw.length) :
    (dx2_transcode raw).length = raw.length := by
  unfold dx2_transcode
  rw [foldl_length_eq _ dx2_voice_length]
  exact memmove_length raw _ _ _ (by omega) (by omega)

/-- The de-interleaving of an 8192-byte `.BNK` file keeps the buffer length. -/
theorem bnk_deinterleave_length (raw : List Nat) (h : raw.length = 8192) :
    ((List.range 32).foldl (fun r i => memmove r (128 * i) (256 * i) 128) raw).length =
      8192 := by
  have key : ∀ (l : List Nat) (r : List Nat), (∀ i ∈ l, i < 32) → r.length = 8192 →
      (l.foldl (fun r i => memmove r (128 * i) (256 * i) 128) r).length = 8192 := by
    intro l
    induction l with
    | nil => intro r _ hr; exact hr
    | cons x xs ih =>
      intro r hl hr
      rw [List.foldl_cons]
      have hx := hl x (List.mem_cons_self _ _)
      exact ih _ (fun i hi => hl i (List.mem_cons_of_mem _ hi))
        (by rw [memmove_length r _ _ _ (by omega) (by omega)]; exact hr)
  exact key _ raw (fun i hi => List.mem_range.mp hi) h


/-- The vendor cases leave a state whose patches lie inside the buffer. -/
theorem vendor_cases_bounds (filename : String) (st : decode_state)
    (hraw : st.raw_patch_data.length = st.filelength)
    (hcount : 128 * st.count ≤ st.filelength) (hds : st.datastart = 0) :
    (vendor_cases filename st).datastart + 128 * (vendor_cases filename st).count ≤
      (vendor_cases filename st).raw_patch_data.length := by
  obtain ⟨c, ds, L, raw⟩ := st
  simp only at hraw hcount hds
  subst hds
  unfold vendor_cases
  simp only
  split_ifs <;> simp_all [bnk_deinterleave_length, dx2_transcode_length]
  all_goals omega

/-- The decoded patches lie inside the buffer: `datastart + 128 * count` does not
exceed its length. -/
theorem decode_bounds (pack : List Nat → List Nat) (filename : String) (data : List Nat)
    (st : decode_state) (h : dx7_patchbank_decode pack filename data = some st) :
    st.datastart + 128 * st.count ≤ st.raw_patch_data.length := by
  unfold dx7_patchbank_decode at h
  simp only at h
  cases hscan : sysex_scan pack (midi_shift data) data.length data.length 0 0 data with
  | none => rw [hscan] at h; cases h
  | some r =>
    rw [hscan] at h
    simp only [Option.some.injEq] at h
    obtain ⟨hlen, hcnt⟩ := sysex_scan_bounds pack (midi_shift data) data.length data.length
      0 0 data r hscan rfl (by omega) (by omega)
    rw [← h]
    apply vendor_cases_bounds
    · exact hlen
    · simp only [DX7_VOICE_SIZE_PACKED]
      split_ifs
      · have := Nat.div_mul_le_self data.length 128
        omega
      · exact hcnt
    · rfl

/-- C11. For every accepted input (a readable file of 128 to 2097152 bytes) and
every `maxpatches`, with `d` the decoded patch count and `datastart` the
computed data offset: `dx7_patchbank_load_init` returns `min d maxpatches`,
which is at most `maxpatches`; exactly the first `128 * result` destination
bytes are written, and they are the `128 * result` bytes of the decoded buffer
from `datastart` on, all of which exist in the buffer; the destination bytes
beyond them are unchanged; and no message is stored, also when decoded patches
are discarded. -/
theorem load_init_maxpatches_cap (pack : List Nat → List Nat) (filename : String)
    (data firstpatch : List Nat) (maxpatches : Nat) (has_errmsg : Bool)
    (h1 : 128 ≤ data.length) (h2 : data.length ≤ 2097152) :
    ∃ st r, dx7_patchbank_decode pack filename data = some st ∧
      dx7_patchbank_load_init pack filename (readable_file data) firstpatch maxpatches
        has_errmsg = some r ∧
      r.count = min st.count maxpatches ∧ r.count ≤ maxpatches ∧
      r.firstpatch.take (128 * r.count) =
        bytes_at st.raw_patch_data st.datastart (128 * r.count) ∧
      (bytes_at st.raw_patch_data st.datastart (128 * r.count)).length = 128 * r.count ∧
      r.firstpatch.drop (128 * r.count) = firstpatch.drop (128 * r.count) ∧
      r.errmsg = none := by
  obtain ⟨st, hst⟩ := dx7_patchbank_decode_total pack filename data
  have hb := decode_bounds pack filename data st hst
  have hload := load_init_of_decode pack filename data firstpatch maxpatches has_errmsg st
    h1 h2 hst
  have hmin : min st.count maxpatches ≤ st.count := Nat.min_le_left _ _
  have hlen : (bytes_at st.raw_patch_data st.datastart
      (128 * min st.count maxpatches)).length = 128 * min st.count maxpatches :=
    bytes_at_length _ _ _ (by omega)
  refine ⟨st, _, hst, hload, rfl, Nat.min_le_right _ _, ?_, hlen, ?_, rfl⟩
  · simp only [write_bytes, List.take_zero, List.nil_append, Nat.zero_add]
    rw [List.take_append_of_le_length (by omega), List.take_of_length_le (by omega)]
  · simp only [write_bytes, List.take_zero, List.nil_append, Nat.zero_add]
    rw [List.drop_append_of_le_length (by omega), List.drop_of_length_le (by omega), hlen]
    rfl


/-- C11 on a raw file of two patches with `maxpatches = 1`: the second patch is
discarded without a message. -/
theorem load_init_maxpatches_cap_witness :
    ∃ st r, dx7_patchbank_decode example_pack "bank.syx" (List.replicate 256 0) = some st ∧
      dx7_patchbank_load_init example_pack "bank.syx" (readable_file (List.replicate 256 0))
        (List.replicate 128 9) 1 true = some r ∧
      r.count = min st.count 1 ∧ r.count ≤ 1 ∧
      r.firstpatch.take (128 * r.count) =
        bytes_at st.raw_patch_data st.datastart (128 * r.count) ∧
      (bytes_at st.raw_patch_data st.datastart (128 * r.count)).length = 128 * r.count ∧
      r.firstpatch.drop (128 * r.count) = (List.replicate 128 9).drop (128 * r.count) ∧
      r.errmsg = none :=
  load_init_maxpatches_cap example_pack "bank.syx" (List.replicate 256 0)
    (List.replicate 128 9) 1 true
    (by simp only [List.length_replicate]; decide)
    (by simp only [List.length_replicate]; decide)

/-- The Steinberg Synthworks case: a 5216-byte file named `.SND` or `.snd` gets
count 32 with the data offset left at 0. -/
theorem vendor_cases_snd_5216 (filename : String) (st : decode_state)
    (hext : (has_extension filename ".SND" || has_extension filename ".snd") = true)
    (hlen : st.filelength = 5216) :
    vendor_cases filename st = { st with count := 32, filelength := 4096 } := by
  unfold vendor_cases
  simp [hext, hlen]

/-- The Voyetra case: a file of 9816 or 5663 bytes whose buffer starts
`DF 05 01 00` gets count 32 and data offset 0x60f, whatever its name. -/
theorem vendor_cases_voyetra (filename : String) (st : decode_state)
    (hlen : st.filelength = 9816 ∨ st.filelength = 5663)
    (h0 : st.raw_patch_data.getD 0 0 = 0xdf) (h1 : st.raw_patch_data.getD 1 0 = 0x05)
    (h2 : st.raw_patch_data.getD 2 0 = 0x01) (h3 : st.raw_patch_data.getD 3 0 = 0x00) :
    vendor_cases filename st = { st with count := 32, datastart := 0x60f } := by
  unfold vendor_cases
  simp only [List.getD_eq_getElem?_getD] at h0 h1 h2 h3
  rcases hlen with hlen | hlen <;> simp [hlen, h0, h1, h2, h3]

/-- Decoding a headerless 5216-byte `.SND` file. -/
theorem decode_snd_5216 (pack : List Nat → List Nat) (filename : String) (data : List Nat)
    (hno : no_sysex_header data) (hlen : data.length = 5216)
    (hext : (has_extension filename ".SND" || has_extension filename ".snd") = true) :
    dx7_patchbank_decode pack filename data =
      some { count := 32, datastart := 0, filelength := 4096, raw_patch_data := data } := by
  have hscan := sysex_scan_no_match pack (midi_shift data) data.length data hno
    data.length 0 0 (by omega)
  simp only [dx7_patchbank_decode, hscan]
  rw [vendor_cases_snd_5216 filename _ hext hlen]

/-- Decoding a headerless Voyetra file. -/
theorem decode_voyetra (pack : List Nat → List Nat) (filename : String) (data : List Nat)
    (hno : no_sysex_header data) (hlen : data.length = 9816 ∨ data.length = 5663)
    (h0 : data.getD 0 0 = 0xdf) (h1 : data.getD 1 0 = 0x05)
    (h2 : data.getD 2 0 = 0x01) (h3 : data.getD 3 0 = 0x00) :
    dx7_patchbank_decode pack filename data =
      some { count := 32, datastart := 0x60f, filelength := data.length,
             raw_patch_data := data } := by
  have hscan := sysex_scan_no_match pack (midi_shift data) data.length data hno
    data.length 0 0 (by omega)
  simp only [dx7_patchbank_decode, hscan]
  rw [vendor_cases_voyetra filename _ hlen h0 h1 h2 h3]

/-- C24. Fixed-offset vendor banks. For a file in which the scan matches no
header: (a) 8192 bytes named `*.TX7`, `*.tx7`, `*.SND` or `*.snd`, or 5216 bytes
named `*.SND` or `*.snd`, decode to 32 patches at data offset 0, that is the
first 4096 file bytes; (b) 9816 or 5663 bytes starting `DF 05 01 00` decode to
32 patches at data offset 0x60F, that is file bytes [0x60F, 0x60F + 4096),
whatever the name. The buffer is the file itself, the 4096 bytes lie inside it,
the count 32 differs from the raw-mode `L / 128` it replaces, and the call
returns `min 32 maxpatches` patches copied from that offset. -/
theorem load_init_fixed_offset_banks (pack : List Nat → List Nat) (filename : String)
    (data firstpatch : List Nat) (maxpatches : Nat) (has_errmsg : Bool) (off : Nat)
    (hno : no_sysex_header data)
    (hcase :
      (off = 0 ∧ data.length = 8192 ∧
        (has_extension filename ".TX7" || has_extension filename ".SND" ||
         has_extension filename ".tx7" || has_extension filename ".snd") = true) ∨
      (off = 0 ∧ data.length = 5216 ∧
        (has_extension filename ".SND" || has_extension filename ".snd") = true) ∨
      (off = 0x60f ∧ (data.length = 9816 ∨ data.length = 5663) ∧
        data.getD 0 0 = 0xdf ∧ data.getD 1 0 = 0x05 ∧
        data.getD 2 0 = 0x01 ∧ data.getD 3 0 = 0x00)) :
    ∃ st, dx7_patchbank_decode pack filename data = some st ∧
      st.count = 32 ∧ st.datastart = off ∧ st.raw_patch_data = data ∧
      off + 128 * 32 ≤ data.length ∧ data.length / 128 ≠ 32 ∧
      dx7_patchbank_load_init pack filename (readable_file data) firstpatch maxpatches
          has_errmsg =
        some { count := min 32 maxpatches,
               firstpatch := write_bytes firstpatch 0
                 (bytes_at data off (128 * min 32 maxpatches)),
               errmsg := none } := by
  rcases hcase with ⟨ho, hlen, hext⟩ | ⟨ho, hlen, hext⟩ | ⟨ho, hlen, h0, h1, h2, h3⟩
  · have hdec := decode_tx7_8192 pack filename data hno hlen hext
    refine ⟨_, hdec, rfl, ho.symm, rfl, by omega, by omega, ?_⟩
    rw [load_init_of_decode pack filename data firstpatch maxpatches has_errmsg _
      (by omega) (by omega) hdec, ho]
  · have hdec := decode_snd_5216 pack filename data hno hlen hext
    refine ⟨_, hdec, rfl, ho.symm, rfl, by omega, by omega, ?_⟩
    rw [load_init_of_decode pack filename data firstpatch maxpatches has_errmsg _
      (by omega) (by omega) hdec, ho]
  · have hdec := decode_voyetra pack filename data hno hlen h0 h1 h2 h3
    refine ⟨_, hdec, rfl, ho.symm, rfl, by omega, by omega, ?_⟩
    rw [load_init_of_decode pack filename data firstpatch maxpatches has_errmsg _
      (by omega) (by omega) hdec, ho]

theorem load_init_fixed_offset_banks_witness :
    ∃ st, dx7_patchbank_decode example_pack "bank.vce"
        ([0xdf, 0x05, 0x01, 0x00] ++ List.replicate 5659 0) = some st ∧
      st.count = 32 ∧ st.datastart = 0x60f ∧
      st.raw_patch_data = [0xdf, 0x05, 0x01, 0x00] ++ List.replicate 5659 0 ∧
      0x60f + 128 * 32 ≤ ([0xdf, 0x05, 0x01, 0x00] ++ List.replicate 5659 0).length ∧
      ([0xdf, 0x05, 0x01, 0x00] ++ List.replicate 5659 0).length / 128 ≠ 32 ∧
      dx7_patchbank_load_init example_pack "bank.vce"
          (readable_file ([0xdf, 0x05, 0x01, 0x00] ++ List.replicate 5659 0)) [] 40 true =
        some { count := min 32 40,
               firstpatch := write_bytes [] 0
                 (bytes_at ([0xdf, 0x05, 0x01, 0x00] ++ List.replicate 5659 0) 0x60f
                   (128 * min 32 40)),
               errmsg := none } :=
  load_init_fixed_offset_banks example_pack "bank.vce"
    ([0xdf, 0x05, 0x01, 0x00] ++ List.replicate 5659 0) [] 40 true 0x60f
    (no_sysex_header_of_no_f0 _ (fun x hx => by
      rcases List.mem_append.mp hx with h | h
      · exact (by decide : ∀ y ∈ [0xdf, 0x05, 0x01, 0x00], y ≠ 0xf0) x h
      · rw [List.eq_of_mem_replicate h]; decide))
    (Or.inr (Or.inr ⟨rfl, Or.inr (by
      simp only [List.length_append, List.length_replicate, List.length_cons,
        List.length_nil]), rfl, rfl, rfl, rfl⟩))

/-- Byte `j` of a slice is byte `off + j` of the buffer. -/
theorem getD_bytes_at (buf : List Nat) (off n j : Nat) (hj : j < n) :
    (bytes_at buf off n).getD j 0 = buf.getD (off + j) 0 := by
  simp only [bytes_at, List.getD_eq_getElem?_getD, List.getElem?_take, if_pos hj,
    List.getElem?_drop]

/-- Reading a buffer after a block write that stays inside it. -/
theorem getD_write_bytes (buf bytes : List Nat) (dst k : Nat)
    (h : dst + bytes.length ≤ buf.length) :
    (write_bytes buf dst bytes).getD k 0 =
      if dst ≤ k ∧ k < dst + bytes.length then bytes.getD (k - dst) 0 else buf.getD k 0 := by
  have hl : (buf.take dst).length = dst := by rw [List.length_take]; omega
  simp only [write_bytes, List.getD_eq_getElem?_getD]
  by_cases h1 : k < dst
  · rw [if_neg (by omega), List.append_assoc, List.getElem?_append_left (by omega),
      List.getElem?_take, if_pos h1]
  · by_cases h2 : k < dst + bytes.length
    · rw [if_pos ⟨by omega, h2⟩, List.getElem?_append_left (by
        rw [List.length_append]; omega), List.getElem?_append_right (by omega), hl]
    · rw [if_neg (by omega), List.getElem?_append_right (by
        rw [List.length_append]; omega), List.length_append, hl, List.getElem?_drop]
      congr 2
      omega

/-- Reading a buffer after an in-bounds `memmove`. -/
theorem getD_memmove (buf : List Nat) (dst src n k : Nat)
    (hd : dst + n ≤ buf.length) (hs : src + n ≤ buf.length) :
    (memmove buf dst src n).getD k 0 =
      if dst ≤ k ∧ k < dst + n then buf.getD (src + (k - dst)) 0 else buf.getD k 0 := by
  have hl : (bytes_at buf src n).length = n := bytes_at_length buf src n hs
  rw [memmove, getD_write_bytes buf _ dst k (by omega), hl]
  by_cases hk : dst ≤ k ∧ k < dst + n
  · rw [if_pos hk, if_pos hk, getD_bytes_at buf src n (k - dst) (by omega)]
  · rw [if_neg hk, if_neg hk]

/-- Two in-bounds slices that agree byte by byte are equal. -/
theorem bytes_at_ext (a b : List Nat) (o1 o2 n : Nat)
    (ha : o1 + n ≤ a.length) (hb : o2 + n ≤ b.length)
    (h : ∀ j, j < n → a.getD (o1 + j) 0 = b.getD (o2 + j) 0) :
    bytes_at a o1 n = bytes_at b o2 n := by
  apply List.ext_getElem?
  intro j
  by_cases hj : j < n
  · have h1 := h j hj
    simp only [List.getD_eq_getElem?_getD] at h1
    simp only [bytes_at, List.getElem?_take, if_pos hj, List.getElem?_drop]
    have ea : a[o1 + j]? = some (a[o1 + j]) := List.getElem?_eq_getElem (by omega)
    have eb : b[o2 + j]? = some (b[o2 + j]) := List.getElem?_eq_getElem (by omega)
    rw [ea, eb] at h1 ⊢
    simpa using h1
  · simp only [bytes_at, List.getElem?_take, if_neg hj]

/-- Length of the buffer during the de-interleaving. -/
theorem bnk_steps_length (data : List Nat) (n : Nat) (hn : 256 * n ≤ data.length) :
    (bnk_steps data n).length = data.length := by
  induction n with
  | zero => rfl
  | succ n ih =>
    have ih := ih (by omega)
    rw [bnk_steps, List.range_succ, List.foldl_append]
    simp only [List.foldl_cons, List.foldl_nil]
    rw [← bnk_steps, memmove_length _ _ _ _ (by omega) (by omega), ih]

/-- The buffer during the de-interleaving: after `n` iterations the first
`128 * n` bytes are the first halves of the first `n` 256-byte records and every
later byte is still the file's. -/
theorem bnk_steps_getD (data : List Nat) (n : Nat) (hn : 256 * n ≤ data.length) (k : Nat) :
    (bnk_steps data n).getD k 0 =
      if k < 128 * n then data.getD (256 * (k / 128) + k % 128) 0 else data.getD k 0 := by
  induction n generalizing k with
  | zero => simp [bnk_steps]
  | succ n ih =>
    have hlen := bnk_steps_length data n (by omega)
    have ih := fun k => ih (by omega) k
    rw [bnk_steps, List.range_succ, List.foldl_append]
    simp only [List.foldl_cons, List.foldl_nil]
    rw [← bnk_steps, getD_memmove _ _ _ _ _ (by omega) (by omega)]
    by_cases hk : 128 * n ≤ k ∧ k < 128 * n + 128
    · rw [if_pos hk, ih, if_neg (by omega), if_pos (by omega)]
      congr 1
      omega
    · rw [if_neg hk, ih]
      by_cases hk2 : k < 128 * n
      · rw [if_pos hk2, if_pos (by omega)]
      · rw [if_neg hk2, if_neg (by omega)]

/-- The `.BNK` case: an 8192-byte file with that extension is de-interleaved and
gets count 32. -/
theorem vendor_cases_bnk (filename : String) (st : decode_state)
    (hext : (has_extension filename ".BNK" || has_extension filename ".bnk") = true)
    (hlen : st.filelength = 8192) :
    vendor_cases filename st =
      { st with raw_patch_data := bnk_steps st.raw_patch_data 32, count := 32,
                filelength := 4096 } := by
  have hother : has_extension filename ".TX7" = false ∧ has_extension filename ".SND" = false ∧
      has_extension filename ".tx7" = false ∧ has_extension filename ".snd" = false := by
    rcases Bool.or_eq_true _ _ ▸ hext with h | h
    · simp only [has_extension_eq_of filename _ _ h]; decide
    · simp only [has_extension_eq_of filename _ _ h]; decide
  obtain ⟨e1, e2, e3, e4⟩ := hother
  unfold vendor_cases bnk_steps
  simp [hext, hlen, e1, e2, e3, e4]

/-- Decoding a headerless 8192-byte `.BNK` file. -/
theorem decode_bnk (pack : List Nat → List Nat) (filename : String) (data : List Nat)
    (hno : no_sysex_header data) (hlen : data.length = 8192)
    (hext : (has_extension filename ".BNK" || has_extension filename ".bnk") = true) :
    dx7_patchbank_decode pack filename data =
      some { count := 32, datastart := 0, filelength := 4096,
             raw_patch_data := bnk_steps data 32 } := by
  have hscan := sysex_scan_no_match pack (midi_shift data) data.length data hno
    data.length 0 0 (by omega)
  simp only [dx7_patchbank_decode, hscan]
  rw [vendor_cases_bnk filename _ hext hlen]

/-- C23. Interleaved `.BNK` bank. For an 8192-byte file named `*.BNK` or `*.bnk`
in which the scan matches no header, the decoder has 32 patches at data
offset 0 before the cap, patch `i` (`i < 32`) being the file bytes
[256 i, 256 i + 128); and when iteration `i` of the in-place de-interleaving
reads its source range, that range still holds the file's bytes, so no read
sees a byte an earlier iteration wrote. The call returns `min 32 maxpatches`
of those patches. -/
theorem load_init_bnk_deinterleave (pack : List Nat → List Nat) (filename : String)
    (data firstpatch : List Nat) (maxpatches : Nat) (has_errmsg : Bool)
    (hno : no_sysex_header data) (hlen : data.length = 8192)
    (hext : (has_extension filename ".BNK" || has_extension filename ".bnk") = true) :
    ∃ st, dx7_patchbank_decode pack filename data = some st ∧
      st.count = 32 ∧ st.datastart = 0 ∧ st.raw_patch_data = bnk_steps data 32 ∧
      (∀ i, i < 32 →
        bytes_at st.raw_patch_data (128 * i) 128 = bytes_at data (256 * i) 128) ∧
      (∀ i, i < 32 →
        bytes_at (bnk_steps data i) (256 * i) 128 = bytes_at data (256 * i) 128) ∧
      dx7_patchbank_load_init pack filename (readable_file data) firstpatch maxpatches
          has_errmsg =
        some { count := min 32 maxpatches,
               firstpatch := write_bytes firstpatch 0
                 (bytes_at st.raw_patch_data 0 (128 * min 32 maxpatches)),
               errmsg := none } := by
  have hdec := decode_bnk pack filename data hno hlen hext
  refine ⟨_, hdec, rfl, rfl, rfl, ?_, ?_, ?_⟩
  · intro i hi
    apply bytes_at_ext _ _ _ _ _
      (by rw [bnk_steps_length data 32 (by omega)]; omega) (by omega)
    intro j hj
    rw [bnk_steps_getD data 32 (by omega), if_pos (by omega)]
    congr 1
    omega
  · intro i hi
    apply bytes_at_ext _ _ _ _ _
      (by rw [bnk_steps_length data i (by omega)]; omega) (by omega)
    intro j hj
    rw [bnk_steps_getD data i (by omega), if_neg (by omega)]
  · rw [load_init_of_decode pack filename data firstpatch maxpatches has_errmsg _
      (by omega) (by omega) hdec]

theorem load_init_bnk_deinterleave_witness :
    ∃ st, dx7_patchbank_decode example_pack "bank.BNK" (List.replicate 8192 0) = some st ∧
      st.count = 32 ∧ st.datastart = 0 ∧
      st.raw_patch_data = bnk_steps (List.replicate 8192 0) 32 ∧
      (∀ i, i < 32 →
        bytes_at st.raw_patch_data (128 * i) 128 =
          bytes_at (List.replicate 8192 0) (256 * i) 128) ∧
      (∀ i, i < 32 →
        bytes_at (bnk_steps (List.replicate 8192 0) i) (256 * i) 128 =
          bytes_at (List.replicate 8192 0) (256 * i) 128) ∧
      dx7_patchbank_load_init example_pack "bank.BNK"
          (readable_file (List.replicate 8192 0)) [] 40 true =
        some { count := min 32 40,
               firstpatch := write_bytes [] 0
                 (bytes_at st.raw_patch_data 0 (128 * min 32 40)),
               errmsg := none } :=
  load_init_bnk_deinterleave example_pack "bank.BNK" (List.replicate 8192 0) [] 40 true
    (no_sysex_header_replicate_zero 8192) (List.length_replicate 8192 0) (by decide)

theorem sysex_scan_steps_done (pack : List Nat → List Nat) (ms L fuel ps count : Nat)
    (raw : List Nat) (h : ¬ ps + ms + 5 < L) :
    sysex_scan_steps pack ms L fuel ps count raw = [] := by
  cases fuel <;> simp [sysex_scan_steps, h]

theorem sysex_scan_steps_bulk (pack : List Nat → List Nat) (ms L fuel ps count : Nat)
    (raw : List Nat) (hc : ps + ms + 5 < L) (hb : is_bulk_dump raw ms L ps = true) :
    sysex_scan_steps pack ms L (fuel + 1) ps count raw =
      (ps, count, 2) :: sysex_scan_steps pack ms L fuel (ps + 4104) (count + 32)
        (memmove raw (count * 128) (ps + 6 + ms) 4096) := by
  simp only [sysex_scan_steps, if_pos hc, hb, if_true, DX7_DUMP_SIZE_VOICE_BULK,
    DX7_VOICE_SIZE_PACKED]

theorem sysex_scan_steps_single (pack : List Nat → List Nat) (ms L fuel ps count : Nat)
    (raw : List Nat) (hc : ps + ms + 5 < L) (hb : is_bulk_dump raw ms L ps = false)
    (hs : is_single_dump raw ms L ps = true) :
    sysex_scan_steps pack ms L (fuel + 1) ps count raw =
      (ps, count, 1) :: sysex_scan_steps pack ms L fuel (ps + 163) (count + 1)
        (write_bytes raw (count * 128)
          ((pack (bytes_at raw (ps + ms + 6) 155)).take 128)) := by
  simp only [sysex_scan_steps, if_pos hc, hb, hs, if_true, DX7_DUMP_SIZE_VOICE_SINGLE,
    DX7_VOICE_SIZE_PACKED, DX7_VOICE_SIZE_UNPACKED, Bool.false_eq_true, if_false]

theorem sysex_scan_steps_skip (pack : List Nat → List Nat) (ms L fuel ps count : Nat)
    (raw : List Nat) (hc : ps + ms + 5 < L) (hb : is_bulk_dump raw ms L ps = false)
    (hs : is_single_dump raw ms L ps = false) :
    sysex_scan_steps pack ms L (fuel + 1) ps count raw =
      (ps, count, 0) :: sysex_scan_steps pack ms L fuel (ps + 1) count raw := by
  simp only [sysex_scan_steps, if_pos hc, hb, hs, Bool.false_eq_true, if_false]

/-- The length of a well-formed dump. -/
theorem dump_bytes_length (d : sysex_dump) (h : dump_ok d) :
    (dump_bytes d).length = dump_size d := by
  cases d with
  | bulk n b4 payload ck =>
    simp only [dump_bytes, dump_size, List.length_append, List.length_cons, List.length_nil,
      h.2]
  | single n b3 payload ck =>
    simp only [dump_bytes, dump_size, List.length_append, List.length_cons, List.length_nil,
      h.2]

/-- Past the compacted patches the buffer still holds the file. -/
theorem getD_compacted (P data : List Nat) (k : Nat) (hk : P.length ≤ k) :
    (P ++ data.drop P.length).getD k 0 = data.getD k 0 := by
  rw [List.getD_eq_getElem?_getD, List.getElem?_append_right hk, List.getElem?_drop,
    List.getD_eq_getElem?_getD]
  congr 2
  omega

theorem getD_drop (data : List Nat) (ps j : Nat) :
    (data.drop ps).getD j 0 = data.getD (ps + j) 0 := by
  simp only [List.getD_eq_getElem?_getD, List.getElem?_drop]

/-- A slice whose bytes are those of a list is that list. -/
theorem bytes_at_eq_of_getD (buf l : List Nat) (off : Nat) (hlen : off + l.length ≤ buf.length)
    (h : ∀ j, j < l.length → buf.getD (off + j) 0 = l.getD j 0) :
    bytes_at buf off l.length = l := by
  have h1 := bytes_at_ext buf l off 0 l.length hlen (by omega)
    (fun j hj => by rw [h j hj, Nat.zero_add])
  rw [h1]
  simp [bytes_at]

/-- Writing a block right after the compacted patches keeps the shape of the
buffer: patches, then the file from there on. -/
theorem write_compacted (P data bytes : List Nat) :
    write_bytes (P ++ data.drop P.length) P.length bytes =
      (P ++ bytes) ++ data.drop (P ++ bytes).length := by
  simp only [write_bytes, List.take_left', List.length_append]
  rw [List.drop_append, List.drop_drop]

/-- The bytes of a 32-voice dump seen through a window on a buffer make the
32-voice test succeed there. -/
theorem is_bulk_dump_of_view (raw : List Nat) (L ps n b4 ck : Nat) (payload rest : List Nat)
    (hn : n ≤ 0x0f) (hp : payload.length = 4096) (hL : ps + 4104 ≤ L)
    (hv : ∀ j, raw.getD (ps + j) 0 =
      (0xf0 :: 0x43 :: n :: 0x09 :: b4 :: 0x00 :: (payload ++ ([ck, 0xf7] ++ rest))).getD j 0) :
    is_bulk_dump raw 0 L ps = true := by
  have h0 := hv 0
  have h1 := hv 1
  have h2 := hv 2
  have h3 := hv 3
  have h5 := hv 5
  have h4103 := hv 4103
  have e := getD_after_body 0xf0 0x43 n 0x09 b4 0x00 payload ([ck, 0xf7] ++ rest) 1
  rw [hp] at e
  rw [e] at h4103
  simp only [List.getD_cons_zero, List.getD_cons_succ, List.cons_append, List.nil_append,
    Nat.add_zero] at h0 h1 h2 h3 h5 h4103
  have hd : decide (ps + 4103 < L) = true := decide_eq_true (by omega)
  have hdn : decide (n ≤ 0x0f) = true := decide_eq_true hn
  simp only [is_bulk_dump, Nat.add_zero, h0, h1, h2, h3, h5, h4103, hd, hdn, beq_self_eq_true,
    Bool.and_self]

/-- The bytes of a single-voice dump seen through a window on a buffer make the
single-voice test succeed there and the 32-voice test fail. -/
theorem is_single_dump_of_view (raw : List Nat) (L ps n b3 ck : Nat) (payload rest : List Nat)
    (hn : n ≤ 0x0f) (hp : payload.length = 155) (hL : ps + 163 ≤ L)
    (hv : ∀ j, raw.getD (ps + j) 0 =
      (0xf0 :: 0x43 :: n :: b3 :: 0x01 :: 0x1b :: (payload ++ ([ck, 0xf7] ++ rest))).getD j 0) :
    is_bulk_dump raw 0 L ps = false ∧ is_single_dump raw 0 L ps = true := by
  have h0 := hv 0
  have h1 := hv 1
  have h2 := hv 2
  have h4 := hv 4
  have h5 := hv 5
  have h162 := hv 162
  have e := getD_after_body 0xf0 0x43 n b3 0x01 0x1b payload ([ck, 0xf7] ++ rest) 1
  rw [hp] at e
  rw [e] at h162
  simp only [List.getD_cons_zero, List.getD_cons_succ, List.cons_append, List.nil_append,
    Nat.add_zero] at h0 h1 h2 h4 h5 h162
  have hd : decide (ps + 162 < L) = true := decide_eq_true (by omega)
  have hdn : decide (n ≤ 0x0f) = true := decide_eq_true hn
  constructor
  · have h5b : (raw.getD (ps + 5) 0 == 0x00) = false := by rw [h5]; decide
    simp only [is_bulk_dump, Nat.add_zero, h5b, Bool.and_false, Bool.false_and]
  · simp only [is_single_dump, Nat.add_zero, h0, h1, h2, h4, h5, h162, hd, hdn,
      beq_self_eq_true, Bool.and_self]

/-- The payload seen through the window. -/
theorem payload_of_view (raw : List Nat) (ps : Nat) (a b c d e f : Nat)
    (payload tail : List Nat) (hlen : ps + 6 + payload.length ≤ raw.length)
    (hv : ∀ j, raw.getD (ps + j) 0 =
      (a :: b :: c :: d :: e :: f :: (payload ++ tail)).getD j 0) :
    bytes_at raw (ps + 6) payload.length = payload := by
  apply bytes_at_eq_of_getD raw payload (ps + 6) hlen
  intro j hj
  have h := hv (6 + j)
  have e : 6 + j = j + 6 := by omega
  rw [e] at h
  simp only [List.getD_cons_succ] at h
  rw [List.getD_append _ _ _ _ hj] at h
  rw [← h]
  congr 1
  omega

/-- The scan on dumps laid end to end. With the cursor at the first byte of a
dump sequence that runs to the end of the file, and the buffer holding the
patches compacted so far followed by the untouched rest of the file, the scan
visits exactly the first byte of each dump, appends each dump's patches in
order, and leaves the file untouched past the compacted patches. -/
theorem sysex_scan_dumps (pack : List Nat → List Nat)
    (hpack : ∀ u, u.length = 155 → (pack u).length = 128) (data : List Nat) :
    ∀ (ds : List sysex_dump), (∀ d, d ∈ ds → dump_ok d) →
    ∀ (P : List Nat) (ps count fuel : Nat),
      P.length = 128 * count → P.length ≤ ps → data.drop ps = dumps_file ds →
      ds.length ≤ fuel →
      sysex_scan pack 0 data.length fuel ps count (P ++ data.drop P.length) =
        some (count + dumps_count ds,
          (P ++ dumps_patches pack ds) ++
            data.drop (P ++ dumps_patches pack ds).length) ∧
      sysex_scan_steps pack 0 data.length fuel ps count (P ++ data.drop P.length) =
        dumps_steps ps count ds := by
  intro ds
  induction ds with
  | nil =>
    intro _ P ps count fuel _ _ hdrop _
    have hL : data.length ≤ ps := List.drop_eq_nil_iff.mp hdrop
    have hc : ¬ ps + 0 + 5 < data.length := by omega
    rw [sysex_scan_done pack 0 data.length fuel ps count _ hc,
      sysex_scan_steps_done pack 0 data.length fuel ps count _ hc]
    simp only [dumps_count, dumps_patches, dumps_steps, List.append_nil, Nat.add_zero,
      and_self]
  | cons d ds ih =>
    intro hok P ps count fuel hP hps hdrop hfuel
    have hd := hok d (List.mem_cons_self _ _)
    have hsize := dump_bytes_length d hd
    have hlen : data.length - ps = dump_size d + (dumps_file ds).length := by
      have := congrArg List.length hdrop
      rw [List.length_drop, dumps_file, List.length_append, hsize] at this
      exact this
    have hpos : 163 ≤ dump_size d := by cases d <;> simp [dump_size]
    have hnext : data.drop (ps + dump_size d) = dumps_file ds := by
      rw [← List.drop_drop, hdrop, dumps_file, List.drop_left' hsize]
    have hview : ∀ j, (P ++ data.drop P.length).getD (ps + j) 0 =
        (dump_bytes d ++ dumps_file ds).getD j 0 := by
      intro j
      rw [getD_compacted P data (ps + j) (by omega), ← getD_drop, hdrop, dumps_file]
    have hrawlen : (P ++ data.drop P.length).length = data.length := by
      rw [List.length_append, List.length_drop]
      omega
    obtain ⟨fuel, rfl⟩ : ∃ f, fuel = f + 1 := ⟨fuel - 1, by
      simp only [List.length_cons] at hfuel; omega⟩
    have hfuel2 : ds.length ≤ fuel := by
      simp only [List.length_cons] at hfuel; omega
    have hc : ps + 0 + 5 < data.length := by omega
    have hcount : count * 128 = P.length := by omega
    cases d with
    | bulk n b4 payload ck =>
      obtain ⟨hn, hp⟩ := hd
      simp only [dump_size] at hlen hnext
      simp only [dump_bytes, List.cons_append, List.nil_append, List.append_assoc] at hview
      have hb := is_bulk_dump_of_view _ data.length ps n b4 ck payload (dumps_file ds)
        hn hp (by omega) hview
      have hpay := payload_of_view _ ps _ _ _ _ _ _ payload _
        (by rw [hrawlen]; omega) hview
      rw [hp] at hpay
      have hraw : memmove (P ++ data.drop P.length) (count * 128) (ps + 6 + 0) 4096 =
          (P ++ payload) ++ data.drop (P ++ payload).length := by
        rw [memmove, Nat.add_zero, hpay, hcount, write_compacted]
      have hih := ih (fun x hx => hok x (List.mem_cons_of_mem _ hx)) (P ++ payload)
        (ps + 4104) (count + 32) fuel (by rw [List.length_append, hp]; omega)
        (by rw [List.length_append, hp]; omega) hnext hfuel2
      rw [sysex_scan_bulk pack 0 data.length fuel ps count _ hc hb,
        sysex_scan_steps_bulk pack 0 data.length fuel ps count _ hc hb, hraw, hih.1, hih.2]
      simp only [dumps_count, dump_count, dumps_patches, dump_patches, dumps_steps,
        dump_outcome, dump_size, List.append_assoc, Nat.add_assoc, and_self]
    | single n b3 payload ck =>
      obtain ⟨hn, hp⟩ := hd
      simp only [dump_size] at hlen hnext
      simp only [dump_bytes, List.cons_append, List.nil_append, List.append_assoc] at hview
      obtain ⟨hb, hs⟩ := is_single_dump_of_view _ data.length ps n b3 ck payload
        (dumps_file ds) hn hp (by omega) hview
      have hpay := payload_of_view _ ps _ _ _ _ _ _ payload _
        (by rw [hrawlen]; omega) hview
      rw [hp] at hpay
      have hpk := hpack payload hp
      have hfull : (pack payload).take 128 = pack payload :=
        List.take_of_length_le (by omega)
      have hraw : write_bytes (P ++ data.drop P.length) (count * 128)
          ((pack (bytes_at (P ++ data.drop P.length) (ps + 0 + 6) 155)).take 128) =
          (P ++ pack payload) ++ data.drop (P ++ pack payload).length := by
        rw [Nat.add_zero, hpay, hfull, hcount, write_compacted]
      have hih := ih (fun x hx => hok x (List.mem_cons_of_mem _ hx)) (P ++ pack payload)
        (ps + 163) (count + 1) fuel (by rw [List.length_append, hpk]; omega)
        (by rw [List.length_append, hpk]; omega) hnext hfuel2
      rw [sysex_scan_single pack 0 data.length fuel ps count _ hc hb hs,
        sysex_scan_steps_single pack 0 data.length fuel ps count _ hc hb hs, hraw,
        hih.1, hih.2]
      simp only [dumps_count, dump_count, dumps_patches, dump_patches, dumps_steps,
        dump_outcome, dump_size, List.append_assoc, Nat.add_assoc, and_self]

theorem dumps_file_append (a b : List sysex_dump) :
    dumps_file (a ++ b) = dumps_file a ++ dumps_file b := by
  induction a with
  | nil => rfl
  | cons d ds ih =>
    show dump_bytes d ++ dumps_file (ds ++ b) = dump_bytes d ++ dumps_file ds ++ dumps_file b
    rw [ih, List.append_assoc]

theorem dumps_count_append (a b : List sysex_dump) :
    dumps_count (a ++ b) = dumps_count a + dumps_count b := by
  induction a with
  | nil => simp [dumps_count]
  | cons d ds ih =>
    show dump_count d + dumps_count (ds ++ b) = dump_count d + dumps_count ds + dumps_count b
    rw [ih, Nat.add_assoc]

theorem dumps_count_replicate (n : Nat) (d : sysex_dump) :
    dumps_count (List.replicate n d) = n * dump_count d := by
  induction n with
  | zero => simp [dumps_count]
  | succ n ih => rw [List.replicate_succ, dumps_count, ih]; ring

theorem dumps_file_length_replicate (n : Nat) (d : sysex_dump) (h : dump_ok d) :
    (dumps_file (List.replicate n d)).length = n * dump_size d := by
  induction n with
  | zero => simp [dumps_file]
  | succ n ih =>
    rw [List.replicate_succ, dumps_file, List.length_append, ih, dump_bytes_length d h]
    ring

/-- Sizes of a file of well-formed dumps: with `a` 32-voice and `b` single-voice
dumps it has `4104 a + 163 b` bytes and carries `32 a + b` patches. -/
theorem dumps_file_sizes (ds : List sysex_dump) (hok : ∀ d, d ∈ ds → dump_ok d) :
    ∃ a b, (dumps_file ds).length = 4104 * a + 163 * b ∧ dumps_count ds = 32 * a + b ∧
      ds.length = a + b := by
  induction ds with
  | nil => exact ⟨0, 0, rfl, rfl, rfl⟩
  | cons d ds ih =>
    obtain ⟨a, b, h1, h2, h3⟩ := ih (fun x hx => hok x (List.mem_cons_of_mem _ hx))
    have hs := dump_bytes_length d (hok d (List.mem_cons_self _ _))
    cases d with
    | bulk n b4 payload ck =>
      refine ⟨a + 1, b, ?_, ?_, ?_⟩
      · rw [dumps_file, List.length_append, hs, h1, dump_size]; omega
      · rw [dumps_count, h2, dump_count]; omega
      · rw [List.length_cons, h3]; omega
    | single n b3 payload ck =>
      refine ⟨a, b + 1, ?_, ?_, ?_⟩
      · rw [dumps_file, List.length_append, hs, h1, dump_size]; omega
      · rw [dumps_count, h2, dump_count]; omega
      · rw [List.length_cons, h3]; omega

/-- The patches of well-formed dumps are 128 bytes each. -/
theorem dumps_patches_length (pack : List Nat → List Nat)
    (hpack : ∀ u, u.length = 155 → (pack u).length = 128) (ds : List sysex_dump)
    (hok : ∀ d, d ∈ ds → dump_ok d) :
    (dumps_patches pack ds).length = 128 * dumps_count ds := by
  induction ds with
  | nil => rfl
  | cons d ds ih =>
    have ih := ih (fun x hx => hok x (List.mem_cons_of_mem _ hx))
    have hd := hok d (List.mem_cons_self _ _)
    cases d with
    | bulk n b4 payload ck =>
      rw [dumps_patches, List.length_append, ih, dumps_count, dump_patches, dump_count, hd.2]
      omega
    | single n b3 payload ck =>
      rw [dumps_patches, List.length_append, ih, dumps_count, dump_patches, dump_count,
        hpack payload hd.2]
      omega

/-- A file of dumps starts with `F0`. -/
theorem dumps_file_head (ds : List sysex_dump) (hne : ds ≠ []) :
    ∃ rest, dumps_file ds = 0xf0 :: rest := by
  cases ds with
  | nil => exact absurd rfl hne
  | cons d ds =>
    cases d with
    | bulk n b4 payload ck => exact ⟨_, rfl⟩
    | single n b3 payload ck => exact ⟨_, rfl⟩

/-- At every expected scan step the compacted patches end at or before the
cursor. -/
theorem dumps_steps_compaction (ds : List sysex_dump) :
    ∀ (ps count : Nat), 128 * count ≤ ps →
      ∀ s, s ∈ dumps_steps ps count ds → 128 * s.2.1 ≤ s.1 := by
  induction ds with
  | nil => intro ps count _ s hs; simp [dumps_steps] at hs
  | cons d ds ih =>
    intro ps count h s hs
    rw [dumps_steps, List.mem_cons] at hs
    rcases hs with rfl | hs
    · exact h
    · refine ih _ _ ?_ s hs
      cases d <;> simp only [dump_size, dump_count] <;> omega

/-- The scan part of decoding a file of well-formed dumps. -/
theorem decode_dumps (pack : List Nat → List Nat)
    (hpack : ∀ u, u.length = 155 → (pack u).length = 128) (filename : String)
    (ds : List sysex_dump) (hne : ds ≠ []) (hok : ∀ d, d ∈ ds → dump_ok d) :
    midi_shift (dumps_file ds) = 0 ∧
    sysex_scan_steps pack 0 (dumps_file ds).length (dumps_file ds).length 0 0 (dumps_file ds) =
      dumps_steps 0 0 ds ∧
    dx7_patchbank_decode pack filename (dumps_file ds) =
      some (vendor_cases filename
        { count := dumps_count ds, datastart := 0, filelength := (dumps_file ds).length,
          raw_patch_data := dumps_patches pack ds ++
            (dumps_file ds).drop (dumps_patches pack ds).length }) := by
  obtain ⟨rest, hrest⟩ := dumps_file_head ds hne
  have hms : midi_shift (dumps_file ds) = 0 := by rw [hrest]; exact midi_shift_f0 _
  obtain ⟨a, b, h1, h2, h3⟩ := dumps_file_sizes ds hok
  have hpos : 0 < a + b := by
    rw [← h3]; exact List.length_pos.mpr hne
  have hscan := sysex_scan_dumps pack hpack (dumps_file ds) ds hok [] 0 0
    (dumps_file ds).length rfl (Nat.le_refl _) rfl (by omega)
  simp only [List.nil_append, List.length_nil, List.drop_zero, Nat.zero_add] at hscan
  refine ⟨hms, hscan.2, ?_⟩
  have hcz : (dumps_count ds == 0) = false := by
    apply beq_false_of_ne
    omega
  simp only [dx7_patchbank_decode, hms, hscan.1, hcz, Bool.false_eq_true, if_false]

/-- The vendor cases after a scan that recognised `a` 32-voice and `b`
single-voice dumps filling the file: unless the file has the DX200 size and
name, the count, the data offset and the buffer stay as the scan left them. -/
theorem vendor_cases_dumps (filename : String) (st : decode_state) (a b : Nat)
    (hL : st.filelength = 4104 * a + 163 * b) (hc : st.count = 32 * a + b)
    (hds : st.datastart = 0)
    (hdx2 : ¬ (st.filelength = 326454 ∧
      (has_extension filename ".DX2" || has_extension filename ".dx2") = true)) :
    (vendor_cases filename st).count = st.count ∧ (vendor_cases filename st).datastart = 0 ∧
      (vendor_cases filename st).raw_patch_data = st.raw_patch_data := by
  have h8192 : st.filelength ≠ 8192 := by omega
  have h9816 : st.filelength ≠ 9816 := by omega
  have h5663 : st.filelength ≠ 5663 := by omega
  by_cases h5216 : st.filelength = 5216
  · have hc32 : st.count = 32 := by omega
    unfold vendor_cases
    by_cases hext : (has_extension filename ".SND" || has_extension filename ".snd") = true
    · simp [h5216, hext, hc32, hds]
    · simp [h5216, hext, hc32, hds]
  · by_cases h326 : st.filelength = 326454
    · have hext : ¬ (has_extension filename ".DX2" || has_extension filename ".dx2") = true :=
        fun h => hdx2 ⟨h326, h⟩
      unfold vendor_cases
      simp [h326, hext, hds]
    · rw [vendor_cases_other filename st (fun h => absurd h h8192) h5216 h9816 h5663 h326]
      exact ⟨rfl, hds, rfl⟩

/-- The DX200 case sets the count to 128. -/
theorem vendor_cases_dx2_count (filename : String) (st : decode_state)
    (hext : (has_extension filename ".DX2" || has_extension filename ".dx2") = true)
    (hlen : st.filelength = 326454) : (vendor_cases filename st).count = 128 := by
  unfold vendor_cases
  simp [hlen, hext]

/-- C21 as stated fails when the concatenation happens to have the size of a
DX200 editor file and is named like one. Fifty-five 32-voice dumps followed by
618 single-voice dumps are well formed, start with `F0` (no MIDI-file magic),
fill 55 * 4104 + 618 * 163 = 326454 bytes and carry 2378 patches; named
`bank.DX2`, the file decodes to a count of 128, because the DX200 case of
hexter.c 807-888 runs after the scan and replaces its result. -/
theorem decode_concatenated_dumps_counterexample :
    (∀ d, d ∈ example_dx2_sized_dumps → dump_ok d) ∧
    example_dx2_sized_dumps ≠ [] ∧
    midi_shift (dumps_file example_dx2_sized_dumps) = 0 ∧
    (dumps_file example_dx2_sized_dumps).length = 326454 ∧
    dumps_count example_dx2_sized_dumps = 2378 ∧
    ∃ st, dx7_patchbank_decode example_pack "bank.DX2"
        (dumps_file example_dx2_sized_dumps) = some st ∧ st.count = 128 := by
  have hok : ∀ d, d ∈ example_dx2_sized_dumps → dump_ok d := by
    intro d hd
    rcases List.mem_append.mp hd with h | h
    · rw [List.eq_of_mem_replicate h]
      exact ⟨by decide, List.length_replicate _ _⟩
    · rw [List.eq_of_mem_replicate h]
      exact ⟨by decide, List.length_replicate _ _⟩
  have hne : example_dx2_sized_dumps ≠ [] := by
    intro h
    have h2 := congrArg List.length h
    simp only [example_dx2_sized_dumps, List.length_append, List.length_replicate,
      List.length_nil] at h2
    omega
  have hlen : (dumps_file example_dx2_sized_dumps).length = 326454 := by
    rw [example_dx2_sized_dumps, dumps_file_append, List.length_append,
      dumps_file_length_replicate 55 (sysex_dump.bulk 0 0x20 (List.replicate 4096 0) 0)
        ⟨by decide, List.length_replicate _ _⟩,
      dumps_file_length_replicate 618 (sysex_dump.single 0 0 (List.replicate 155 0) 0)
        ⟨by decide, List.length_replicate _ _⟩]
    rfl
  have hcount : dumps_count example_dx2_sized_dumps = 2378 := by
    rw [example_dx2_sized_dumps, dumps_count_append, dumps_count_replicate,
      dumps_count_replicate]
    rfl
  have hpack : ∀ u : List Nat, u.length = 155 → (example_pack u).length = 128 := by
    intro u hu
    simp only [example_pack, List.length_take]
    omega
  obtain ⟨hms, _, hdec⟩ := decode_dumps example_pack hpack "bank.DX2"
    example_dx2_sized_dumps hne hok
  exact ⟨hok, hne, hms, hlen, hcount, _, hdec,
    vendor_cases_dx2_count "bank.DX2" _ (by decide) hlen⟩

/-- C21, amended. Concatenated dumps accumulate in file order, unless the file
is 326454 bytes long and named `*.DX2` or `*.dx2`. For every file that is a
concatenation of one or more well-formed dumps (4104-byte 32-voice dumps and
163-byte single-voice dumps, payload and checksum bytes arbitrary) and is not
such a DX200-sized file, and for a packing routine that returns 128 bytes: the
file has no MIDI-file magic; the decoder state before the `maxpatches` cap has
one patch per single-voice dump and 32 per 32-voice dump, at data offset 0, and
its patches are the dumps' patches in file order (32-voice payloads as they
are, single-voice payloads packed); the scan loop body runs exactly once per
dump, at the dump's first byte, so no payload byte is tested as a header; and
at each of those iterations `128 * count` is at most the cursor. -/
theorem decode_concatenated_dumps (pack : List Nat → List Nat)
    (hpack : ∀ u, u.length = 155 → (pack u).length = 128) (filename : String)
    (ds : List sysex_dump) (hne : ds ≠ []) (hok : ∀ d, d ∈ ds → dump_ok d)
    (hdx2 : ¬ ((dumps_file ds).length = 326454 ∧
      (has_extension filename ".DX2" || has_extension filename ".dx2") = true)) :
    midi_shift (dumps_file ds) = 0 ∧
    ∃ st, dx7_patchbank_decode pack filename (dumps_file ds) = some st ∧
      st.count = dumps_count ds ∧ st.datastart = 0 ∧
      bytes_at st.raw_patch_data st.datastart (128 * st.count) = dumps_patches pack ds ∧
      sysex_scan_steps pack (midi_shift (dumps_file ds)) (dumps_file ds).length
        (dumps_file ds).length 0 0 (dumps_file ds) = dumps_steps 0 0 ds ∧
      ∀ s, s ∈ sysex_scan_steps pack (midi_shift (dumps_file ds)) (dumps_file ds).length
        (dumps_file ds).length 0 0 (dumps_file ds) → 128 * s.2.1 ≤ s.1 := by
  obtain ⟨hms, hsteps, hdec⟩ := decode_dumps pack hpack filename ds hne hok
  obtain ⟨a, b, h1, h2, _⟩ := dumps_file_sizes ds hok
  obtain ⟨hc, hd, hr⟩ := vendor_cases_dumps filename
    { count := dumps_count ds, datastart := 0, filelength := (dumps_file ds).length,
      raw_patch_data := dumps_patches pack ds ++
        (dumps_file ds).drop (dumps_patches pack ds).length } a b h1 h2 rfl hdx2
  refine ⟨hms, _, hdec, hc, hd, ?_, ?_, ?_⟩
  · rw [hr, hd, hc, ← dumps_patches_length pack hpack ds hok]
    simp only [bytes_at, List.drop_zero, List.take_left']
  · rw [hms]; exact hsteps
  · rw [hms, hsteps]
    exact dumps_steps_compaction ds 0 0 (Nat.le_refl _)

/-- C21, amended, on a single-voice dump followed by a 32-voice dump. -/
theorem decode_concatenated_dumps_witness :
    midi_shift (dumps_file example_two_dumps) = 0 ∧
    ∃ st, dx7_patchbank_decode example_pack "bank.syx" (dumps_file example_two_dumps) =
        some st ∧
      st.count = dumps_count example_two_dumps ∧ st.datastart = 0 ∧
      bytes_at st.raw_patch_data st.datastart (128 * st.count) =
        dumps_patches example_pack example_two_dumps ∧
      sysex_scan_steps example_pack (midi_shift (dumps_file example_two_dumps))
        (dumps_file example_two_dumps).length (dumps_file example_two_dumps).length 0 0
        (dumps_file example_two_dumps) = dumps_steps 0 0 example_two_dumps ∧
      ∀ s, s ∈ sysex_scan_steps example_pack (midi_shift (dumps_file example_two_dumps))
        (dumps_file example_two_dumps).length (dumps_file example_two_dumps).length 0 0
        (dumps_file example_two_dumps) → 128 * s.2.1 ≤ s.1 :=
  decode_concatenated_dumps example_pack
    (fun u hu => by simp only [example_pack, List.length_take]; omega)
    "bank.syx" example_two_dumps (by decide)
    (fun d hd => by
      simp only [example_two_dumps, List.mem_cons, List.mem_singleton, List.not_mem_nil,
        or_false] at hd
      rcases hd with rfl | rfl
      · exact ⟨by decide, List.length_replicate _ _⟩
      · exact ⟨by decide, List.length_replicate _ _⟩)
    (fun h => absurd h.2 (by decide))

/-- A buffer that begins with `MThd` gets the shift 2. -/
theorem midi_shift_magic (rest : List Nat) : midi_shift (midi_magic ++ rest) = 2 := by
  simp [midi_shift, midi_magic]

theorem getD_cut_two_self (raw : List Nat) (p : Nat) (h : p + 1 ≤ raw.length) :
    (cut_two raw p).getD p 0 = raw.getD p 0 := by
  have hl : (raw.take (p + 1)).length = p + 1 := by rw [List.length_take]; omega
  rw [cut_two, List.getD_eq_getElem?_getD, List.getElem?_append_left (by omega),
    List.getElem?_take, if_pos (by omega), List.getD_eq_getElem?_getD]

theorem getD_cut_two_after (raw : List Nat) (p k : Nat) (h : p + 1 ≤ raw.length)
    (hk : 1 ≤ k) : (cut_two raw p).getD (p + k) 0 = raw.getD (p + k + 2) 0 := by
  have hl : (raw.take (p + 1)).length = p + 1 := by rw [List.length_take]; omega
  rw [cut_two, List.getD_eq_getElem?_getD, List.getElem?_append_right (by omega),
    List.getElem?_drop, List.getD_eq_getElem?_getD, hl]
  congr 2
  omega

/-- With the shift 2 the 32-voice test at `p` is the unshifted test on the buffer
with the two bytes after `p` removed: every offset it uses is 2 greater. -/
theorem is_bulk_dump_shift (raw : List Nat) (L p : Nat) (h : p + 1 ≤ raw.length) :
    is_bulk_dump raw 2 L p = is_bulk_dump (cut_two raw p) 0 (L - 2) p := by
  have hd : decide (p + 4103 + 2 < L) = decide (p + 4103 < L - 2) :=
    decide_eq_decide.mpr (by omega)
  simp only [is_bulk_dump, Nat.add_zero, getD_cut_two_self raw p h,
    getD_cut_two_after raw p _ h (by omega : 1 ≤ 1),
    getD_cut_two_after raw p _ h (by omega : 1 ≤ 2),
    getD_cut_two_after raw p _ h (by omega : 1 ≤ 3),
    getD_cut_two_after raw p _ h (by omega : 1 ≤ 5),
    getD_cut_two_after raw p _ h (by omega : 1 ≤ 4103), hd]

/-- The same for the single-voice test. -/
theorem is_single_dump_shift (raw : List Nat) (L p : Nat) (h : p + 1 ≤ raw.length) :
    is_single_dump raw 2 L p = is_single_dump (cut_two raw p) 0 (L - 2) p := by
  have hd : decide (p + 2 + 162 < L) = decide (p + 162 < L - 2) :=
    decide_eq_decide.mpr (by omega)
  have e : ∀ k, p + 2 + k = p + k + 2 := fun k => by omega
  simp only [is_single_dump, Nat.add_zero, getD_cut_two_self raw p h,
    getD_cut_two_after raw p _ h (by omega : 1 ≤ 1),
    getD_cut_two_after raw p _ h (by omega : 1 ≤ 2),
    getD_cut_two_after raw p _ h (by omega : 1 ≤ 4),
    getD_cut_two_after raw p _ h (by omega : 1 ≤ 5),
    getD_cut_two_after raw p _ h (by omega : 1 ≤ 162), hd, e]

/-- The payload read with the shift 2 is the payload read without it on the
buffer with the two bytes removed. -/
theorem bytes_at_shift (raw : List Nat) (p k n : Nat) (h : p + 1 ≤ raw.length)
    (hk : 1 ≤ k) :
    bytes_at raw (p + k + 2) n = bytes_at (cut_two raw p) (p + k) n := by
  have hl : (raw.take (p + 1)).length = p + 1 := by rw [List.length_take]; omega
  have e : p + k = (raw.take (p + 1)).length + (k - 1) := by omega
  rw [bytes_at, bytes_at, cut_two, e, List.drop_append, List.drop_drop, hl]
  congr 2
  omega

/-- Cursor positions that do not hold `F0` are skipped one at a time. -/
theorem sysex_scan_skip (pack : List Nat → List Nat) (ms L : Nat) (raw : List Nat)
    (p0 : Nat) (hno : ∀ q, q < p0 → raw.getD q 0 ≠ 0xf0) (hc : p0 + ms + 5 < L) :
    ∀ (d ps fuel count : Nat), ps + d = p0 →
      sysex_scan pack ms L (fuel + d) ps count raw =
        sysex_scan pack ms L fuel p0 count raw := by
  intro d
  induction d with
  | zero => intro ps fuel count h; simp only [Nat.add_zero] at h ⊢; rw [h]
  | succ d ih =>
    intro ps fuel count h
    have hb := is_bulk_dump_false_of_ne raw ms L ps (hno ps (by omega))
    have hs := is_single_dump_false_of_ne raw ms L ps (hno ps (by omega))
    have hc2 : ps + ms + 5 < L := by omega
    show sysex_scan pack ms L ((fuel + d) + 1) ps count raw = _
    simp only [sysex_scan, if_pos hc2, hb, hs, Bool.false_eq_true, if_false]
    exact ih (ps + 1) fuel count (by omega)

/-- The scan on a buffer with the shift 2 that holds no `F0` before a shifted
32-voice dump at its end: the dump is recognised and its payload moved to the
front. -/
theorem sysex_scan_shifted_dump (pack : List Nat → List Nat) (pre payload : List Nat)
    (x1 x2 n b4 ck : Nat) (hn : n ≤ 0x0f) (hp : payload.length = 4096)
    (hpre : ∀ x, x ∈ pre → x ≠ 0xf0) :
    (pre ++ shifted_bulk_dump x1 x2 n b4 payload ck).length = pre.length + 4106 ∧
    is_bulk_dump (pre ++ shifted_bulk_dump x1 x2 n b4 payload ck) 2
      (pre.length + 4106) pre.length = true ∧
    sysex_scan pack 2 (pre.length + 4106) (pre.length + 4106) 0 0
        (pre ++ shifted_bulk_dump x1 x2 n b4 payload ck) =
      some (32, memmove (pre ++ shifted_bulk_dump x1 x2 n b4 payload ck) 0
        (pre.length + 8) 4096) ∧
    bytes_at (memmove (pre ++ shifted_bulk_dump x1 x2 n b4 payload ck) 0
        (pre.length + 8) 4096) 0 4096 = payload := by
  generalize hdata : pre ++ shifted_bulk_dump x1 x2 n b4 payload ck = data
  have hlen : data.length = pre.length + 4106 := by
    rw [← hdata]
    simp only [shifted_bulk_dump, List.length_append, List.length_cons, List.length_nil, hp]
  have hview : ∀ j, data.getD (pre.length + j) 0 =
      (0xf0 :: x1 :: x2 :: 0x43 :: n :: 0x09 :: b4 :: 0x00 ::
        (payload ++ [ck, 0xf7])).getD j 0 := by
    intro j
    rw [← hdata, List.getD_append_right _ _ _ _ (by omega)]
    simp only [shifted_bulk_dump, List.cons_append, List.nil_append, Nat.add_sub_cancel_left]
  have hno : ∀ q, q < pre.length → data.getD q 0 ≠ 0xf0 := by
    intro q hq
    rw [← hdata, List.getD_append _ _ _ _ hq]
    exact getD_ne_of_forall_mem pre 0xf0 (by decide) hpre q
  have h0 := hview 0
  have h3 := hview 3
  have h4 := hview 4
  have h5 := hview 5
  have h7 := hview 7
  have h4105 := hview 4105
  have e := getD_after_body x2 0x43 n 0x09 b4 0x00 payload [ck, 0xf7] 1
  rw [hp] at e
  simp only [List.getD_cons_zero, List.getD_cons_succ, Nat.add_zero] at h0 h3 h4 h5 h7
  have e2 : (0xf0 :: x1 :: x2 :: 0x43 :: n :: 0x09 :: b4 :: 0x00 ::
      (payload ++ [ck, 0xf7])).getD 4105 0 = 0xf7 := by
    show (0xf0 :: x1 :: x2 :: 0x43 :: n :: 0x09 :: b4 :: 0x00 ::
      (payload ++ [ck, 0xf7])).getD (4103 + 2) 0 = 0xf7
    simp only [List.getD_cons_succ]
    exact e
  rw [e2] at h4105
  have hb : is_bulk_dump data 2 (pre.length + 4106) pre.length = true := by
    have hd : decide (pre.length + 4103 + 2 < pre.length + 4106) = true :=
      decide_eq_true (by omega)
    have hdn : decide (n ≤ 0x0f) = true := decide_eq_true hn
    simp only [is_bulk_dump, h0, h3, h4, h5, h7, h4105, hd, hdn, beq_self_eq_true,
      Bool.and_self]
  have hscan : sysex_scan pack 2 (pre.length + 4106) (pre.length + 4106) 0 0 data =
      some (32, memmove data 0 (pre.length + 8) 4096) := by
    have hskip := sysex_scan_skip pack 2 (pre.length + 4106) data pre.length hno (by omega)
      pre.length 0 4106 0 (by omega)
    have hf : pre.length + 4106 = 4106 + pre.length := by omega
    refine (congrArg (fun f => sysex_scan pack 2 (pre.length + 4106) f 0 0 data) hf).trans
      (hskip.trans ?_)
    rw [sysex_scan_bulk pack 2 (pre.length + 4106) 4105 pre.length 0 data (by omega) hb,
      sysex_scan_done pack 2 (pre.length + 4106) 4105 (pre.length + 4104) 32 _ (by omega)]
  refine ⟨hlen, hb, hscan, ?_⟩
  have hpay := bytes_at_eq_of_getD (memmove data 0 (pre.length + 8) 4096) payload 0
    (by rw [memmove_length data _ _ _ (by omega) (by omega)]; omega)
    (fun j hj => by
      rw [Nat.zero_add, getD_memmove data 0 (pre.length + 8) 4096 j (by omega) (by omega),
        if_pos (by omega), Nat.sub_zero,
        show pre.length + 8 + j = pre.length + (j + 8) from by omega, hview (j + 8)]
      simp only [List.getD_cons_succ]
      exact List.getD_append _ _ _ _ hj)
  rw [hp] at hpay
  exact hpay

/-- The shift is 2 exactly for the buffers that begin with `MThd`, and 0 for all
others. -/
theorem midi_shift_eq (data : List Nat) :
    midi_shift data = if data.take 4 = midi_magic then 2 else 0 := by
  rcases data with _ | ⟨a, _ | ⟨b, _ | ⟨c, _ | ⟨d, t⟩⟩⟩⟩ <;>
    simp [midi_shift, midi_magic, and_assoc]

/-- In a buffer with the shift 2, a plain 32-voice dump (no extra bytes after its
`F0`) matches neither test at its `F0`: the byte tested against `43` is the
dump's `09`. -/
theorem plain_dump_unrecognised (pre payload : List Nat) (n b4 ck L : Nat) :
    is_bulk_dump (pre ++ dump_bytes (sysex_dump.bulk n b4 payload ck)) 2 L pre.length = false ∧
    is_single_dump (pre ++ dump_bytes (sysex_dump.bulk n b4 payload ck)) 2 L pre.length =
      false := by
  have h3 : (pre ++ dump_bytes (sysex_dump.bulk n b4 payload ck)).getD (pre.length + 3) 0 =
      0x09 := by
    rw [List.getD_append_right _ _ _ _ (by omega)]
    simp only [dump_bytes, List.cons_append, List.nil_append, Nat.add_sub_cancel_left,
      List.getD_cons_succ, List.getD_cons_zero]
  have hb : ((pre ++ dump_bytes (sysex_dump.bulk n b4 payload ck)).getD
      (pre.length + 1 + 2) 0 == 0x43) = false := by
    rw [show pre.length + 1 + 2 = pre.length + 3 from by omega, h3]; decide
  have hs : ((pre ++ dump_bytes (sysex_dump.bulk n b4 payload ck)).getD
      (pre.length + 2 + 1) 0 == 0x43) = false := by
    rw [show pre.length + 2 + 1 = pre.length + 3 from by omega, h3]; decide
  constructor
  · simp only [is_bulk_dump, hb, Bool.and_false, Bool.false_and]
  · simp only [is_single_dump, hs, Bool.and_false, Bool.false_and]

/-- And when that `F0` is the only one in the buffer, the scan matches no header
at all. -/
theorem plain_dump_no_header (pre payload : List Nat) (n b4 ck : Nat)
    (hms : midi_shift (pre ++ dump_bytes (sysex_dump.bulk n b4 payload ck)) = 2)
    (hpre : ∀ x, x ∈ pre → x ≠ 0xf0) (hn : n ≤ 0x0f) (hb4 : b4 ≠ 0xf0) (hck : ck ≠ 0xf0)
    (hpay : ∀ x, x ∈ payload → x ≠ 0xf0) :
    no_sysex_header (pre ++ dump_bytes (sysex_dump.bulk n b4 payload ck)) := by
  intro p
  rw [hms]
  by_cases hp : p = pre.length
  · rw [hp]
    exact plain_dump_unrecognised pre payload n b4 ck _
  · have hne : (pre ++ dump_bytes (sysex_dump.bulk n b4 payload ck)).getD p 0 ≠ 0xf0 := by
      by_cases hlt : p < pre.length
      · rw [List.getD_append _ _ _ _ hlt]
        exact getD_ne_of_forall_mem pre 0xf0 (by decide) hpre p
      · rw [List.getD_append_right _ _ _ _ (by omega)]
        obtain ⟨j, hj⟩ : ∃ j, p - pre.length = j + 1 := ⟨p - pre.length - 1, by omega⟩
        rw [hj]
        simp only [dump_bytes, List.cons_append, List.nil_append, List.getD_cons_succ]
        apply getD_ne_of_forall_mem _ 0xf0 (by decide)
        intro x hx
        simp only [List.mem_cons, List.mem_append, List.mem_singleton, List.not_mem_nil,
          or_false] at hx
        rcases hx with rfl | rfl | rfl | rfl | rfl | hx | rfl | rfl
        · decide
        · omega
        · decide
        · exact hb4
        · decide
        · exact hpay x hx
        · exact hck
        · decide
    exact ⟨is_bulk_dump_false_of_ne _ _ _ _ hne, is_single_dump_false_of_ne _ _ _ _ hne⟩

theorem getD_set_same (l : List Nat) (i v : Nat) (h : i < l.length) :
    (l.set i v).getD i 0 = v := by
  rw [List.getD_eq_getElem?_getD, List.getElem?_set_self h]
  rfl

theorem getD_set_other (l : List Nat) (i k v : Nat) (h : i ≠ k) :
    (l.set i v).getD k 0 = l.getD k 0 := by
  rw [List.getD_eq_getElem?_getD, List.getElem?_set_ne h, List.getD_eq_getElem?_getD]

theorem ascending_mem (hi : Nat) (ws : List (Nat × (List Nat → Nat))) :
    ∀ lo, ascending hi lo ws → ∀ w, w ∈ ws → lo ≤ w.1 ∧ w.1 < hi := by
  induction ws with
  | nil => intro lo _ w hw; simp at hw
  | cons a ws ih =>
    intro lo h w hw
    obtain ⟨h1, h2, h3⟩ := h
    rcases List.mem_cons.mp hw with rfl | hw
    · exact ⟨h1, h2⟩
    · have := ih _ h3 w hw
      exact ⟨by omega, this.2⟩

/-- A run of assignments whose destinations ascend below `hi ≤ B` and whose
values read only at `B` and above: the length is kept, every untouched element
is kept, and each destination ends up holding its value computed on the
initial buffer. -/
theorem run_writes_spec (hi B : Nat) (hB : hi ≤ B) (ws : List (Nat × (List Nat → Nat))) :
    ∀ (lo : Nat) (r : List Nat), ascending hi lo ws → B ≤ r.length →
      (∀ w, w ∈ ws → reads_above B w.2) →
      (run_writes ws r).length = r.length ∧
      (∀ k, (∀ w, w ∈ ws → w.1 ≠ k) → (run_writes ws r).getD k 0 = r.getD k 0) ∧
      (∀ w, w ∈ ws → (run_writes ws r).getD w.1 0 = w.2 r) := by
  induction ws with
  | nil =>
    intro lo r _ _ _
    exact ⟨rfl, fun k _ => rfl, fun w hw => by simp at hw⟩
  | cons a ws ih =>
    intro lo r hasc hlen hreads
    obtain ⟨_, ha, hrest⟩ := hasc
    have hmem := ascending_mem hi ws _ hrest
    obtain ⟨h1, h2, h3⟩ := ih (a.1 + 1) (r.set a.1 (a.2 r)) hrest
      (by rw [List.length_set]; exact hlen)
      (fun w hw => hreads w (List.mem_cons_of_mem _ hw))
    have hrun : run_writes (a :: ws) r = run_writes ws (r.set a.1 (a.2 r)) := rfl
    rw [hrun]
    refine ⟨by rw [h1, List.length_set], ?_, ?_⟩
    · intro k hk
      rw [h2 k (fun w hw => hk w (List.mem_cons_of_mem _ hw)),
        getD_set_other _ _ _ _ (hk a (List.mem_cons_self _ _))]
    · intro w hw
      rcases List.mem_cons.mp hw with rfl | hw
      · rw [h2 w.1 (fun w2 hw2 => by have := (hmem w2 hw2).1; omega),
          getD_set_same _ _ _ (by omega)]
      · rw [h3 w hw]
        exact hreads w (List.mem_cons_of_mem _ hw) r _
          (fun k hk => getD_set_other _ _ _ _ (by omega))

theorem range_eight : List.range 8 = [0, 1, 2, 3, 4, 5, 6, 7] := by decide

theorem range_four : List.range 4 = [0, 1, 2, 3] := by decide

theorem range_ten : List.range 10 = [0, 1, 2, 3, 4, 5, 6, 7, 8, 9] := by decide

theorem range_six : List.range 6 = [0, 1, 2, 3, 4, 5] := by decide

theorem run_writes_take_succ (ws : List (Nat × (List Nat → Nat))) (n : Nat) (r : List Nat)
    (h : n < ws.length) :
    run_writes (ws.take (n + 1)) r =
      (run_writes (ws.take n) r).set (ws[n]).1 ((ws[n]).2 (run_writes (ws.take n) r)) := by
  rw [List.take_succ, List.getElem?_eq_getElem h]
  simp only [run_writes, List.foldl_append, Option.toList, List.foldl_cons, List.foldl_nil]

theorem dx2_operator_head_length (d s : Nat) : (dx2_operator_head d s).length = 13 := rfl

theorem dx2_operator_tail_length (d s : Nat) : (dx2_operator_tail d s).length = 4 := rfl

theorem dx2_voice_globals_length (d g : Nat) : (dx2_voice_globals d g).length = 26 := rfl

/-- The body of the operator loop is the first run of assignments, the clamp of
field 71, and the second run. -/
theorem dx2_operator_eq (c op : Nat) (r : List Nat) :
    dx2_operator c r op =
      run_writes (dx2_operator_tail (17 * (5 - op) + 128 * c) (16384 + 35 * op + 381 * c))
        (if (run_writes (dx2_operator_head (17 * (5 - op) + 128 * c)
              (16384 + 35 * op + 381 * c)) r).getD (16384 + 35 * op + 381 * c + 71) 0 > 3
         then (run_writes (dx2_operator_head (17 * (5 - op) + 128 * c)
              (16384 + 35 * op + 381 * c)) r).set (16384 + 35 * op + 381 * c + 71) 3
         else run_writes (dx2_operator_head (17 * (5 - op) + 128 * c)
              (16384 + 35 * op + 381 * c)) r) := by
  unfold dx2_operator
  lift_lets
  intro s d r8 r9 r10 r11 r12 r13 rc t1 t2 t3
  have hl := dx2_operator_head_length d s
  have tl := dx2_operator_tail_length d s
  have e8 : r8 = run_writes ((dx2_operator_head d s).take 8) r := rfl
  clear_value r8
  have e9 : r9 = run_writes ((dx2_operator_head d s).take 9) r := by
    rw [run_writes_take_succ _ 8 r (by omega), ← e8]; rfl
  clear_value r9
  have e10 : r10 = run_writes ((dx2_operator_head d s).take 10) r := by
    rw [run_writes_take_succ _ 9 r (by omega), ← e9]; rfl
  clear_value r10
  have e11 : r11 = run_writes ((dx2_operator_head d s).take 11) r := by
    rw [run_writes_take_succ _ 10 r (by omega), ← e10]; rfl
  clear_value r11
  have e12 : r12 = run_writes ((dx2_operator_head d s).take 12) r := by
    rw [run_writes_take_succ _ 11 r (by omega), ← e11]; rfl
  clear_value r12
  have e13 : r13 = run_writes (dx2_operator_head d s) r := by
    have ht : dx2_operator_head d s = (dx2_operator_head d s).take 13 := rfl
    rw [ht, run_writes_take_succ _ 12 r (by omega), ← e12]; rfl
  clear_value r13
  have f0 : rc = run_writes ((dx2_operator_tail d s).take 0) rc := rfl
  have f1 : t1 = run_writes ((dx2_operator_tail d s).take 1) rc := by
    rw [run_writes_take_succ _ 0 rc (by omega), ← f0]; rfl
  clear_value t1
  have f2 : t2 = run_writes ((dx2_operator_tail d s).take 2) rc := by
    rw [run_writes_take_succ _ 1 rc (by omega), ← f1]; rfl
  clear_value t2
  have f3 : t3 = run_writes ((dx2_operator_tail d s).take 3) rc := by
    rw [run_writes_take_succ _ 2 rc (by omega), ← f2]; rfl
  clear_value t3
  have f4 : t3.set (d + 16) (t3.getD (s + 74) 0) = run_writes (dx2_operator_tail d s) rc := by
    have ht : dx2_operator_tail d s = (dx2_operator_tail d s).take 4 := rfl
    rw [ht, run_writes_take_succ _ 3 rc (by omega), ← f3]; rfl
  rw [f4]
  have ec : rc = if r13.getD (s + 71) 0 > 3 then r13.set (s + 71) 3 else r13 := rfl
  rw [ec, e13]

theorem length_clamp (l : List Nat) (i : Nat) :
    (if l.getD i 0 > 3 then l.set i 3 else l).length = l.length := by
  split_ifs
  · exact List.length_set _ _ _
  · rfl

theorem getD_clamp_other (l : List Nat) (i k : Nat) (h : i ≠ k) :
    (if l.getD i 0 > 3 then l.set i 3 else l).getD k 0 = l.getD k 0 := by
  split_ifs
  · exact getD_set_other l i k 3 h
  · rfl

theorem getD_clamp_same (l : List Nat) (i : Nat) (h : i < l.length) :
    (if l.getD i 0 > 3 then l.set i 3 else l).getD i 0 = min (l.getD i 0) 3 := by
  split_ifs with hgt
  · rw [getD_set_same l i 3 h]; omega
  · omega

theorem dx2_operator_head_ascending (d s : Nat) :
    ascending (d + 13) d (dx2_operator_head d s) := by
  simp only [dx2_operator_head, ascending, and_true]
  and_intros <;> omega

theorem dx2_operator_tail_ascending (d s : Nat) :
    ascending (d + 17) (d + 13) (dx2_operator_tail d s) := by
  simp only [dx2_operator_tail, ascending, and_true]
  and_intros <;> omega

theorem dx2_operator_head_reads (d s : Nat) (hs : 16384 ≤ s) :
    ∀ w, w ∈ dx2_operator_head d s → reads_above 16384 w.2 := by
  simp only [dx2_operator_head, List.forall_mem_cons, List.not_mem_nil, false_imp_iff,
    implies_true, and_true]
  and_intros
  all_goals
    intro a b h
    simp (disch := omega) only [h]

theorem dx2_operator_tail_reads (d s : Nat) (hs : 16384 ≤ s) :
    ∀ w, w ∈ dx2_operator_tail d s → reads_above 16384 w.2 := by
  intro w hw
  simp only [dx2_operator_tail, List.mem_cons, List.mem_singleton, List.not_mem_nil,
    or_false] at hw
  rcases hw with rfl | rfl | rfl | rfl
  all_goals
    intro a b h
    simp (disch := omega) only [h]

theorem dx2_operator_head_getElem (d s : Nat) (r : List Nat) (j : Nat)
    (h : j < (dx2_operator_head d s).length) :
    ((dx2_operator_head d s)[j]).1 = d + j ∧
    ((dx2_operator_head d s)[j]).2 r = dx2_operator_byte (fun f => r.getD (s + f) 0) j := by
  have h13 : j < 13 := h
  interval_cases j <;> exact ⟨rfl, rfl⟩

/-- One pass of the operator loop body, with `d` the operator's first packed
byte and `s` its base in the moved copy: the length is kept; outside the 17
packed bytes and the clamped field 71 nothing changes; and packed byte `j` is
`dx2_operator_byte` of the fields found at `s`. -/
theorem dx2_operator_spec (c op : Nat) (r : List Nat) (hc : c < 128) (hop : op < 6)
    (hlen : 65152 ≤ r.length) :
    (dx2_operator c r op).length = r.length ∧
    (∀ k, (k < 17 * (5 - op) + 128 * c ∨ 17 * (5 - op) + 128 * c + 17 ≤ k) →
      k ≠ 16384 + 35 * op + 381 * c + 71 → (dx2_operator c r op).getD k 0 = r.getD k 0) ∧
    (∀ j, j < 17 → (dx2_operator c r op).getD (17 * (5 - op) + 128 * c + j) 0 =
      dx2_operator_byte (fun f => r.getD (16384 + 35 * op + 381 * c + f) 0) j) := by
  rw [dx2_operator_eq]
  have hd : 17 * (5 - op) + 128 * c + 17 ≤ 16384 := by omega
  have hs : 16384 ≤ 16384 + 35 * op + 381 * c := by omega
  have hs2 : 16384 + 35 * op + 381 * c + 92 ≤ r.length := by omega
  generalize 17 * (5 - op) + 128 * c = d at *
  generalize 16384 + 35 * op + 381 * c = s at *
  clear hc hop
  obtain ⟨l1, fr1, v1⟩ := run_writes_spec (d + 13) 16384 (by omega) (dx2_operator_head d s)
    d r (dx2_operator_head_ascending d s) (by omega) (dx2_operator_head_reads d s hs)
  have m1 := ascending_mem _ _ _ (dx2_operator_head_ascending d s)
  generalize run_writes (dx2_operator_head d s) r = r1 at *
  have lc := length_clamp r1 (s + 71)
  have hsrc : ∀ f, f ≠ 71 →
      (if r1.getD (s + 71) 0 > 3 then r1.set (s + 71) 3 else r1).getD (s + f) 0 =
        r.getD (s + f) 0 := by
    intro f hf
    rw [getD_clamp_other r1 _ _ (by omega),
      fr1 _ (fun w hw => by have := m1 w hw; omega)]
  have h71 : (if r1.getD (s + 71) 0 > 3 then r1.set (s + 71) 3 else r1).getD (s + 71) 0 =
      min (r.getD (s + 71) 0) 3 := by
    rw [getD_clamp_same r1 _ (by omega), fr1 _ (fun w hw => by have := m1 w hw; omega)]
  have hdst : ∀ k, k < 16384 →
      (if r1.getD (s + 71) 0 > 3 then r1.set (s + 71) 3 else r1).getD k 0 = r1.getD k 0 :=
    fun k hk => getD_clamp_other r1 _ _ (by omega)
  have hfr : ∀ k, (k < d ∨ d + 17 ≤ k) → k ≠ s + 71 →
      (if r1.getD (s + 71) 0 > 3 then r1.set (s + 71) 3 else r1).getD k 0 = r.getD k 0 := by
    intro k hk hk2
    rw [getD_clamp_other r1 _ _ (by omega),
      fr1 _ (fun w hw => by have := m1 w hw; omega)]
  generalize (if r1.getD (s + 71) 0 > 3 then r1.set (s + 71) 3 else r1) = rc at *
  obtain ⟨l2, fr2, v2⟩ := run_writes_spec (d + 17) 16384 (by omega) (dx2_operator_tail d s)
    (d + 13) rc (dx2_operator_tail_ascending d s) (by omega)
    (dx2_operator_tail_reads d s hs)
  have m2 := ascending_mem _ _ _ (dx2_operator_tail_ascending d s)
  refine ⟨by rw [l2, lc, l1], ?_, ?_⟩
  · intro k hk hk2
    rw [fr2 k (fun w hw => by have := m2 w hw; omega), hfr k hk hk2]
  · intro j hj
    by_cases hj13 : j < 13
    · have hjl : j < (dx2_operator_head d s).length := hj13
      obtain ⟨g1, g2⟩ := dx2_operator_head_getElem d s r j hjl
      rw [fr2 _ (fun w hw => by have := m2 w hw; omega), hdst _ (by omega), ← g1,
        v1 _ (List.getElem_mem hjl), g2]
    · have t0 := v2 _ (List.getElem_mem (show 0 < (dx2_operator_tail d s).length from by rw [dx2_operator_tail_length]; omega))
      have t1 := v2 _ (List.getElem_mem (show 1 < (dx2_operator_tail d s).length from by rw [dx2_operator_tail_length]; omega))
      have t2 := v2 _ (List.getElem_mem (show 2 < (dx2_operator_tail d s).length from by rw [dx2_operator_tail_length]; omega))
      have t3 := v2 _ (List.getElem_mem (show 3 < (dx2_operator_tail d s).length from by rw [dx2_operator_tail_length]; omega))
      simp only [dx2_operator_tail, List.getElem_cons_zero, List.getElem_cons_succ] at t0 t1 t2 t3
      rw [h71, hsrc 91 (by omega)] at t0
      rw [hsrc 90 (by omega)] at t1
      rw [hsrc 72 (by omega), hsrc 73 (by omega)] at t2
      rw [hsrc 74 (by omega)] at t3
      have hcases : j = 13 ∨ j = 14 ∨ j = 15 ∨ j = 16 := by omega
      rcases hcases with rfl | rfl | rfl | rfl
      · exact t0
      · exact t1
      · exact t2
      · exact t3

theorem run_writes_take_add (ws : List (Nat × (List Nat → Nat))) (n m : Nat) (r : List Nat) :
    run_writes (ws.take (n + m)) r =
      run_writes ((ws.drop n).take m) (run_writes (ws.take n) r) := by
  rw [List.take_add]
  simp only [run_writes, List.foldl_append]

/-- The body of the voice loop is the six operator passes followed by the run of
global assignments. -/
theorem dx2_voice_eq (r : List Nat) (c : Nat) :
    dx2_voice r c =
      run_writes (dx2_voice_globals (128 * c) (16384 + 381 * c))
        ((List.range 6).foldl (dx2_operator c) r) := by
  unfold dx2_voice
  lift_lets
  intro g d r0 r4 r8 r9 r10 r14 r15 r16
  have hl := dx2_voice_globals_length d g
  have e0 : r0 = (List.range 6).foldl (dx2_operator c) r := rfl
  clear_value r0
  have e4 : r4 = run_writes ((dx2_voice_globals d g).take 4) r0 := rfl
  clear_value r4
  have e8 : r8 = run_writes ((dx2_voice_globals d g).take (4 + 4)) r0 := by
    rw [run_writes_take_add, ← e4]; rfl
  clear_value r8
  have e9 : r9 = run_writes ((dx2_voice_globals d g).take 9) r0 := by
    rw [run_writes_take_succ _ 8 r0 (by omega), ← e8]; rfl
  clear_value r9
  have e10 : r10 = run_writes ((dx2_voice_globals d g).take 10) r0 := by
    rw [run_writes_take_succ _ 9 r0 (by omega), ← e9]; rfl
  clear_value r10
  have e14 : r14 = run_writes ((dx2_voice_globals d g).take (10 + 4)) r0 := by
    rw [run_writes_take_add, ← e10]; rfl
  clear_value r14
  have e15 : r15 = run_writes ((dx2_voice_globals d g).take 15) r0 := by
    rw [run_writes_take_succ _ 14 r0 (by omega), ← e14]; rfl
  clear_value r15
  have e16 : r16 = run_writes ((dx2_voice_globals d g).take 16) r0 := by
    rw [run_writes_take_succ _ 15 r0 (by omega), ← e15]; rfl
  clear_value r16
  have ht : dx2_voice_globals d g = (dx2_voice_globals d g).take (16 + 10) := rfl
  rw [← e0, ht, run_writes_take_add, ← e16]
  rfl

/-- A packed operator byte depends only on the fields 71 to 91. -/
theorem dx2_operator_byte_congr (v v2 : Nat → Nat) (j : Nat)
    (h : ∀ f, 71 ≤ f → f ≤ 91 → v f = v2 f) :
    dx2_operator_byte v j = dx2_operator_byte v2 j := by
  unfold dx2_operator_byte
  by_cases h1 : j < 8
  · simp only [if_pos h1]
    exact h _ (by omega) (by omega)
  · simp only [if_neg h1, h 84 (by omega) (by omega), h 87 (by omega) (by omega),
      h 88 (by omega) (by omega), h 85 (by omega) (by omega), h 86 (by omega) (by omega),
      h 89 (by omega) (by omega), h 75 (by omega) (by omega), h 71 (by omega) (by omega),
      h 91 (by omega) (by omega), h 90 (by omega) (by omega), h 72 (by omega) (by omega),
      h 73 (by omega) (by omega), h 74 (by omega) (by omega)]

/-- The first `n` operator passes of a voice. -/
theorem dx2_operators_spec (c : Nat) (r : List Nat) (hc : c < 128) (hlen : 65152 ≤ r.length) :
    ∀ n, n ≤ 6 →
      ((List.range n).foldl (dx2_operator c) r).length = r.length ∧
      (∀ k, (k < 128 * c + 17 * (6 - n) ∨ 128 * c + 102 ≤ k) →
        (∀ op, op < n → k ≠ 16384 + 35 * op + 381 * c + 71) →
        ((List.range n).foldl (dx2_operator c) r).getD k 0 = r.getD k 0) ∧
      (∀ op, op < n → ∀ j, j < 17 →
        ((List.range n).foldl (dx2_operator c) r).getD (17 * (5 - op) + 128 * c + j) 0 =
          dx2_operator_byte (fun f => r.getD (16384 + 35 * op + 381 * c + f) 0) j) := by
  intro n
  induction n with
  | zero =>
    intro _
    exact ⟨rfl, fun k _ _ => rfl, fun op hop => absurd hop (Nat.not_lt_zero _)⟩
  | succ n ih =>
    intro hn
    obtain ⟨ia, ib, ic⟩ := ih (by omega)
    rw [List.range_succ, List.foldl_append]
    simp only [List.foldl_cons, List.foldl_nil]
    generalize (List.range n).foldl (dx2_operator c) r = rn at *
    obtain ⟨oa, ob, oc⟩ := dx2_operator_spec c n rn hc (by omega) (by omega)
    refine ⟨by rw [oa, ia], ?_, ?_⟩
    · intro k hk hk2
      rw [ob k (by omega) (hk2 n (by omega)),
        ib k (by omega) (fun op hop => hk2 op (by omega))]
    · intro op hop j hj
      by_cases hlast : op = n
      · subst hlast
        rw [oc j hj]
        apply dx2_operator_byte_congr
        intro f hf1 hf2
        exact ib _ (by omega) (fun op2 hop2 => by omega)
      · rw [ob _ (by omega) (by omega)]
        exact ic op (by omega) j hj

theorem dx2_voice_globals_ascending (d g : Nat) :
    ascending (d + 128) (d + 102) (dx2_voice_globals d g) := by
  simp only [dx2_voice_globals, ascending, and_true]
  and_intros <;> omega

theorem dx2_voice_globals_reads (d g : Nat) (hg : 16384 ≤ g) :
    ∀ w, w ∈ dx2_voice_globals d g → reads_above 16384 w.2 := by
  simp only [dx2_voice_globals, List.forall_mem_cons, List.not_mem_nil, false_imp_iff,
    implies_true, and_true]
  and_intros
  all_goals
    intro a b h
    simp (disch := omega) only [h]

theorem dx2_voice_globals_getElem (d g : Nat) (r : List Nat) (i : Nat)
    (h : i < (dx2_voice_globals d g).length) :
    ((dx2_voice_globals d g)[i]).1 = 102 + i + d ∧
    ((dx2_voice_globals d g)[i]).2 r = dx2_packed_byte (fun f => r.getD (g + f) 0) (102 + i) := by
  have h26 : i < 26 := h
  interval_cases i <;> exact ⟨rfl, rfl⟩

/-- A packed global byte depends only on the fields 0 to 38. -/
theorem dx2_packed_byte_congr_globals (v v2 : Nat → Nat) (j : Nat) (hj : 102 ≤ j)
    (hj2 : j < 128) (h : ∀ f, f ≤ 38 → v f = v2 f) :
    dx2_packed_byte v j = dx2_packed_byte v2 j := by
  unfold dx2_packed_byte
  have hn : ¬ j < 102 := by omega
  simp only [if_neg hn, h 17 (by omega), h 18 (by omega), h 38 (by omega), h 24 (by omega),
    h 19 (by omega), h 25 (by omega), h 37 (by omega)]
  split_ifs <;> first | rfl | exact h _ (by omega)

/-- A packed byte depends only on the fields 0 to 266 of the voice. -/
theorem dx2_packed_byte_congr (v v2 : Nat → Nat) (j : Nat) (hj : j < 128)
    (h : ∀ f, f < 267 → v f = v2 f) : dx2_packed_byte v j = dx2_packed_byte v2 j := by
  by_cases hlt : j < 102
  · unfold dx2_packed_byte
    rw [if_pos hlt, if_pos hlt]
    apply dx2_operator_byte_congr
    intro f hf1 hf2
    have : 5 - j / 17 ≤ 5 := by omega
    exact h _ (by omega)
  · exact dx2_packed_byte_congr_globals v v2 j (by omega) hj (fun f hf => h f (by omega))

/-- One pass of the voice loop body for voice `c`: the length is kept; outside
the voice's 128 packed bytes and its 381 bytes in the moved copy nothing
changes; and packed byte `j` is `dx2_packed_byte` of the voice found in the
moved copy. -/
theorem dx2_voice_spec (r : List Nat) (c : Nat) (hc : c < 128) (hlen : 65152 ≤ r.length) :
    (dx2_voice r c).length = r.length ∧
    (∀ k, (k < 128 * c ∨ 128 * c + 128 ≤ k) →
      (k < 16384 + 381 * c ∨ 16384 + 381 * c + 381 ≤ k) →
      (dx2_voice r c).getD k 0 = r.getD k 0) ∧
    (∀ j, j < 128 → (dx2_voice r c).getD (128 * c + j) 0 =
      dx2_packed_byte (fun f => r.getD (16384 + 381 * c + f) 0) j) := by
  rw [dx2_voice_eq]
  obtain ⟨oa, ob, oc⟩ := dx2_operators_spec c r hc hlen 6 (Nat.le_refl _)
  generalize (List.range 6).foldl (dx2_operator c) r = r6 at *
  obtain ⟨ga, gb, gc⟩ := run_writes_spec (128 * c + 128) 16384 (by omega)
    (dx2_voice_globals (128 * c) (16384 + 381 * c)) (128 * c + 102) r6
    (dx2_voice_globals_ascending (128 * c) (16384 + 381 * c)) (by omega)
    (dx2_voice_globals_reads (128 * c) (16384 + 381 * c) (by omega))
  have gm := ascending_mem _ _ _ (dx2_voice_globals_ascending (128 * c) (16384 + 381 * c))
  refine ⟨by rw [ga, oa], ?_, ?_⟩
  · intro k hk hk2
    rw [gb k (fun w hw => by have := gm w hw; omega),
      ob k (by omega) (fun op hop => by omega)]
  · intro j hj
    by_cases hlt : j < 102
    · rw [gb _ (fun w hw => by have := gm w hw; omega)]
      have hop : 5 - j / 17 < 6 := by omega
      have hidx : 128 * c + j = 17 * (5 - (5 - j / 17)) + 128 * c + j % 17 := by omega
      rw [hidx, oc (5 - j / 17) hop (j % 17) (Nat.mod_lt _ (by omega))]
      unfold dx2_packed_byte
      rw [if_pos hlt]
      apply dx2_operator_byte_congr
      intro f _ _
      exact congrArg (fun i => r.getD i 0) (by omega)
    · have hi : j - 102 < (dx2_voice_globals (128 * c) (16384 + 381 * c)).length := by
        rw [dx2_voice_globals_length]; omega
      obtain ⟨g1, g2⟩ := dx2_voice_globals_getElem (128 * c) (16384 + 381 * c) r6 (j - 102) hi
      have hidx : 128 * c + j = 102 + (j - 102) + 128 * c := by omega
      rw [hidx, ← g1, gc _ (List.getElem_mem hi), g2]
      have hj2 : 102 + (j - 102) = j := by omega
      rw [hj2]
      apply dx2_packed_byte_congr_globals _ _ j (by omega) hj
      intro f hf
      exact ob _ (by omega) (fun op hop => by omega)

/-- The first `n` passes of the voice loop on the buffer `m` that holds the moved
copy. -/
theorem dx2_voices_spec (m : List Nat) (hlen : 65152 ≤ m.length) :
    ∀ n, n ≤ 128 →
      ((List.range n).foldl dx2_voice m).length = m.length ∧
      (∀ k, 128 * n ≤ k → (k < 16384 ∨ 16384 + 381 * n ≤ k) →
        ((List.range n).foldl dx2_voice m).getD k 0 = m.getD k 0) ∧
      (∀ c, c < n → ∀ j, j < 128 →
        ((List.range n).foldl dx2_voice m).getD (128 * c + j) 0 =
          dx2_packed_byte (fun f => m.getD (16384 + 381 * c + f) 0) j) := by
  intro n
  induction n with
  | zero =>
    intro _
    exact ⟨rfl, fun k _ _ => rfl, fun c hc => absurd hc (Nat.not_lt_zero _)⟩
  | succ n ih =>
    intro hn
    obtain ⟨ia, ib, ic⟩ := ih (by omega)
    rw [List.range_succ, List.foldl_append]
    simp only [List.foldl_cons, List.foldl_nil]
    generalize (List.range n).foldl dx2_voice m = sn at *
    obtain ⟨va, vb, vc⟩ := dx2_voice_spec sn n (by omega) (by omega)
    refine ⟨by rw [va, ia], ?_, ?_⟩
    · intro k hk hk2
      rw [vb k (by omega) (by omega), ib k (by omega) (by omega)]
    · intro c hc j hj
      by_cases hlast : c = n
      · subst hlast
        rw [vc j hj]
        apply dx2_packed_byte_congr _ _ j hj
        intro f _
        exact ib _ (by omega) (by omega)
      · rw [vb _ (by omega) (by omega)]
        exact ic c (by omega) j hj

/-- The DX200 transcoding as a whole: byte `j` of packed voice `c` is
`dx2_packed_byte` of the 381-byte voice that starts at `34 + 381 c` in the
buffer it was given. -/
theorem dx2_transcode_spec (raw : List Nat) (hlen : 65152 ≤ raw.length) (c j : Nat)
    (hc : c < 128) (hj : j < 128) :
    (dx2_transcode raw).getD (128 * c + j) 0 =
      dx2_packed_byte (fun f => raw.getD (34 + 381 * c + f) 0) j := by
  unfold dx2_transcode
  have hm : (memmove raw 16384 34 (128 * 381)).length = raw.length :=
    memmove_length raw _ _ _ (by omega) (by omega)
  obtain ⟨_, _, hv⟩ := dx2_voices_spec (memmove raw 16384 34 (128 * 381)) (by omega) 128
    (Nat.le_refl _)
  rw [hv c hc j hj]
  apply dx2_packed_byte_congr _ _ j hj
  intro f hf
  rw [getD_memmove raw _ _ _ _ (by omega) (by omega), if_pos (by omega)]
  exact congrArg (fun i => raw.getD i 0) (by omega)

/-- The DX200 case: a 326454-byte file named `.DX2` or `.dx2` is transcoded and
gets count 128 at data offset 0. -/
theorem vendor_cases_dx2 (filename : String) (st : decode_state)
    (hext : (has_extension filename ".DX2" || has_extension filename ".dx2") = true)
    (hlen : st.filelength = 326454) :
    vendor_cases filename st =
      { count := 128, datastart := 0, filelength := 16384,
        raw_patch_data := dx2_transcode st.raw_patch_data } := by
  unfold vendor_cases
  simp [hlen, hext]

/-- Decoding a headerless DX200 editor file. -/
theorem decode_dx2 (pack : List Nat → List Nat) (filename : String) (data : List Nat)
    (hno : no_sysex_header data) (hlen : data.length = 326454)
    (hext : (has_extension filename ".DX2" || has_extension filename ".dx2") = true) :
    dx7_patchbank_decode pack filename data =
      some { count := 128, datastart := 0, filelength := 16384,
             raw_patch_data := dx2_transcode data } := by
  have hscan := sysex_scan_no_match pack (midi_shift data) data.length data hno
    data.length 0 0 (by omega)
  simp only [dx7_patchbank_decode, hscan]
  rw [vendor_cases_dx2 filename _ hext hlen]

theorem dx2_packed_byte_operator (v : Nat → Nat) (op k : Nat) (hop : op < 6) (hk : k < 17) :
    dx2_packed_byte v (17 * (5 - op) + k) = dx2_operator_byte (fun f => v (35 * op + f)) k := by
  have e1 : (17 * (5 - op) + k) / 17 = 5 - op := by omega
  have e2 : (17 * (5 - op) + k) % 17 = k := by omega
  have e3 : 5 - (5 - op) = op := by omega
  unfold dx2_packed_byte
  rw [if_pos (by omega), e1, e2, e3]

theorem dx2_operator_byte_copy (v : Nat → Nat) (i : Nat) (hi : i < 8) :
    dx2_operator_byte v i = v (76 + i) := by
  unfold dx2_operator_byte
  rw [if_pos hi]

theorem dx2_packed_byte_102 (v : Nat → Nat) (i : Nat) (hi : i < 4) :
    dx2_packed_byte v (102 + i) = v (26 + i) := by
  unfold dx2_packed_byte
  rw [if_neg (by omega), if_pos (by omega), Nat.add_sub_cancel_left]

theorem dx2_packed_byte_106 (v : Nat → Nat) (i : Nat) (hi : i < 4) :
    dx2_packed_byte v (106 + i) = v (32 + i) := by
  unfold dx2_packed_byte
  rw [if_neg (by omega), if_neg (by omega), if_pos (by omega), Nat.add_sub_cancel_left]

theorem dx2_packed_byte_112 (v : Nat → Nat) (i : Nat) (hi : i < 4) :
    dx2_packed_byte v (112 + i) = v (20 + i) := by
  unfold dx2_packed_byte
  split_ifs
  all_goals first
    | (exfalso; omega)
    | rw [Nat.add_sub_cancel_left]

theorem dx2_packed_byte_118 (v : Nat → Nat) (i : Nat) (hi : i < 10) :
    dx2_packed_byte v (118 + i) = v i := by
  unfold dx2_packed_byte
  split_ifs
  all_goals first
    | (exfalso; omega)
    | rw [Nat.add_sub_cancel_left]

theorem getD_replicate_zero (n i : Nat) : (List.replicate n 0).getD i 0 = 0 := by
  by_cases h : i < n
  · rw [List.getD_eq_getElem _ _ (by rw [List.length_replicate]; exact h),
      List.getElem_replicate]
  · rw [List.getD_eq_default _ _ (by rw [List.length_replicate]; omega)]

/-- A list of zeros with one element replaced by a value other than `F0` has no
SysEx header. -/
theorem no_sysex_header_zeros_set (n i v : Nat) (hv : v ≠ 0xf0) :
    no_sysex_header ((List.replicate n 0).set i v) :=
  no_sysex_header_of_no_f0 _ (fun x hx => by
    rcases List.mem_or_eq_of_mem_set hx with h | h
    · rw [List.eq_of_mem_replicate h]; decide
    · rw [h]; exact hv)

/-- The packed bytes of every voice after decoding a headerless DX200 file, as
a function of the file's bytes. -/
theorem decode_dx2_bytes (pack : List Nat → List Nat) (filename : String) (data : List Nat)
    (hno : no_sysex_header data) (hlen : data.length = 326454)
    (hext : (has_extension filename ".DX2" || has_extension filename ".dx2") = true) :
    ∃ st, dx7_patchbank_decode pack filename data = some st ∧
      st.count = 128 ∧ st.datastart = 0 ∧
      ∀ c, c < 128 → ∀ j, j < 128 →
        st.raw_patch_data.getD (128 * c + j) 0 =
          dx2_packed_byte (fun f => data.getD (34 + 381 * c + f) 0) j := by
  have h65 : 65152 ≤ data.length := by omega
  have hdec := decode_dx2 pack filename data hno hlen hext
  generalize dx7_patchbank_decode pack filename data = res at hdec
  subst hdec
  refine ⟨_, rfl, ?_, ?_, ?_⟩
  · show (128 : Nat) = 128
    rfl
  · show (0 : Nat) = 0
    rfl
  · intro c hc j hj
    dsimp only
    exact dx2_transcode_spec data h65 c j hc hj

/-- C25 as stated fails for field 71 of an operator. In a headerless DX200 file
of zeros with the byte 5 at offset 105 (34 + 71: field 71 of operator 0 of
voice 0), byte 98 of the first patch (17 * 5 + 13) is 1. hexter.c 840-842
computes it as the field-71 byte halved plus four times the field-91 byte; the
file's bytes would give 5 / 2 + 0 = 2. The read returned 3, the value the clamp
of hexter.c 838-839 had stored over the source byte. -/
theorem decode_dx2_layout_counterexample :
    example_dx2_clamped.length = 326454 ∧ no_sysex_header example_dx2_clamped ∧
    example_dx2_clamped.getD (34 + 71) 0 = 5 ∧ example_dx2_clamped.getD (34 + 91) 0 = 0 ∧
    (5 / 2 + 0 * 4) % 256 = 2 ∧
    ∃ st, dx7_patchbank_decode example_pack "bank.DX2" example_dx2_clamped = some st ∧
      st.raw_patch_data.getD (17 * 5 + 13) 0 = 1 := by
  have hlen : example_dx2_clamped.length = 326454 := by
    rw [example_dx2_clamped, List.length_set, List.length_replicate]
  have hno : no_sysex_header example_dx2_clamped :=
    no_sysex_header_zeros_set 326454 105 5 (by decide)
  have h71 : example_dx2_clamped.getD (34 + 71) 0 = 5 :=
    getD_set_same _ 105 5 (by rw [List.length_replicate]; decide)
  have h91 : example_dx2_clamped.getD (34 + 91) 0 = 0 := by
    rw [example_dx2_clamped, getD_set_other _ 105 (34 + 91) 5 (by decide)]
    exact getD_replicate_zero _ _
  obtain ⟨st, hdec, _, _, hb⟩ := decode_dx2_bytes example_pack "bank.DX2"
    example_dx2_clamped hno hlen (by decide)
  refine ⟨hlen, hno, h71, h91, by decide, st, hdec, ?_⟩
  have h := hb 0 (by omega) 98 (by omega)
  rw [show (98 : Nat) = 17 * (5 - 0) + 13 from rfl,
    dx2_packed_byte_operator _ 0 13 (by omega) (by omega)] at h
  have e : ∀ v : Nat → Nat, dx2_operator_byte v 13 = (min (v 71) 3 / 2 + v 91 * 4) % 256 :=
    fun v => rfl
  rw [e] at h
  simp only [Nat.mul_zero, Nat.add_zero, Nat.zero_add] at h
  rw [h71, h91] at h
  exact h

/-- C25, amended. DX200 layout remapping. For every 326454-byte file named
`*.DX2` or `*.dx2` in which the scan matches no header, the decoder has 128
patches at data offset 0 before the cap, and for every voice `c < 128`, with
`s = 34 + 381 c` the voice's base in the file: patch bytes 118..127 are file
bytes `s+0..s+9`; 102..105 are `s+26..s+29`; 106..109 are `s+32..s+35`; 110 is
`s+17`; 112..115 are `s+20..s+23`; and for every operator `op < 6` the eight
bytes at patch offset `17 (5 - op) + 0..7` are file bytes
`s + 35 op + 76 .. s + 35 op + 83`. Every packed byte is computed from the
file's bytes of its voice (`dx2_packed_byte`), with one exception to "read as in
the file": field 71 of each operator is clamped to at most 3 before it is read
for byte 13. -/
theorem decode_dx2_layout (pack : List Nat → List Nat) (filename : String) (data : List Nat)
    (hno : no_sysex_header data) (hlen : data.length = 326454)
    (hext : (has_extension filename ".DX2" || has_extension filename ".dx2") = true) :
    ∃ st, dx7_patchbank_decode pack filename data = some st ∧
      st.count = 128 ∧ st.datastart = 0 ∧
      ∀ c, c < 128 →
        (∀ i, i < 10 → st.raw_patch_data.getD (128 * c + (118 + i)) 0 =
          data.getD (34 + 381 * c + i) 0) ∧
        (∀ i, i < 4 → st.raw_patch_data.getD (128 * c + (102 + i)) 0 =
          data.getD (34 + 381 * c + (26 + i)) 0) ∧
        (∀ i, i < 4 → st.raw_patch_data.getD (128 * c + (106 + i)) 0 =
          data.getD (34 + 381 * c + (32 + i)) 0) ∧
        st.raw_patch_data.getD (128 * c + 110) 0 = data.getD (34 + 381 * c + 17) 0 ∧
        (∀ i, i < 4 → st.raw_patch_data.getD (128 * c + (112 + i)) 0 =
          data.getD (34 + 381 * c + (20 + i)) 0) ∧
        (∀ op, op < 6 → ∀ i, i < 8 →
          st.raw_patch_data.getD (128 * c + (17 * (5 - op) + i)) 0 =
            data.getD (34 + 381 * c + (35 * op + (76 + i))) 0) ∧
        (∀ op, op < 6 → st.raw_patch_data.getD (128 * c + (17 * (5 - op) + 13)) 0 =
          (min (data.getD (34 + 381 * c + (35 * op + 71)) 0) 3 / 2 +
            data.getD (34 + 381 * c + (35 * op + 91)) 0 * 4) % 256) ∧
        (∀ j, j < 128 → st.raw_patch_data.getD (128 * c + j) 0 =
          dx2_packed_byte (fun f => data.getD (34 + 381 * c + f) 0) j) := by
  obtain ⟨st, hdec, hc, hd, hb⟩ := decode_dx2_bytes pack filename data hno hlen hext
  refine ⟨st, hdec, hc, hd, fun c hc => ⟨?_, ?_, ?_, ?_, ?_, ?_, ?_, hb c hc⟩⟩
  · intro i hi
    rw [hb c hc _ (by omega), dx2_packed_byte_118 _ i hi]
  · intro i hi
    rw [hb c hc _ (by omega), dx2_packed_byte_102 _ i hi]
  · intro i hi
    rw [hb c hc _ (by omega), dx2_packed_byte_106 _ i hi]
  · rw [hb c hc _ (by omega)]
    rfl
  · intro i hi
    rw [hb c hc _ (by omega), dx2_packed_byte_112 _ i hi]
  · intro op hop i hi
    rw [hb c hc _ (by omega), dx2_packed_byte_operator _ op i hop (by omega),
      dx2_operator_byte_copy _ i hi]
  · intro op hop
    rw [hb c hc _ (by omega), dx2_packed_byte_operator _ op 13 hop (by omega)]
    rfl

/-- C25, amended, on a DX200-sized file of bytes of value 1 named `bank.dx2`. -/
theorem decode_dx2_layout_witness :
    ∃ st, dx7_patchbank_decode example_pack "bank.dx2" example_dx2_ones = some st ∧
      st.count = 128 ∧ st.datastart = 0 ∧
      ∀ c, c < 128 →
        (∀ i, i < 10 → st.raw_patch_data.getD (128 * c + (118 + i)) 0 =
          example_dx2_ones.getD (34 + 381 * c + i) 0) ∧
        (∀ i, i < 4 → st.raw_patch_data.getD (128 * c + (102 + i)) 0 =
          example_dx2_ones.getD (34 + 381 * c + (26 + i)) 0) ∧
        (∀ i, i < 4 → st.raw_patch_data.getD (128 * c + (106 + i)) 0 =
          example_dx2_ones.getD (34 + 381 * c + (32 + i)) 0) ∧
        st.raw_patch_data.getD (128 * c + 110) 0 =
          example_dx2_ones.getD (34 + 381 * c + 17) 0 ∧
        (∀ i, i < 4 → st.raw_patch_data.getD (128 * c + (112 + i)) 0 =
          example_dx2_ones.getD (34 + 381 * c + (20 + i)) 0) ∧
        (∀ op, op < 6 → ∀ i, i < 8 →
          st.raw_patch_data.getD (128 * c + (17 * (5 - op) + i)) 0 =
            example_dx2_ones.getD (34 + 381 * c + (35 * op + (76 + i))) 0) ∧
        (∀ op, op < 6 → st.raw_patch_data.getD (128 * c + (17 * (5 - op) + 13)) 0 =
          (min (example_dx2_ones.getD (34 + 381 * c + (35 * op + 71)) 0) 3 / 2 +
            example_dx2_ones.getD (34 + 381 * c + (35 * op + 91)) 0 * 4) % 256) ∧
        (∀ j, j < 128 → st.raw_patch_data.getD (128 * c + j) 0 =
          dx2_packed_byte (fun f => example_dx2_ones.getD (34 + 381 * c + f) 0) j) :=
  decode_dx2_layout example_pack "bank.dx2" example_dx2_ones
    (no_sysex_header_of_no_f0 _ (fun x hx => by
      rw [List.eq_of_mem_replicate hx]; decide))
    (List.length_replicate _ _) (by decide)

/-- A field below `w = 2 ^ k` added to a field times `w` occupies disjoint bits:
the sum is the bitwise or of the field and the shifted field. -/
theorem add_shift_eq_or (x y k w : Nat) (hw : w = 2 ^ k) (h : x < w) :
    x + y * w = x ||| (y <<< k) := by
  subst hw
  rw [Nat.shiftLeft_eq, Nat.add_comm, Nat.mul_comm y, Nat.mul_add_lt_is_or h y, Nat.or_comm]

/-- C26 as stated fails. In a headerless DX200 file of zeros with the byte 4 at
offset 119 (34 + 85: field 85 of operator 0 of voice 0, two bits wide in the
packed byte 11), byte 96 of the first patch (17 * 5 + 11) is 4: the field is
not masked, so its bits 2 and 3, which hold field 86, read 1 although field 86
is 0 in the file; masking would give `(4 % 4) ||| (0 <<< 2) = 0`. And two
values of that voice are offset-corrected, not one: byte 93 (17 * 5 + 8) is
235, field 84 minus 21 modulo 256 (hexter.c 826-827), and byte 117 is 220,
field 37 minus 36 modulo 256. -/
theorem decode_dx2_packing_counterexample :
    example_dx2_carry.length = 326454 ∧ no_sysex_header example_dx2_carry ∧
    dx2_field example_dx2_carry 0 85 = 4 ∧ dx2_field example_dx2_carry 0 86 = 0 ∧
    dx2_field example_dx2_carry 0 84 = 0 ∧ dx2_field example_dx2_carry 0 37 = 0 ∧
    ((4 % 4) ||| (0 <<< 2)) = 0 ∧
    ∃ st, dx7_patchbank_decode example_pack "bank.DX2" example_dx2_carry = some st ∧
      st.raw_patch_data.getD (17 * 5 + 11) 0 = 4 ∧
      st.raw_patch_data.getD (17 * 5 + 11) 0 / 4 % 4 = 1 ∧
      st.raw_patch_data.getD (17 * 5 + 8) 0 = 235 ∧
      st.raw_patch_data.getD 117 0 = 220 := by
  have hlen : example_dx2_carry.length = 326454 := by
    rw [example_dx2_carry, List.length_set, List.length_replicate]
  have hno : no_sysex_header example_dx2_carry :=
    no_sysex_header_zeros_set 326454 119 4 (by decide)
  have h85 : example_dx2_carry.getD (34 + 85) 0 = 4 :=
    getD_set_same _ 119 4 (by rw [List.length_replicate]; decide)
  have hz : ∀ k, 119 ≠ k → example_dx2_carry.getD k 0 = 0 := by
    intro k hk
    rw [example_dx2_carry, getD_set_other _ 119 k 4 hk]
    exact getD_replicate_zero _ _
  have h86 := hz (34 + 86) (by decide)
  have h84 := hz (34 + 84) (by decide)
  have h37 := hz (34 + 37) (by decide)
  obtain ⟨st, hdec, _, _, hb⟩ := decode_dx2_bytes example_pack "bank.DX2"
    example_dx2_carry hno hlen (by decide)
  have b11 := hb 0 (by omega) 96 (by omega)
  rw [show (96 : Nat) = 17 * (5 - 0) + 11 from rfl,
    dx2_packed_byte_operator _ 0 11 (by omega) (by omega)] at b11
  have e11 : ∀ v : Nat → Nat, dx2_operator_byte v 11 = (v 85 + v 86 * 4) % 256 :=
    fun v => rfl
  rw [e11] at b11
  simp only [Nat.mul_zero, Nat.add_zero, Nat.zero_add] at b11
  rw [h85, h86] at b11
  have b8 := hb 0 (by omega) 93 (by omega)
  rw [show (93 : Nat) = 17 * (5 - 0) + 8 from rfl,
    dx2_packed_byte_operator _ 0 8 (by omega) (by omega)] at b8
  have e8 : ∀ v : Nat → Nat, dx2_operator_byte v 8 = (v 84 + 256 - 21) % 256 :=
    fun v => rfl
  rw [e8] at b8
  simp only [Nat.mul_zero, Nat.add_zero, Nat.zero_add] at b8
  rw [h84] at b8
  have b117 := hb 0 (by omega) 117 (by omega)
  have e117 : ∀ v : Nat → Nat, dx2_packed_byte v 117 = (v 37 + 256 - 36) % 256 :=
    fun v => rfl
  rw [e117] at b117
  simp only [Nat.mul_zero, Nat.add_zero, Nat.zero_add] at b117
  rw [h37] at b117
  have b11b : st.raw_patch_data.getD (17 * 5 + 11) 0 = 4 := b11
  refine ⟨hlen, hno, h85, h86, h84, h37, by decide, st, hdec, b11b, ?_, b8, b117⟩
  rw [b11b]

/-- C26, amended. DX200 multi-field packing and offset correction. For every
DX200 input and every voice, each packed multi-field byte is the sum modulo 256
of its source fields times the weights of their positions, with no masking
(per operator, `f k` being field `k` of the operator: byte 11 = f85 + 4 f86,
byte 12 = f89 + 8 f75, byte 13 = min(f71, 3) / 2 + 4 f91, byte 15 = f72 + 2 f73;
global, `g k` being field `k` of the voice: byte 111 = g18 + 8 g38,
byte 116 = g24 + 2 g19 + 16 g25). When the fields below the top one are within
their widths the sum is the disjoint-bit packing `f85 | f86 << 2` and so on
(byte 13 always, its low field being at most 1); an out-of-range field carries
into its neighbour. Seven values per voice are offset-corrected modulo 256:
byte 8 of each of the six operators is f84 - 21, and byte 117 is g37 - 36. -/
theorem decode_dx2_packing (pack : List Nat → List Nat) (filename : String) (data : List Nat)
    (hno : no_sysex_header data) (hlen : data.length = 326454)
    (hext : (has_extension filename ".DX2" || has_extension filename ".dx2") = true) :
    ∃ st, dx7_patchbank_decode pack filename data = some st ∧
      ∀ c, c < 128 →
        (∀ op, op < 6 →
          st.raw_patch_data.getD (128 * c + (17 * (5 - op) + 11)) 0 =
            (dx2_field data c (35 * op + 85) + dx2_field data c (35 * op + 86) * 4) % 256 ∧
          st.raw_patch_data.getD (128 * c + (17 * (5 - op) + 12)) 0 =
            (dx2_field data c (35 * op + 89) + dx2_field data c (35 * op + 75) * 8) % 256 ∧
          st.raw_patch_data.getD (128 * c + (17 * (5 - op) + 13)) 0 =
            (min (dx2_field data c (35 * op + 71)) 3 / 2 +
              dx2_field data c (35 * op + 91) * 4) % 256 ∧
          st.raw_patch_data.getD (128 * c + (17 * (5 - op) + 15)) 0 =
            (dx2_field data c (35 * op + 72) + dx2_field data c (35 * op + 73) * 2) % 256 ∧
          st.raw_patch_data.getD (128 * c + (17 * (5 - op) + 8)) 0 =
            (dx2_field data c (35 * op + 84) + 256 - 21) % 256 ∧
          (dx2_field data c (35 * op + 85) < 4 →
            st.raw_patch_data.getD (128 * c + (17 * (5 - op) + 11)) 0 =
              (dx2_field data c (35 * op + 85) |||
                (dx2_field data c (35 * op + 86) <<< 2)) % 256) ∧
          (dx2_field data c (35 * op + 89) < 8 →
            st.raw_patch_data.getD (128 * c + (17 * (5 - op) + 12)) 0 =
              (dx2_field data c (35 * op + 89) |||
                (dx2_field data c (35 * op + 75) <<< 3)) % 256) ∧
          st.raw_patch_data.getD (128 * c + (17 * (5 - op) + 13)) 0 =
            ((min (dx2_field data c (35 * op + 71)) 3 / 2) |||
              (dx2_field data c (35 * op + 91) <<< 2)) % 256 ∧
          (dx2_field data c (35 * op + 72) < 2 →
            st.raw_patch_data.getD (128 * c + (17 * (5 - op) + 15)) 0 =
              (dx2_field data c (35 * op + 72) |||
                (dx2_field data c (35 * op + 73) <<< 1)) % 256)) ∧
        st.raw_patch_data.getD (128 * c + 111) 0 =
          (dx2_field data c 18 + dx2_field data c 38 * 8) % 256 ∧
        st.raw_patch_data.getD (128 * c + 116) 0 =
          (dx2_field data c 24 + dx2_field data c 19 * 2 + dx2_field data c 25 * 16) % 256 ∧
        st.raw_patch_data.getD (128 * c + 117) 0 = (dx2_field data c 37 + 256 - 36) % 256 ∧
        (dx2_field data c 18 < 8 →
          st.raw_patch_data.getD (128 * c + 111) 0 =
            (dx2_field data c 18 ||| (dx2_field data c 38 <<< 3)) % 256) ∧
        (dx2_field data c 24 < 2 → dx2_field data c 19 < 8 →
          st.raw_patch_data.getD (128 * c + 116) 0 =
            (dx2_field data c 24 ||| (dx2_field data c 19 <<< 1) |||
              (dx2_field data c 25 <<< 4)) % 256) := by
  obtain ⟨st, hdec, _, _, hb⟩ := decode_dx2_bytes pack filename data hno hlen hext
  refine ⟨st, hdec, fun c hc => ?_⟩
  have hop : ∀ op, op < 6 → ∀ k, k < 17 →
      st.raw_patch_data.getD (128 * c + (17 * (5 - op) + k)) 0 =
        dx2_operator_byte (fun f => dx2_field data c (35 * op + f)) k := by
    intro op hop k hk
    rw [hb c hc _ (by omega), dx2_packed_byte_operator _ op k hop hk]
    rfl
  have hg : ∀ j, j < 128 → st.raw_patch_data.getD (128 * c + j) 0 =
      dx2_packed_byte (fun f => dx2_field data c f) j := fun j hj => hb c hc j hj
  have e11 : ∀ v : Nat → Nat, dx2_operator_byte v 11 = (v 85 + v 86 * 4) % 256 :=
    fun v => rfl
  have e12 : ∀ v : Nat → Nat, dx2_operator_byte v 12 = (v 89 + v 75 * 8) % 256 :=
    fun v => rfl
  have e13 : ∀ v : Nat → Nat, dx2_operator_byte v 13 = (min (v 71) 3 / 2 + v 91 * 4) % 256 :=
    fun v => rfl
  have e15 : ∀ v : Nat → Nat, dx2_operator_byte v 15 = (v 72 + v 73 * 2) % 256 :=
    fun v => rfl
  have e8 : ∀ v : Nat → Nat, dx2_operator_byte v 8 = (v 84 + 256 - 21) % 256 :=
    fun v => rfl
  have e111 : ∀ v : Nat → Nat, dx2_packed_byte v 111 = (v 18 + v 38 * 8) % 256 :=
    fun v => rfl
  have e116 : ∀ v : Nat → Nat,
      dx2_packed_byte v 116 = (v 24 + v 19 * 2 + v 25 * 16) % 256 := fun v => rfl
  have e117 : ∀ v : Nat → Nat, dx2_packed_byte v 117 = (v 37 + 256 - 36) % 256 :=
    fun v => rfl
  refine ⟨fun op hop2 => ?_, ?_, ?_, ?_, ?_, ?_⟩
  · have b11 := hop op hop2 11 (by omega)
    have b12 := hop op hop2 12 (by omega)
    have b13 := hop op hop2 13 (by omega)
    have b15 := hop op hop2 15 (by omega)
    have b8 := hop op hop2 8 (by omega)
    rw [e11] at b11
    rw [e12] at b12
    rw [e13] at b13
    rw [e15] at b15
    rw [e8] at b8
    refine ⟨b11, b12, b13, b15, b8, ?_, ?_, ?_, ?_⟩
    · intro h
      rw [b11, ← add_shift_eq_or _ _ 2 4 rfl h]
    · intro h
      rw [b12, ← add_shift_eq_or _ _ 3 8 rfl h]
    · have hx : min (dx2_field data c (35 * op + 71)) 3 / 2 < 4 := by omega
      rw [b13, ← add_shift_eq_or _ _ 2 4 rfl hx]
    · intro h
      rw [b15, ← add_shift_eq_or _ _ 1 2 rfl h]
  · rw [hg 111 (by omega), e111]
  · rw [hg 116 (by omega), e116]
  · rw [hg 117 (by omega), e117]
  · intro h
    rw [hg 111 (by omega), e111, ← add_shift_eq_or _ _ 3 8 rfl h]
  · intro h1 h2
    have h3 : dx2_field data c 24 + dx2_field data c 19 * 2 < 16 := by omega
    rw [hg 116 (by omega), e116, ← add_shift_eq_or _ _ 1 2 rfl h1,
      ← add_shift_eq_or _ _ 4 16 rfl h3]

/-- C26, amended, on a DX200-sized file of bytes of value 1 named `bank.DX2`. -/
theorem decode_dx2_packing_witness :
    ∃ st, dx7_patchbank_decode example_pack "bank.DX2" example_dx2_ones = some st ∧
      ∀ c, c < 128 →
        (∀ op, op < 6 →
          st.raw_patch_data.getD (128 * c + (17 * (5 - op) + 11)) 0 =
            (dx2_field example_dx2_ones c (35 * op + 85) + dx2_field example_dx2_ones c (35 * op + 86) * 4) % 256 ∧
          st.raw_patch_data.getD (128 * c + (17 * (5 - op) + 12)) 0 =
            (dx2_field example_dx2_ones c (35 * op + 89) + dx2_field example_dx2_ones c (35 * op + 75) * 8) % 256 ∧
          st.raw_patch_data.getD (128 * c + (17 * (5 - op) + 13)) 0 =
            (min (dx2_field example_dx2_ones c (35 * op + 71)) 3 / 2 +
              dx2_field example_dx2_ones c (35 * op + 91) * 4) % 256 ∧
          st.raw_patch_data.getD (128 * c + (17 * (5 - op) + 15)) 0 =
            (dx2_field example_dx2_ones c (35 * op + 72) + dx2_field example_dx2_ones c (35 * op + 73) * 2) % 256 ∧
          st.raw_patch_data.getD (128 * c + (17 * (5 - op) + 8)) 0 =
            (dx2_field example_dx2_ones c (35 * op + 84) + 256 - 21) % 256 ∧
          (dx2_field example_dx2_ones c (35 * op + 85) < 4 →
            st.raw_patch_data.getD (128 * c + (17 * (5 - op) + 11)) 0 =
              (dx2_field example_dx2_ones c (35 * op + 85) |||
                (dx2_field example_dx2_ones c (35 * op + 86) <<< 2)) % 256) ∧
          (dx2_field example_dx2_ones c (35 * op + 89) < 8 →
            st.raw_patch_data.getD (128 * c + (17 * (5 - op) + 12)) 0 =
              (dx2_field example_dx2_ones c (35 * op + 89) |||
                (dx2_field example_dx2_ones c (35 * op + 75) <<< 3)) % 256) ∧
          st.raw_patch_data.getD (128 * c + (17 * (5 - op) + 13)) 0 =
            ((min (dx2_field example_dx2_ones c (35 * op + 71)) 3 / 2) |||
              (dx2_field example_dx2_ones c (35 * op + 91) <<< 2)) % 256 ∧
          (dx2_field example_dx2_ones c (35 * op + 72) < 2 →
            st.raw_patch_data.getD (128 * c + (17 * (5 - op) + 15)) 0 =
              (dx2_field example_dx2_ones c (35 * op + 72) |||
                (dx2_field example_dx2_ones c (35 * op + 73) <<< 1)) % 256)) ∧
        st.raw_patch_data.getD (128 * c + 111) 0 =
          (dx2_field example_dx2_ones c 18 + dx2_field example_dx2_ones c 38 * 8) % 256 ∧
        st.raw_patch_data.getD (128 * c + 116) 0 =
          (dx2_field example_dx2_ones c 24 + dx2_field example_dx2_ones c 19 * 2 + dx2_field example_dx2_ones c 25 * 16) % 256 ∧
        st.raw_patch_data.getD (128 * c + 117) 0 = (dx2_field example_dx2_ones c 37 + 256 - 36) % 256 ∧
        (dx2_field example_dx2_ones c 18 < 8 →
          st.raw_patch_data.getD (128 * c + 111) 0 =
            (dx2_field example_dx2_ones c 18 ||| (dx2_field example_dx2_ones c 38 <<< 3)) % 256) ∧
        (dx2_field example_dx2_ones c 24 < 2 → dx2_field example_dx2_ones c 19 < 8 →
          st.raw_patch_data.getD (128 * c + 116) 0 =
            (dx2_field example_dx2_ones c 24 ||| (dx2_field example_dx2_ones c 19 <<< 1) |||
              (dx2_field example_dx2_ones c 25 <<< 4)) % 256) :=
  decode_dx2_packing example_pack "bank.DX2" example_dx2_ones
    (no_sysex_header_of_no_f0 _ (fun x hx => by
      rw [List.eq_of_mem_replicate hx]; decide))
    (List.length_replicate _ _) (by decide)

theorem midi_magic_reads_lt (raw : List Nat) (i : Nat) (h : i ∈ midi_magic_reads raw) :
    i < 4 := by
  unfold midi_magic_reads at h
  split_ifs at h <;>
    simp only [List.mem_cons, List.mem_singleton, List.not_mem_nil, or_false] at h <;> omega

theorem voyetra_reads_lt (raw : List Nat) (i : Nat) (h : i ∈ voyetra_reads raw) : i < 4 := by
  unfold voyetra_reads at h
  split_ifs at h <;>
    simp only [List.mem_cons, List.mem_singleton, List.not_mem_nil, or_false] at h <;> omega

theorem bulk_test_reads_lt (raw : List Nat) (ms L ps : Nat) (hc : ps + ms + 5 < L) (i : Nat)
    (h : i ∈ bulk_test_reads raw ms L ps) : i < L := by
  unfold bulk_test_reads at h
  split_ifs at h <;>
    simp only [List.mem_cons, List.mem_singleton, List.not_mem_nil, or_false] at h <;> omega

theorem single_test_reads_lt (raw : List Nat) (ms L ps : Nat) (hc : ps + ms + 5 < L) (i : Nat)
    (h : i ∈ single_test_reads raw ms L ps) : i < L := by
  unfold single_test_reads at h
  split_ifs at h <;>
    simp only [List.mem_cons, List.mem_singleton, List.not_mem_nil, or_false] at h <;> omega

/-- Every access of the scan lies inside the buffer. -/
theorem sysex_scan_accesses_bounds (pack : List Nat → List Nat) (ms L : Nat) :
    ∀ (fuel ps count : Nat) (raw : List Nat),
      raw.length = L → 128 * count ≤ ps →
      ∀ a, a ∈ sysex_scan_accesses pack ms L fuel ps count raw → a.1 + a.2 ≤ L := by
  intro fuel
  induction fuel with
  | zero =>
    intro ps count raw _ _ a ha
    simp [sysex_scan_accesses] at ha
  | succ fuel ih =>
    intro ps count raw hlen hc a ha
    by_cases hcond : ps + ms + 5 < L
    · simp only [sysex_scan_accesses, if_pos hcond, List.mem_append, List.mem_map] at ha
      rcases ha with ⟨i, hi, rfl⟩ | ha
      · have := bulk_test_reads_lt raw ms L ps hcond i hi
        show i + 1 ≤ L
        omega
      · by_cases hb : is_bulk_dump raw ms L ps = true
        · have hbound := is_bulk_dump_bound raw ms L ps hb
          simp only [if_pos hb, List.mem_cons, DX7_DUMP_SIZE_VOICE_BULK,
            DX7_VOICE_SIZE_PACKED] at ha
          rcases ha with rfl | rfl | ha
          · show ps + 6 + ms + 4096 ≤ L
            omega
          · show count * 128 + 4096 ≤ L
            omega
          · exact ih _ _ _
              (by rw [memmove_length raw _ _ _ (by omega) (by omega)]; exact hlen)
              (by omega) a ha
        · simp only [if_neg hb, List.mem_append, List.mem_map] at ha
          rcases ha with ⟨i, hi, rfl⟩ | ha
          · have := single_test_reads_lt raw ms L ps hcond i hi
            show i + 1 ≤ L
            omega
          · by_cases hs : is_single_dump raw ms L ps = true
            · have hbound := is_single_dump_bound raw ms L ps hs
              simp only [if_pos hs, List.mem_cons, DX7_DUMP_SIZE_VOICE_SINGLE,
                DX7_VOICE_SIZE_PACKED, DX7_VOICE_SIZE_UNPACKED] at ha
              rcases ha with rfl | rfl | ha
              · show ps + ms + 6 + 155 ≤ L
                omega
              · show count * 128 + 128 ≤ L
                omega
              · exact ih _ _ _
                  (by
                    rw [write_bytes_length raw _ _ (by
                      have := List.length_take_le 128 (pack (bytes_at raw (ps + ms + 6) 155))
                      omega)]
                    exact hlen)
                  (by omega) a ha
            · simp only [if_neg hs] at ha
              exact ih _ _ _ hlen (by omega) a ha
    · simp [sysex_scan_accesses, hcond] at ha

theorem bnk_accesses_bounds (a : Nat × Nat) (h : a ∈ bnk_accesses) : a.1 + a.2 ≤ 8192 := by
  simp only [bnk_accesses, List.mem_flatten, List.mem_map, List.mem_range] at h
  obtain ⟨l, ⟨i, hi, rfl⟩, ha⟩ := h
  simp only [List.mem_cons, List.mem_singleton, List.not_mem_nil, or_false] at ha
  rcases ha with rfl | rfl
  · show 256 * i + 128 ≤ 8192
    omega
  · show 128 * i + 128 ≤ 8192
    omega

theorem dx2_operator_accesses_bounds (c op : Nat) (hc : c < 128) (hop : op < 6) :
    ∀ a, a ∈ dx2_operator_accesses c op → a.1 + a.2 ≤ 65152 := by
  simp only [dx2_operator_accesses, List.forall_mem_cons, List.not_mem_nil, false_imp_iff,
    implies_true, and_true]
  and_intros <;> omega

theorem dx2_globals_accesses_bounds (c : Nat) (hc : c < 128) :
    ∀ a, a ∈ dx2_globals_accesses c → a.1 + a.2 ≤ 65152 := by
  simp only [dx2_globals_accesses, List.forall_mem_cons, List.not_mem_nil, false_imp_iff,
    implies_true, and_true]
  and_intros <;> omega

/-- Every access of the DX200 transcoding lies below 65152. -/
theorem dx2_accesses_bounds (a : Nat × Nat) (h : a ∈ dx2_accesses) : a.1 + a.2 ≤ 65152 := by
  simp only [dx2_accesses, List.mem_cons, List.mem_flatten, List.mem_map, List.mem_range,
    List.mem_append] at h
  rcases h with rfl | rfl | ⟨l, ⟨c, hc, rfl⟩, ha⟩
  · decide
  · decide
  · simp only [List.mem_append, List.mem_flatten, List.mem_map, List.mem_range] at ha
    rcases ha with ⟨l2, ⟨op, hop, rfl⟩, ha2⟩ | ha
    · exact dx2_operator_accesses_bounds c op hc hop a ha2
    · exact dx2_globals_accesses_bounds c hc a ha

theorem ite_4096_eq (c : Prop) [Decidable c] (x v : Nat) (hv : v ≠ 4096)
    (h : (if c then 4096 else x) = v) : x = v := by
  split_ifs at h
  · exact absurd h.symm hv
  · exact h

theorem mem_ite_nil {α : Type} (c : Prop) [Decidable c] (l : List α) (a : α)
    (h : a ∈ if c then l else []) : c ∧ a ∈ l := by
  split_ifs at h with hc
  · exact ⟨hc, h⟩
  · simp at h

/-- Every access of the vendor cases lies inside the buffer. -/
theorem vendor_accesses_bounds (filename : String) (st : decode_state)
    (h4 : 4 ≤ st.filelength) :
    ∀ a, a ∈ vendor_accesses filename st → a.1 + a.2 ≤ st.filelength := by
  intro a ha
  unfold vendor_accesses at ha
  simp only [List.mem_append] at ha
  rcases ha with (ha | ha) | ha
  · obtain ⟨hb, ha⟩ := mem_ite_nil _ _ _ ha
    simp only [Bool.and_eq_true, beq_iff_eq] at hb
    have hL := ite_4096_eq _ _ _ (by decide) hb.2
    have := bnk_accesses_bounds a ha
    omega
  · obtain ⟨_, ha⟩ := mem_ite_nil _ _ _ ha
    simp only [List.mem_map] at ha
    obtain ⟨i, hi, rfl⟩ := ha
    have := voyetra_reads_lt _ i hi
    show i + 1 ≤ st.filelength
    omega
  · obtain ⟨hd, ha⟩ := mem_ite_nil _ _ _ ha
    simp only [Bool.and_eq_true, beq_iff_eq] at hd
    have h3 := ite_4096_eq _ _ _ (by decide) hd.2
    have h2 := ite_4096_eq _ _ _ (by decide) h3
    have hL := ite_4096_eq _ _ _ (by decide) h2
    have := dx2_accesses_bounds a ha
    omega

/-- The vendor cases keep the length of the buffer. -/
theorem vendor_cases_raw_length (filename : String) (st : decode_state)
    (hraw : st.raw_patch_data.length = st.filelength) :
    (vendor_cases filename st).raw_patch_data.length = st.raw_patch_data.length := by
  obtain ⟨c, ds, L, raw⟩ := st
  simp only at hraw
  unfold vendor_cases
  simp only
  split_ifs <;> simp_all [bnk_deinterleave_length, dx2_transcode_length]

/-- The decoder state holds a buffer of the file's length. -/
theorem decode_raw_length (pack : List Nat → List Nat) (filename : String) (data : List Nat)
    (st : decode_state) (h : dx7_patchbank_decode pack filename data = some st) :
    st.raw_patch_data.length = data.length := by
  unfold dx7_patchbank_decode at h
  simp only at h
  cases hscan : sysex_scan pack (midi_shift data) data.length data.length 0 0 data with
  | none => rw [hscan] at h; cases h
  | some r =>
    rw [hscan] at h
    simp only [Option.some.injEq] at h
    obtain ⟨hlen, _⟩ := sysex_scan_bounds pack (midi_shift data) data.length data.length
      0 0 data r hscan rfl (by omega) (by omega)
    rw [← h, vendor_cases_raw_length filename _ hlen]
    exact hlen

/-- C27. Decoder reads and writes stay inside the file. For every file of at
least 128 bytes (so for every accepted input), every file name and every
`maxpatches`: every range of the buffer read or written by the MIDI-file test,
the scan, the vendor cases and the DX200 transcoding ends at or before the
file length `L`, so every index accessed is below `L`; the decoder returns a
state whose buffer still has `L` bytes; and the final copy lies inside it,
`datastart + 128 * count ≤ L`, before and after the cap. -/
theorem decode_accesses_in_bounds (pack : List Nat → List Nat) (filename : String)
    (data : List Nat) (maxpatches : Nat) (h128 : 128 ≤ data.length) :
    (∀ a, a ∈ decode_accesses pack filename data → a.1 + a.2 ≤ data.length) ∧
    ∃ st, dx7_patchbank_decode pack filename data = some st ∧
      st.raw_patch_data.length = data.length ∧
      st.datastart + 128 * st.count ≤ data.length ∧
      st.datastart + 128 * min st.count maxpatches ≤ data.length := by
  constructor
  · intro a ha
    unfold decode_accesses at ha
    simp only [List.mem_append, List.mem_map] at ha
    rcases ha with (⟨i, hi, rfl⟩ | ha) | ha
    · have := midi_magic_reads_lt data i hi
      show i + 1 ≤ data.length
      omega
    · exact sysex_scan_accesses_bounds pack (midi_shift data) data.length data.length 0 0
        data rfl (by omega) a ha
    · cases hscan : sysex_scan pack (midi_shift data) data.length data.length 0 0 data with
      | none => rw [hscan] at ha; simp at ha
      | some r =>
        rw [hscan] at ha
        exact vendor_accesses_bounds filename _ (by show 4 ≤ data.length; omega) a ha
  · obtain ⟨st, hst⟩ := dx7_patchbank_decode_total pack filename data
    have hb := decode_bounds pack filename data st hst
    have hl := decode_raw_length pack filename data st hst
    refine ⟨st, hst, hl, by omega, ?_⟩
    have : min st.count maxpatches ≤ st.count := Nat.min_le_left _ _
    have : 128 * min st.count maxpatches ≤ 128 * st.count := Nat.mul_le_mul_left _ this
    omega

/-- C27 on a 326454-byte file of zeros named `bank.DX2`, which takes the DX200
transcoding. -/
theorem decode_accesses_in_bounds_witness :
    (∀ a, a ∈ decode_accesses example_pack "bank.DX2" (List.replicate 326454 0) →
      a.1 + a.2 ≤ (List.replicate 326454 0).length) ∧
    ∃ st, dx7_patchbank_decode example_pack "bank.DX2" (List.replicate 326454 0) = some st ∧
      st.raw_patch_data.length = (List.replicate 326454 0).length ∧
      st.datastart + 128 * st.count ≤ (List.replicate 326454 0).length ∧
      st.datastart + 128 * min st.count 64 ≤ (List.replicate 326454 0).length :=
  decode_accesses_in_bounds example_pack "bank.DX2" (List.replicate 326454 0) 64
    (by rw [List.length_replicate]; decide)

/-- From a cursor on which no test succeeds any more, the scan returns what it
has. -/
theorem sysex_scan_no_match_from (pack : List Nat → List Nat) (ms L : Nat) (raw : List Nat) :
    ∀ (fuel ps count : Nat),
      (∀ p, ps ≤ p → is_bulk_dump raw ms L p = false ∧ is_single_dump raw ms L p = false) →
      L ≤ ps + fuel → sysex_scan pack ms L fuel ps count raw = some (count, raw) := by
  intro fuel
  induction fuel with
  | zero =>
    intro ps count _ hf
    have : ¬ ps + ms + 5 < L := by omega
    simp [sysex_scan, this]
  | succ fuel ih =>
    intro ps count h hf
    by_cases hc : ps + ms + 5 < L
    · simp only [sysex_scan, if_pos hc, (h ps (Nat.le_refl _)).1, (h ps (Nat.le_refl _)).2,
        Bool.false_eq_true, if_false]
      exact ih (ps + 1) count (fun p hp => h p (by omega)) (by omega)
    · simp [sysex_scan, hc]

/-- The vendor cases after a scan that found 32 patches at offset 0: unless one
of the overriding cases applies, the count, the data offset and the buffer
stay as they were. -/
theorem vendor_cases_keeps (filename : String) (st : decode_state)
    (hc : st.count = 32) (hd : st.datastart = 0)
    (h : ¬ vendor_case_overrides filename st.filelength st.raw_patch_data) :
    (vendor_cases filename st).count = 32 ∧ (vendor_cases filename st).datastart = 0 ∧
      (vendor_cases filename st).raw_patch_data = st.raw_patch_data := by
  obtain ⟨c, ds, L, raw⟩ := st
  simp only at hc hd h
  subst hc hd
  simp only [vendor_case_overrides, not_or, not_and] at h
  obtain ⟨h1, h2, h3⟩ := h
  unfold vendor_cases
  simp only
  split_ifs <;> simp_all

/-- The scan on a buffer with the shift 2 that holds a shifted 32-voice dump with
no `F0` before it and none after it: the dump is recognised, its payload is
moved to the front, and nothing else is. A checksum byte `F0` is allowed when
the dump ends the buffer. -/
theorem sysex_scan_shifted_dump_tail (pack : List Nat → List Nat)
    (pre payload tail : List Nat) (x1 x2 n b4 ck : Nat) (hn : n ≤ 0x0f)
    (hp : payload.length = 4096) (hpre : ∀ x, x ∈ pre → x ≠ 0xf0)
    (htail : ∀ x, x ∈ tail → x ≠ 0xf0) (hck : ck ≠ 0xf0 ∨ tail = []) :
    (pre ++ shifted_bulk_dump x1 x2 n b4 payload ck ++ tail).length =
      pre.length + 4106 + tail.length ∧
    is_bulk_dump (pre ++ shifted_bulk_dump x1 x2 n b4 payload ck ++ tail) 2
      (pre.length + 4106 + tail.length) pre.length = true ∧
    sysex_scan pack 2 (pre.length + 4106 + tail.length) (pre.length + 4106 + tail.length) 0 0
        (pre ++ shifted_bulk_dump x1 x2 n b4 payload ck ++ tail) =
      some (32, memmove (pre ++ shifted_bulk_dump x1 x2 n b4 payload ck ++ tail) 0
        (pre.length + 8) 4096) ∧
    bytes_at (memmove (pre ++ shifted_bulk_dump x1 x2 n b4 payload ck ++ tail) 0
        (pre.length + 8) 4096) 0 4096 = payload := by
  generalize hdata : pre ++ shifted_bulk_dump x1 x2 n b4 payload ck ++ tail = data
  have hlen : data.length = pre.length + 4106 + tail.length := by
    rw [← hdata]
    simp only [shifted_bulk_dump, List.length_append, List.length_cons, List.length_nil, hp]
  have hview : ∀ j, data.getD (pre.length + j) 0 =
      (0xf0 :: x1 :: x2 :: 0x43 :: n :: 0x09 :: b4 :: 0x00 ::
        (payload ++ ([ck, 0xf7] ++ tail))).getD j 0 := by
    intro j
    rw [← hdata, List.append_assoc, List.getD_append_right _ _ _ _ (by omega)]
    simp only [shifted_bulk_dump, List.cons_append, List.nil_append, List.append_assoc,
      Nat.add_sub_cancel_left]
  have hno : ∀ q, q < pre.length → data.getD q 0 ≠ 0xf0 := by
    intro q hq
    rw [← hdata, List.append_assoc, List.getD_append _ _ _ _ hq]
    exact getD_ne_of_forall_mem pre 0xf0 (by decide) hpre q
  have hafter : ∀ k, data.getD (pre.length + 4104 + k) 0 = ([ck, 0xf7] ++ tail).getD k 0 := by
    intro k
    have h := hview (4104 + k)
    rw [← Nat.add_assoc] at h
    rw [h, show 4104 + k = (4096 + k) + 8 from by omega]
    simp only [List.getD_cons_succ]
    rw [List.getD_append_right _ _ _ _ (by omega), hp, Nat.add_sub_cancel_left]
  have h0 := hview 0
  have h3 := hview 3
  have h4 := hview 4
  have h5 := hview 5
  have h7 := hview 7
  have h4105 := hafter 1
  simp only [List.getD_cons_zero, List.getD_cons_succ, Nat.add_zero, List.cons_append,
    List.nil_append] at h0 h3 h4 h5 h7 h4105
  have hb : is_bulk_dump data 2 (pre.length + 4106 + tail.length) pre.length = true := by
    have hd : decide (pre.length + 4103 + 2 < pre.length + 4106 + tail.length) = true :=
      decide_eq_true (by omega)
    have hdn : decide (n ≤ 0x0f) = true := decide_eq_true hn
    simp only [is_bulk_dump, h0, h3, h4, h5, h7, h4105, hd, hdn, beq_self_eq_true,
      Bool.and_self]
  have hmlen : (memmove data 0 (pre.length + 8) 4096).length = data.length :=
    memmove_length data _ _ _ (by omega) (by omega)
  have hrest : sysex_scan pack 2 (pre.length + 4106 + tail.length) (4105 + tail.length)
      (pre.length + 4104) 32 (memmove data 0 (pre.length + 8) 4096) =
      some (32, memmove data 0 (pre.length + 8) 4096) := by
    rcases hck with hck | hck
    · apply sysex_scan_no_match_from pack 2 _ _ _ _ _ _ (by omega)
      intro p hp2
      have hne : (memmove data 0 (pre.length + 8) 4096).getD p 0 ≠ 0xf0 := by
        rw [getD_memmove data _ _ _ _ (by omega) (by omega), if_neg (by omega)]
        obtain ⟨k, rfl⟩ : ∃ k, p = pre.length + 4104 + k := ⟨p - (pre.length + 4104), by omega⟩
        rw [hafter k]
        apply getD_ne_of_forall_mem _ 0xf0 (by decide)
        intro x hx
        simp only [List.cons_append, List.nil_append, List.mem_cons] at hx
        rcases hx with rfl | rfl | hx
        · exact hck
        · decide
        · exact htail x hx
      exact ⟨is_bulk_dump_false_of_ne _ _ _ _ hne, is_single_dump_false_of_ne _ _ _ _ hne⟩
    · subst hck
      exact sysex_scan_done pack 2 _ _ _ _ _ (by simp only [List.length_nil]; omega)
  have hscan : sysex_scan pack 2 (pre.length + 4106 + tail.length)
      (pre.length + 4106 + tail.length) 0 0 data =
      some (32, memmove data 0 (pre.length + 8) 4096) := by
    have hskip := sysex_scan_skip pack 2 (pre.length + 4106 + tail.length) data pre.length hno
      (by omega) pre.length 0 (4106 + tail.length) 0 (by omega)
    have hf : pre.length + 4106 + tail.length = 4106 + tail.length + pre.length := by omega
    refine (congrArg (fun f => sysex_scan pack 2 (pre.length + 4106 + tail.length) f 0 0 data)
      hf).trans (hskip.trans ?_)
    have hf2 : 4106 + tail.length = (4105 + tail.length) + 1 := by omega
    rw [hf2, sysex_scan_bulk pack 2 (pre.length + 4106 + tail.length) (4105 + tail.length)
      pre.length 0 data (by omega) hb]
    exact hrest
  refine ⟨hlen, hb, hscan, ?_⟩
  have hpay := bytes_at_eq_of_getD (memmove data 0 (pre.length + 8) 4096) payload 0
    (by rw [hmlen]; omega)
    (fun j hj => by
      rw [Nat.zero_add, getD_memmove data 0 (pre.length + 8) 4096 j (by omega) (by omega),
        if_pos (by omega), Nat.sub_zero,
        show pre.length + 8 + j = pre.length + (j + 8) from by omega, hview (j + 8)]
      simp only [List.getD_cons_succ]
      exact List.getD_append _ _ _ _ hj)
  rw [hp] at hpay
  exact hpay

/-- Decoding `MThd`, bytes other than `F0`, a shifted 32-voice dump and bytes
other than `F0`, when the file is 9816 or 5663 bytes long and the payload
starts `DF 05 01 00`: the Voyetra case of hexter.c 802-809 moves the data
offset to `0x60f`, and the first patch byte read there is byte `0x60f` of the
payload, not its first byte. -/
theorem decode_shifted_dump_voyetra (pack : List Nat → List Nat) (filename : String)
    (filler payload tail : List Nat) (x1 x2 n b4 ck : Nat)
    (hn : n ≤ 0x0f) (hp : payload.length = 4096) (hf : ∀ x, x ∈ filler → x ≠ 0xf0)
    (htail : ∀ x, x ∈ tail → x ≠ 0xf0) (hck : ck ≠ 0xf0 ∨ tail = [])
    (hL : (midi_magic ++ filler).length + 4106 + tail.length = 9816 ∨
      (midi_magic ++ filler).length + 4106 + tail.length = 5663)
    (h0 : payload.getD 0 0 = 0xdf) (h1 : payload.getD 1 0 = 0x05)
    (h2 : payload.getD 2 0 = 0x01) (h3 : payload.getD 3 0 = 0x00) :
    (midi_magic ++ filler ++ shifted_bulk_dump x1 x2 n b4 payload ck ++ tail).length =
        (midi_magic ++ filler).length + 4106 + tail.length ∧
    midi_shift (midi_magic ++ filler ++ shifted_bulk_dump x1 x2 n b4 payload ck ++ tail) = 2 ∧
    is_bulk_dump (midi_magic ++ filler ++ shifted_bulk_dump x1 x2 n b4 payload ck ++ tail) 2
        ((midi_magic ++ filler).length + 4106 + tail.length) (midi_magic ++ filler).length = true ∧
    ∃ st, dx7_patchbank_decode pack filename
        (midi_magic ++ filler ++ shifted_bulk_dump x1 x2 n b4 payload ck ++ tail) = some st ∧
      st.count = 32 ∧ st.datastart = 0x60f ∧
      (payload.getD 0x60f 0 ≠ 0xdf →
        bytes_at st.raw_patch_data st.datastart (128 * st.count) ≠ payload) := by
  have hpre : ∀ x, x ∈ midi_magic ++ filler → x ≠ 0xf0 := by
    intro x hx
    rcases List.mem_append.mp hx with h | h
    · exact (by decide : ∀ y ∈ midi_magic, y ≠ 0xf0) x h
    · exact hf x h
  have hms1 : midi_shift (midi_magic ++ filler ++ shifted_bulk_dump x1 x2 n b4 payload ck ++ tail) = 2 := by
    rw [List.append_assoc, List.append_assoc]; exact midi_shift_magic _
  obtain ⟨hlen, hb, hscan, hpay⟩ := sysex_scan_shifted_dump_tail pack (midi_magic ++ filler)
    payload tail x1 x2 n b4 ck hn hp hpre htail hck
  have hscan2 := hscan
  rw [← hlen] at hscan2 hL
  have hg : ∀ j, j < 4096 →
      (memmove (midi_magic ++ filler ++ shifted_bulk_dump x1 x2 n b4 payload ck ++ tail) 0 ((midi_magic ++ filler).length + 8) 4096).getD j 0 =
        payload.getD j 0 := by
    intro j hj
    have h := getD_bytes_at
      (memmove (midi_magic ++ filler ++ shifted_bulk_dump x1 x2 n b4 payload ck ++ tail) 0 ((midi_magic ++ filler).length + 8) 4096) 0 4096 j hj
    rw [Nat.zero_add] at h
    rw [← h]
    exact congrArg (fun l => l.getD j 0) hpay
  have hvc := vendor_cases_voyetra filename
    { count := 32, datastart := 0, filelength := (midi_magic ++ filler ++ shifted_bulk_dump x1 x2 n b4 payload ck ++ tail).length,
      raw_patch_data := memmove (midi_magic ++ filler ++ shifted_bulk_dump x1 x2 n b4 payload ck ++ tail) 0 ((midi_magic ++ filler).length + 8) 4096 }
    hL ((hg 0 (by decide)).trans h0) ((hg 1 (by decide)).trans h1)
    ((hg 2 (by decide)).trans h2) ((hg 3 (by decide)).trans h3)
  refine ⟨hlen, hms1, hb, _, by simp only [dx7_patchbank_decode, hms1, hscan2]; exact congrArg some hvc, rfl, rfl, ?_⟩
  intro hne heq
  have e := congrArg (fun l => l.getD 0 0) heq
  simp only at e
  rw [getD_bytes_at _ _ _ 0 (by decide), Nat.add_zero, hg 0x60f (by decide), h0] at e
  exact hne e

/-- C22 as stated fails when a vendor case applies to the file. The file
`example_voyetra_sized_midi` is a standard MIDI file of 5663 bytes: it starts
`MThd`, a 32-voice dump shifted by two bytes stands at offset 1553, and nothing
in it but the dump's first byte is `F0`. Its payload starts `DF 05 01 00`, so
after the scan has matched the dump the Voyetra case of hexter.c 802-809 sets
the data offset to `0x60f`: the 32 patches the decoder yields are read from
there and are not the payload. -/
theorem midi_container_shift_counterexample :
    example_voyetra_sized_midi.length = 5663 ∧
    midi_shift example_voyetra_sized_midi = 2 ∧
    is_bulk_dump example_voyetra_sized_midi 2 5663 1553 = true ∧
    ∃ st, dx7_patchbank_decode example_pack "song.mid" example_voyetra_sized_midi = some st ∧
      st.count = 32 ∧ st.datastart = 0x60f ∧
      bytes_at st.raw_patch_data st.datastart (128 * st.count) ≠
        [0xdf, 0x05, 0x01, 0x00] ++ List.replicate 4092 0 := by
  have hprelen : (midi_magic ++ List.replicate 1549 0).length = 1553 := by
    rw [List.length_append, List.length_replicate]; rfl
  have hp : ([0xdf, 0x05, 0x01, 0x00] ++ List.replicate 4092 0).length = 4096 := by
    rw [List.length_append, List.length_replicate]; rfl
  have hq : ([0xdf, 0x05, 0x01, 0x00] ++ List.replicate 4092 0).getD 0x60f 0 ≠ 0xdf := by
    rw [List.getD_append_right _ _ _ _ (Nat.le_of_lt (Nat.lt_of_sub_pos (by decide : 0 < 0x60f - 4))),
      getD_replicate_zero]
    decide
  have hfill : ∀ x, x ∈ List.replicate 1549 0 → x ≠ 0xf0 := by
    intro x hx
    rw [List.eq_of_mem_replicate hx]
    decide
  obtain ⟨hlen, hms, hb, st, hdec, hc, hd, hne⟩ := decode_shifted_dump_voyetra example_pack
    "song.mid" (List.replicate 1549 0) ([0xdf, 0x05, 0x01, 0x00] ++ List.replicate 4092 0)
    [0x00, 0xff, 0x2f, 0x00] 0x7f 0x7f 0 0x20 0 (by decide) hp hfill (by decide)
    (Or.inl (by decide)) (Or.inr (by rw [hprelen]; rfl)) rfl rfl rfl rfl
  rw [hprelen] at hlen hb
  exact ⟨hlen, hms, hb, st, hdec, hc, hd, hne hq⟩

/-- C22, amended. MIDI-file container shift. A buffer gets the shift 2 exactly
when it begins with `4D 54 68 64`, and 0 otherwise. With the shift 2 every
offset the scan uses relative to a candidate `F0` at `p` is 2 greater: the
32-voice test, the single-voice test and both payload reads are the unshifted
ones on the buffer with the two bytes after `p` removed. So, in a file made of
`MThd`, any bytes other than `F0`, a 32-voice dump laid out as `F0`, two extra
bytes, `43 0n 09 .. 00`, 4096 payload bytes, a checksum byte and `F7`, and then
any bytes other than `F0` (the checksum byte not being `F0` either, unless the
dump ends the file), the dump is recognised: the scan returns count 32 with the
payload at the start of the buffer. The decoder then yields 32 patches at data
offset 0 equal to the payload, unless one of the overriding vendor cases
applies: the file is 8192 bytes long and named `*.BNK` or `*.bnk`, or 9816 or
5663 bytes long with a payload starting `DF 05 01 00`, or 326454 bytes long and
named `*.DX2` or `*.dx2`. The same file with the dump's two extra bytes left
out (and nothing after the dump) has the shift 2 as well, and there the dump's
`F0` matches neither test; when the dump holds no other `F0`, the scan matches
no header at all. -/
theorem midi_container_shift (pack : List Nat → List Nat) (filename : String)
    (filler payload tail : List Nat) (x1 x2 n b4 ck : Nat)
    (hn : n ≤ 0x0f) (hp : payload.length = 4096) (hf : ∀ x, x ∈ filler → x ≠ 0xf0)
    (htail : ∀ x, x ∈ tail → x ≠ 0xf0) (hck : ck ≠ 0xf0 ∨ tail = []) :
    (∀ data : List Nat, midi_shift data = if data.take 4 = midi_magic then 2 else 0) ∧
    (∀ (raw : List Nat) (L p : Nat), p + 1 ≤ raw.length →
      is_bulk_dump raw 2 L p = is_bulk_dump (cut_two raw p) 0 (L - 2) p ∧
      is_single_dump raw 2 L p = is_single_dump (cut_two raw p) 0 (L - 2) p ∧
      ∀ k, bytes_at raw (p + 6 + 2) k = bytes_at (cut_two raw p) (p + 6 + 0) k ∧
           bytes_at raw (p + 2 + 6) k = bytes_at (cut_two raw p) (p + 0 + 6) k) ∧
    (midi_shift (midi_magic ++ filler ++ shifted_bulk_dump x1 x2 n b4 payload ck ++ tail) = 2 ∧
     ∃ raw, sysex_scan pack (midi_shift (midi_magic ++ filler ++ shifted_bulk_dump x1 x2 n b4 payload ck ++ tail)) (midi_magic ++ filler ++ shifted_bulk_dump x1 x2 n b4 payload ck ++ tail).length (midi_magic ++ filler ++ shifted_bulk_dump x1 x2 n b4 payload ck ++ tail).length 0 0 (midi_magic ++ filler ++ shifted_bulk_dump x1 x2 n b4 payload ck ++ tail) =
         some (32, raw) ∧
       bytes_at raw 0 (128 * 32) = payload ∧
       (¬ vendor_case_overrides filename (midi_magic ++ filler ++ shifted_bulk_dump x1 x2 n b4 payload ck ++ tail).length payload →
         ∃ st, dx7_patchbank_decode pack filename (midi_magic ++ filler ++ shifted_bulk_dump x1 x2 n b4 payload ck ++ tail) = some st ∧
           st.count = 32 ∧ st.datastart = 0 ∧
           bytes_at st.raw_patch_data st.datastart (128 * st.count) = payload)) ∧
    (midi_shift (midi_magic ++ filler ++ dump_bytes (sysex_dump.bulk n b4 payload ck)) = 2 ∧
     is_bulk_dump (midi_magic ++ filler ++ dump_bytes (sysex_dump.bulk n b4 payload ck)) 2 (midi_magic ++ filler ++ dump_bytes (sysex_dump.bulk n b4 payload ck)).length (midi_magic ++ filler).length = false ∧
     is_single_dump (midi_magic ++ filler ++ dump_bytes (sysex_dump.bulk n b4 payload ck)) 2 (midi_magic ++ filler ++ dump_bytes (sysex_dump.bulk n b4 payload ck)).length (midi_magic ++ filler).length = false ∧
     (b4 ≠ 0xf0 → ck ≠ 0xf0 → (∀ x, x ∈ payload → x ≠ 0xf0) → no_sysex_header (midi_magic ++ filler ++ dump_bytes (sysex_dump.bulk n b4 payload ck)))) := by
  have hpre : ∀ x, x ∈ midi_magic ++ filler → x ≠ 0xf0 := by
    intro x hx
    rcases List.mem_append.mp hx with h | h
    · exact (by decide : ∀ y ∈ midi_magic, y ≠ 0xf0) x h
    · exact hf x h
  have hms1 : midi_shift (midi_magic ++ filler ++ shifted_bulk_dump x1 x2 n b4 payload ck ++ tail) = 2 := by
    rw [List.append_assoc, List.append_assoc]; exact midi_shift_magic _
  have hms2 : midi_shift (midi_magic ++ filler ++ dump_bytes (sysex_dump.bulk n b4 payload ck)) = 2 := by
    rw [List.append_assoc]; exact midi_shift_magic _
  obtain ⟨hlen, _, hscan, hpay⟩ := sysex_scan_shifted_dump_tail pack (midi_magic ++ filler)
    payload tail x1 x2 n b4 ck hn hp hpre htail hck
  refine ⟨midi_shift_eq, ?_, ⟨hms1, _, ?_, hpay, ?_⟩, hms2, ?_, ?_, ?_⟩
  · intro raw L p h
    refine ⟨is_bulk_dump_shift raw L p h, is_single_dump_shift raw L p h, fun k => ⟨?_, ?_⟩⟩
    · exact bytes_at_shift raw p 6 k h (by omega)
    · rw [show p + 2 + 6 = p + 6 + 2 from by omega, show p + 0 + 6 = p + 6 from by omega]
      exact bytes_at_shift raw p 6 k h (by omega)
  · rw [hms1, hlen]; exact hscan
  · intro hv
    have hscan2 := hscan
    rw [← hlen] at hscan2
    have hg : ∀ j, j < 4096 →
        (memmove (midi_magic ++ filler ++ shifted_bulk_dump x1 x2 n b4 payload ck ++ tail) 0 ((midi_magic ++ filler).length + 8) 4096).getD j 0 =
          payload.getD j 0 := by
      intro j hj
      have h := getD_bytes_at
        (memmove (midi_magic ++ filler ++ shifted_bulk_dump x1 x2 n b4 payload ck ++ tail) 0 ((midi_magic ++ filler).length + 8) 4096) 0 4096 j hj
      rw [Nat.zero_add] at h
      rw [← h]
      exact congrArg (fun l => l.getD j 0) hpay
    have hv2 : ¬ vendor_case_overrides filename (midi_magic ++ filler ++ shifted_bulk_dump x1 x2 n b4 payload ck ++ tail).length
        (memmove (midi_magic ++ filler ++ shifted_bulk_dump x1 x2 n b4 payload ck ++ tail) 0 ((midi_magic ++ filler).length + 8) 4096) := by
      intro h
      apply hv
      simp only [vendor_case_overrides] at h ⊢
      rw [hg 0 (by decide), hg 1 (by decide), hg 2 (by decide), hg 3 (by decide)] at h
      exact h
    obtain ⟨k1, k2, k3⟩ := vendor_cases_keeps filename
      { count := 32, datastart := 0, filelength := (midi_magic ++ filler ++ shifted_bulk_dump x1 x2 n b4 payload ck ++ tail).length,
        raw_patch_data := memmove (midi_magic ++ filler ++ shifted_bulk_dump x1 x2 n b4 payload ck ++ tail) 0 ((midi_magic ++ filler).length + 8) 4096 }
      rfl rfl hv2
    refine ⟨_, by simp only [dx7_patchbank_decode, hms1, hscan2]; rfl, k1, k2, ?_⟩
    rw [k3, k2, k1]
    exact hpay
  · exact (plain_dump_unrecognised (midi_magic ++ filler) payload n b4 ck _).1
  · exact (plain_dump_unrecognised (midi_magic ++ filler) payload n b4 ck _).2
  · intro hb4 hck2 hpl
    exact plain_dump_no_header (midi_magic ++ filler) payload n b4 ck hms2 hpre hn hb4 hck2 hpl

/-- C22, amended, on `MThd 00 00 00 06`, a shifted dump of 4096 bytes of value 9
and the four bytes `00 FF 2F 00` after it: decoded, before the cap, to 32
patches that are the payload. -/
theorem midi_container_shift_witness :
    ∃ st, dx7_patchbank_decode example_pack "song.mid"
        (midi_magic ++ [0, 0, 0, 6] ++
          shifted_bulk_dump 0x7f 0x7f 0 0x20 (List.replicate 4096 9) 0 ++
          [0x00, 0xff, 0x2f, 0x00]) = some st ∧
      st.count = 32 ∧ st.datastart = 0 ∧
      bytes_at st.raw_patch_data st.datastart (128 * st.count) = List.replicate 4096 9 := by
  obtain ⟨_, _, ⟨_, raw, _, _, hdec⟩, _⟩ :=
    midi_container_shift example_pack "song.mid" [0, 0, 0, 6] (List.replicate 4096 9)
      [0x00, 0xff, 0x2f, 0x00] 0x7f 0x7f 0 0x20 0 (by decide) (List.length_replicate _ _)
      (by decide) (by decide) (Or.inl (by decide))
  have hlen : (midi_magic ++ [0, 0, 0, 6] ++
      shifted_bulk_dump 0x7f 0x7f 0 0x20 (List.replicate 4096 9) 0 ++
      [0x00, 0xff, 0x2f, 0x00]).length = 4118 := by
    simp only [midi_magic, shifted_bulk_dump, List.length_append, List.length_cons,
      List.length_nil, List.length_replicate]
  apply hdec
  simp only [vendor_case_overrides, hlen]
  decide

end Hexter
